import Mathlib

/-!
Samsung ADC device core (arch/arm/plat-samsung/adc.c).

A shallow embedding of the arbitration and sampling scheduler of the Samsung
ADC core driver, and theorems about it.

Modelling conventions.

* Clients are identified by a natural number (the address of their
  `struct s3c_adc_client`); a NULL pointer is `none`.
* The device singleton `adc_dev`, the global list `adc_pending` and the client
  memory are gathered in one `State` record that every operation takes and
  returns.  The spin lock is not modelled: every operation is one atomic step.
* `unsigned` values are natural numbers reduced modulo `2^32` when stored,
  `unsigned char` fields modulo `2^8`.
* Calls that leave the driver (callbacks, register writes, warnings, wake-ups)
  are appended to `State.log`, oldest first.  A callback of a registrant is
  recorded by its call only; of what it does, the model keeps the value a
  sample-delivery callback stores through `samples_left`.
* The control register ADCCON is a memory cell: `readl` returns what the last
  `writel` stored.  The data registers are inputs of the interrupt handler.
-/

namespace S3cAdc

/-! ## Constants that live outside the driver file -/

/-- Modelled from the spec: the error `Busy`, which the source returns as
`-EAGAIN`; `errno.h` is not among the sources, the value is the one Linux gives
EAGAIN. -/
def EAGAIN : Int := 11

/-- Modelled from the spec: the error `NoMemory`, `-ENOMEM` in the source, with the
value Linux gives ENOMEM. -/
def ENOMEM : Int := 12

/-- Modelled from the spec: the error `InvalidArgument`, `-EINVAL` in the source,
with the value Linux gives EINVAL. -/
def EINVAL : Int := 22

/-- Modelled from the spec: the error `Timeout`, `-ETIMEDOUT` in the source, with
the value Linux gives ETIMEDOUT. -/
def ETIMEDOUT : Int := 110

/-- The `enum s3c_cpu_type` of the driver. -/
inductive s3c_cpu_type
  | TYPE_ADCV1
  | TYPE_ADCV2
  | TYPE_ADCV3
  | TYPE_ADCV4
  deriving DecidableEq, Repr

/-- Numeric value of an enumerator, used by the comparison `cpu >= TYPE_ADCV3`. -/
def s3c_cpu_type.val : s3c_cpu_type → Nat
  | .TYPE_ADCV1 => 0
  | .TYPE_ADCV2 => 1
  | .TYPE_ADCV3 => 2
  | .TYPE_ADCV4 => 3

/-- Bit masks of `plat/regs-adc.h`.  The header is not part of the sources at
hand, so the driver functions take its macros as a parameter. -/
structure regs_adc where
  S3C2410_ADCCON_ENABLE_START : Nat
  S3C2410_ADCCON_STARTMASK : Nat
  S3C2410_ADCCON_STDBM : Nat
  S3C2410_ADCCON_PRSCEN : Nat
  S3C2410_ADCCON_MUXMASK : Nat
  S3C2410_ADCCON_SELMUX : Nat → Nat
  S5PV210_ADCCON_SELMUX : Nat → Nat

/-- An instance of the parameter, with the values the mainline header gives
these macros; used to evaluate the model on concrete inputs. -/
def regs_adc_h : regs_adc where
  S3C2410_ADCCON_ENABLE_START := 1
  S3C2410_ADCCON_STARTMASK := 3
  S3C2410_ADCCON_STDBM := 4
  S3C2410_ADCCON_PRSCEN := 16384
  S3C2410_ADCCON_MUXMASK := 56
  S3C2410_ADCCON_SELMUX := fun x => (x &&& 7) <<< 3
  S5PV210_ADCCON_SELMUX := fun x => x &&& 15

/-- Truncation to `unsigned int`. -/
def u32 (x : Nat) : Nat := x % 2 ^ 32

/-- Truncation to `unsigned char`. -/
def u8 (x : Nat) : Nat := x % 2 ^ 8

/-- The 32-bit complement `~m`. -/
def not32 (m : Nat) : Nat := (2 ^ 32 - 1) ^^^ (m % 2 ^ 32)

/-- Conversion of an `unsigned` to `int` (two's complement). -/
def to_int (v : Nat) : Int :=
  if v % 2 ^ 32 < 2 ^ 31 then ((v % 2 ^ 32 : Nat) : Int) else ((v % 2 ^ 32 : Nat) : Int) - 2 ^ 32

/-! ## Data model -/

/-- The functions a client's `select_cb` pointer can hold: the driver's own
`s3c_adc_default_select`, or a function of the registrant (named by a tag). -/
inductive select_fn
  | s3c_adc_default_select
  | user (tag : Nat)
  deriving DecidableEq, Repr

/-- The functions a client's `convert_cb` pointer can hold: the driver's own
`s3c_convert_done`, or a function of the registrant.  A registrant's function
is modelled by what it stores through `samples_left`, given the two values and
the count it finds there. -/
inductive convert_fn
  | s3c_convert_done
  | user (f : Nat → Nat → Nat → Nat)

/-- Hardware registers the driver writes. -/
inductive Reg
  | S3C2410_ADCCON
  | S5P_ADCMUX
  | S3C64XX_ADCCLRINT
  deriving DecidableEq, Repr

/-- Calls that leave the driver, in the order they are made. -/
inductive Event
  | select_cb (client : Nat) (selected : Nat)
  | convert_cb (client : Nat) (val1 val2 : Nat) (samples_left : Nat)
  | wake_up (wait : Option Nat)
  | writel (val : Nat) (reg : Reg)
  | warn_already_running (client : Nat)
  | warn_already_stopped (client : Nat)
  | warn_no_adc_pending
  | warn_timed_out (client : Nat)
  | kfree (client : Nat)
  | warn_on_no_pdev
  | dev_err_no_memory (pdev : Nat)
  deriving DecidableEq, Repr

/-- The `struct s3c_adc_client` (the list node `pend` is represented by the
position of the client in `State.adc_pending`). -/
structure s3c_adc_client where
  pdev : Option Nat
  wait : Option Nat
  nr_samples : Nat
  result : Int
  is_ts : Nat
  channel : Nat
  select_cb : Option select_fn
  convert_cb : Option convert_fn
  running : Bool
  error_count : Int

/-- The memory the driver works on: the fields of `struct adc_device` that the
scheduler uses (`cur`, `ts_pend`, the hardware revision found through `pdev`,
the content of the control register behind `regs`), the global list
`adc_pending`, the clients, and the log of outgoing calls. -/
structure State where
  cpu : s3c_cpu_type
  cur : Option Nat
  ts_pend : Option Nat
  adc_pending : List Nat
  con : Nat
  clients : Nat → s3c_adc_client
  log : List Event

/-- Replace the record of one client. -/
def State.upd (s : State) (client : Nat) (f : s3c_adc_client → s3c_adc_client) : State :=
  { s with clients := fun i => if i = client then f (s.clients client) else s.clients i }

/-- Append one outgoing call to the log. -/
def State.emit (s : State) (e : Event) : State :=
  { s with log := s.log ++ [e] }

/-- The call `writel(val, adc->regs + S3C2410_ADCCON)`. -/
def writel_con (s : State) (val : Nat) : State :=
  { s with con := val, log := s.log ++ [Event.writel val Reg.S3C2410_ADCCON] }

/-! ## The driver functions -/

/-- The source function `s3c_adc_convert`. -/
def s3c_adc_convert (K : regs_adc) (s : State) : State :=
  let con := s.con
  let con := u32 (con ||| K.S3C2410_ADCCON_ENABLE_START)
  writel_con s con

/-- The source function `s3c_adc_select`. -/
def s3c_adc_select (K : regs_adc) (s : State) (client : Nat) : State :=
  let con := s.con
  let cpu := s.cpu
  let s := s.emit (Event.select_cb client 1)
  let con := con &&& not32 K.S3C2410_ADCCON_MUXMASK
  let con := con &&& not32 K.S3C2410_ADCCON_STDBM
  let con := con &&& not32 K.S3C2410_ADCCON_STARTMASK
  let con := u32 (con ||| K.S3C2410_ADCCON_PRSCEN)
  if (s.clients client).is_ts = 0 then
    if cpu.val ≥ s3c_cpu_type.TYPE_ADCV3.val then
      let s := s.emit (Event.writel (u32 (K.S5PV210_ADCCON_SELMUX (s.clients client).channel))
        Reg.S5P_ADCMUX)
      writel_con s con
    else
      writel_con s (u32 (con ||| K.S3C2410_ADCCON_SELMUX (s.clients client).channel))
  else
    writel_con s con

/-- The source function `s3c_adc_try` (the debug print is left out). -/
def s3c_adc_try (K : regs_adc) (s : State) : State :=
  let next := s.ts_pend
  let con := s.con
  let ns : Option Nat × State :=
    if next = none ∧ s.adc_pending ≠ [] then
      (s.adc_pending.head?, { s with adc_pending := s.adc_pending.tail })
    else
      (next, { s with ts_pend := none })
  match ns.1 with
  | some n =>
    let s := { ns.2 with cur := some n }
    let s := s3c_adc_select K s n
    s3c_adc_convert K s
  | none =>
    let con := con &&& not32 K.S3C2410_ADCCON_PRSCEN
    let con := u32 (con ||| K.S3C2410_ADCCON_STDBM)
    writel_con ns.2 con

/-- The source function `s3c_convert_done`. -/
def s3c_convert_done (s : State) (client : Nat) (v : Nat) : State :=
  let s := s.upd client (fun cl => { cl with result := to_int v })
  s.emit (Event.wake_up (s.clients client).wait)

/-- The call `(client->convert_cb)(client, v, u, &client->nr_samples)`. -/
def call_convert (s : State) (client : Nat) (cb : convert_fn) (v u : Nat) : State :=
  let left := (s.clients client).nr_samples
  let s := s.emit (Event.convert_cb client v u left)
  match cb with
  | .s3c_convert_done => s3c_convert_done s client v
  | .user f => s.upd client (fun cl => { cl with nr_samples := u32 (f v u left) })

/-- The part of `s3c_adc_start` that runs with the device lock held. -/
def s3c_adc_start_locked (K : regs_adc) (s : State) (client channel nr_samples : Nat)
    (pwake : Option Nat) : Int × State :=
  if (s.clients client).is_ts ≠ 0 ∧ s.ts_pend ≠ none then
    (-EAGAIN, s)
  else
    let s := s.upd client (fun cl =>
      { cl with convert_cb := some convert_fn.s3c_convert_done, wait := pwake, result := -1,
                channel := u8 channel, nr_samples := u32 nr_samples })
    let s :=
      if (s.clients client).is_ts ≠ 0 then { s with ts_pend := some client }
      else { s with adc_pending := s.adc_pending ++ [client] }
    let s := if s.cur = none then s3c_adc_try K s else s
    (0, s)

/-- The source function `s3c_adc_start`: the unlocked checks, then the locked
part. -/
def s3c_adc_start (K : regs_adc) (s : State) (client channel nr_samples : Nat)
    (pwake : Option Nat) : Int × State :=
  if (s.clients client).is_ts ≠ 0 ∧ s.ts_pend ≠ none then
    (-EAGAIN, s)
  else if (s.clients client).running then
    (-EAGAIN, s.emit (Event.warn_already_running client))
  else
    let s := s.upd client (fun cl => { cl with running := true })
    s3c_adc_start_locked K s client channel nr_samples pwake

/-- The source function `s3c_adc_stop`. -/
def s3c_adc_stop (K : regs_adc) (s : State) (client : Nat) : State :=
  let s := if s.cur = some client then { s with cur := none } else s
  let s :=
    if s.ts_pend = some client then { s with ts_pend := none }
    else { s with adc_pending := s.adc_pending.filter (fun tmp => tmp ≠ client) }
  let was := (s.clients client).running
  let s := s.upd client (fun cl => { cl with running := false })
  let s := if was then s else s.emit (Event.warn_already_stopped client)
  if s.cur = none then s3c_adc_try K s else s

/-- The source function `s3c_adc_release`. -/
def s3c_adc_release (K : regs_adc) (s : State) (client : Nat) : State :=
  (s3c_adc_stop K s client).emit (Event.kfree client)

/-- Modelled from the spec: the handler result "handled", `IRQ_HANDLED` in the
source, with the value `linux/irqreturn.h` gives it. -/
def IRQ_HANDLED : Nat := 1

/-- The label `exit:` of `s3c_adc_irq`. -/
def s3c_adc_irq_exit (s : State) : Nat × State :=
  (IRQ_HANDLED,
    if s.cpu ≠ s3c_cpu_type.TYPE_ADCV1 then s.emit (Event.writel 0 Reg.S3C64XX_ADCCLRINT) else s)

/-- The source function `s3c_adc_irq`; `dat0` and `dat1` are what the data
registers ADCDAT0 and ADCDAT1 hold when the interrupt fires. -/
def s3c_adc_irq (K : regs_adc) (s : State) (dat0 dat1 : Nat) : Nat × State :=
  match s.cur with
  | none => s3c_adc_irq_exit (s.emit Event.warn_no_adc_pending)
  | some client =>
    if (s.clients client).nr_samples = 0 then
      s3c_adc_irq_exit (s.emit Event.warn_no_adc_pending)
    else
      let data0 := u32 dat0
      let data1 := if s.cpu ≠ s3c_cpu_type.TYPE_ADCV4 then u32 dat1 else 0
      let s :=
        if (s.clients client).nr_samples > 0 then
          s.upd client (fun cl => { cl with nr_samples := cl.nr_samples - 1 })
        else s
      let data0 := if s.cpu = s3c_cpu_type.TYPE_ADCV1 then data0 &&& 0x3ff else data0 &&& 0xfff
      let data1 := if s.cpu = s3c_cpu_type.TYPE_ADCV1 then data1 &&& 0x3ff else data1 &&& 0xfff
      let s :=
        match (s.clients client).convert_cb with
        | some cb => call_convert s client cb data0 data1
        | none => s
      if (s.clients client).nr_samples > 0 then
        let s := s.emit (Event.select_cb client 1)
        s3c_adc_irq_exit (s3c_adc_convert K s)
      else
        let s := s.emit (Event.select_cb client 0)
        let was := (s.clients client).running
        let s := s.upd client (fun cl => { cl with running := false })
        let s := if was then s else s.emit (Event.warn_already_stopped client)
        let s := { s with cur := none }
        s3c_adc_irq_exit (s3c_adc_try K s)

/-! ## Sequences of calls -/

/-- One call into the driver: a start, a stop, or the interrupt handler. -/
inductive Op
  | start (client channel nr_samples : Nat) (pwake : Option Nat)
  | stop (client : Nat)
  | irq (dat0 dat1 : Nat)
  deriving DecidableEq, Repr

/-- The state after one call. -/
def step (K : regs_adc) (s : State) : Op → State
  | .start client channel nr_samples pwake => (s3c_adc_start K s client channel nr_samples pwake).2
  | .stop client => s3c_adc_stop K s client
  | .irq dat0 dat1 => (s3c_adc_irq K s dat0 dat1).2

/-- The state after a sequence of calls, made one after the other. -/
def run (K : regs_adc) (s : State) (ops : List Op) : State :=
  ops.foldl (step K) s

/-- The source function `s3c_adc_read`.  `wake` names the wait queue on the
caller's stack; `during` are the calls other contexts make while the caller
sleeps in `wait_event_timeout`.  `BUG_ON` firing is the result `none`. -/
def s3c_adc_read (K : regs_adc) (s : State) (client ch : Nat) (wake : Nat)
    (during : List Op) : Option (Int × State) :=
  let r := s3c_adc_start K s client ch 1 (some wake)
  if r.1 < 0 then
    some (r.1, r.2)
  else
    let s := run K r.2 during
    if (s.clients client).result < 0 then
      let s := s3c_adc_stop K s client
      let s := s.emit (Event.warn_timed_out client)
      let s := s.upd client (fun cl => { cl with error_count := cl.error_count + 1 })
      if (s.clients client).error_count > 10 then
        none
      else
        some (-ETIMEDOUT, s)
    else
      let s := s.upd client (fun cl => { cl with error_count := 0 })
      let s := s.upd client (fun cl => { cl with convert_cb := none })
      some ((s.clients client).result, s)

/-- What `kzalloc` followed by the four assignments of `s3c_adc_register`
leaves in a new client. -/
def registered_client (pdev : Nat) (select : select_fn) (conv : Option convert_fn)
    (is_ts : Nat) : s3c_adc_client where
  pdev := some pdev
  wait := none
  nr_samples := 0
  result := 0
  is_ts := u8 is_ts
  channel := 0
  select_cb := some select
  convert_cb := conv
  running := false
  error_count := 0

/-- The source function `s3c_adc_register`.  `alloc` is what `kzalloc`
returns: the address of fresh zeroed memory, or NULL.  The result is the
client pointer, or the error code of `ERR_PTR`.  `WARN_ON(!pdev)` and the
`dev_err` of the failed allocation are outgoing calls. -/
def s3c_adc_register (s : State) (pdev : Option Nat) (select : Option select_fn)
    (conv : Option convert_fn) (is_ts : Nat) (alloc : Option Nat) : Except Int Nat × State :=
  let s := if pdev = none then s.emit Event.warn_on_no_pdev else s
  let select := match select with
    | none => select_fn.s3c_adc_default_select
    | some f => f
  match pdev with
  | none => (.error (-EINVAL), s)
  | some pd =>
    match alloc with
    | none => (.error (-ENOMEM), s.emit (Event.dev_err_no_memory pd))
    | some p => (.ok p, s.upd p (fun _ => registered_client pd select conv is_ts))

/-! ## Initial and reachable states -/

/-- An idle device: no active client, nothing waiting, no client running. -/
def Idle (s : State) : Prop :=
  s.cur = none ∧ s.ts_pend = none ∧ s.adc_pending = [] ∧ ∀ c, (s.clients c).running = false

/-- A concrete idle device after `s3c_adc_probe` on which every address holds
a registered client; `is_ts` says which clients are priority (touchscreen)
clients. -/
def init_state (cpu : s3c_cpu_type) (is_ts : Nat → Nat) : State where
  cpu := cpu
  cur := none
  ts_pend := none
  adc_pending := []
  con := 0
  clients := fun c => registered_client 0 select_fn.s3c_adc_default_select none (is_ts c)
  log := []

/-- The states the driver reaches from an idle device by starts, stops and
interrupts. -/
def Reachable (K : regs_adc) (s : State) : Prop :=
  ∃ s0 ops, Idle s0 ∧ s = run K s0 ops

/-- Every call of the sequence is a start. -/
def StartsOnly (ops : List Op) : Prop :=
  ∀ op ∈ ops, ∃ c ch n w, op = Op.start c ch n w

/-- The device refers to the client: it is active, in the priority slot or in
the pending list. -/
def referenced (s : State) (c : Nat) : Prop :=
  s.cur = some c ∨ s.ts_pend = some c ∨ c ∈ s.adc_pending

/-- The scheduling invariant without work conservation; it also holds between
the removal of a client and the dispatch that follows. -/
structure Inv0 (s : State) : Prop where
  run_ref : ∀ c, (s.clients c).running = true ↔ referenced s c
  ts_is_ts : ∀ c, s.ts_pend = some c → (s.clients c).is_ts ≠ 0
  pend_not_ts : ∀ c, c ∈ s.adc_pending → (s.clients c).is_ts = 0
  nodup : s.adc_pending.Nodup
  cur_not_wait : ∀ c, s.cur = some c → s.ts_pend ≠ some c ∧ c ∉ s.adc_pending
  cb : ∀ c, (s.clients c).running = true →
    (s.clients c).convert_cb = some convert_fn.s3c_convert_done

/-- The scheduling invariant of the states between two calls. -/
structure Inv (s : State) extends Inv0 s : Prop where
  work : s.cur = none → s.ts_pend = none ∧ s.adc_pending = []

/-- The client waits: it is in the priority slot or in the pending list. -/
def waiting (s : State) (c : Nat) : Prop :=
  s.ts_pend = some c ∨ c ∈ s.adc_pending

/-- At most one client has its running flag set. -/
def AtMostOneRunning (s : State) : Prop :=
  ∀ a b, (s.clients a).running = true → (s.clients b).running = true → a = b

/-- An idle S3C24XX device on which every client is an ordinary client. -/
def ordinary_init : State := init_state s3c_cpu_type.TYPE_ADCV1 (fun _ => 0)

/-- An idle S3C64XX device on which client 0 is the priority (touchscreen)
client and every other client is an ordinary client. -/
def ts0_init : State := init_state s3c_cpu_type.TYPE_ADCV2 (fun c => if c = 0 then 1 else 0)

/-- The state `s3c_adc_start` has built when it reaches the test of
`adc->cur`: the client is marked running, its request is installed and it is
queued. -/
def start_queued (s : State) (client channel nr_samples : Nat) (pwake : Option Nat) : State :=
  let s := s.upd client (fun cl => { cl with running := true })
  let s := s.upd client (fun cl =>
    { cl with convert_cb := some convert_fn.s3c_convert_done, wait := pwake, result := -1,
              channel := u8 channel, nr_samples := u32 nr_samples })
  if (s.clients client).is_ts ≠ 0 then { s with ts_pend := some client }
  else { s with adc_pending := s.adc_pending ++ [client] }

/-- The first value `s3c_adc_irq` hands to the sample-delivery callback. -/
def irq_data0 (s : State) (dat0 : Nat) : Nat :=
  if s.cpu = s3c_cpu_type.TYPE_ADCV1 then u32 dat0 &&& 0x3ff else u32 dat0 &&& 0xfff

/-- The second value `s3c_adc_irq` hands to the sample-delivery callback. -/
def irq_data1 (s : State) (dat1 : Nat) : Nat :=
  if s.cpu = s3c_cpu_type.TYPE_ADCV1 then
    (if s.cpu ≠ s3c_cpu_type.TYPE_ADCV4 then u32 dat1 else 0) &&& 0x3ff
  else (if s.cpu ≠ s3c_cpu_type.TYPE_ADCV4 then u32 dat1 else 0) &&& 0xfff

/-- The state of `s3c_adc_irq` when the sample-delivery callback of the active
client has returned. -/
def irq_delivered (s : State) (client : Nat) (dat0 dat1 : Nat) : State :=
  let s1 := s.upd client (fun cl => { cl with nr_samples := cl.nr_samples - 1 })
  match (s1.clients client).convert_cb with
  | some cb => call_convert s1 client cb (irq_data0 s dat0) (irq_data1 s dat1)
  | none => s1

/-- The state `s3c_adc_irq` has built for a finished client when it calls
`s3c_adc_try`. -/
def irq_finished (s : State) (client : Nat) : State :=
  let s := s.emit (Event.select_cb client 0)
  let was := (s.clients client).running
  let s := s.upd client (fun cl => { cl with running := false })
  let s := if was then s else s.emit (Event.warn_already_stopped client)
  { s with cur := none }

/-- The state `s3c_adc_stop` has built when it reaches the test of
`adc_dev->cur`: the client is removed and its running flag is clear. -/
def stop_removed (s : State) (client : Nat) : State :=
  let s := if s.cur = some client then { s with cur := none } else s
  let s :=
    if s.ts_pend = some client then { s with ts_pend := none }
    else { s with adc_pending := s.adc_pending.filter (fun tmp => tmp ≠ client) }
  let was := (s.clients client).running
  let s := s.upd client (fun cl => { cl with running := false })
  if was then s else s.emit (Event.warn_already_stopped client)

/-- A state no sequence of calls produces: client 0 is in the priority slot and
in the pending list at once. -/
def ts_and_list_state : State :=
  { ts0_init with ts_pend := some 0, adc_pending := [0] }

/-- A state no sequence of calls produces: the ordinary client 1 is active and
also in the pending list, while the priority client 0 waits. -/
def cur_in_list_state : State :=
  { ts0_init with cur := some 1, ts_pend := some 0, adc_pending := [1, 2],
                  clients := fun c => { ts0_init.clients c with nr_samples := 1, running := true } }

/-- A state with the ordinary client 1 active on its last sample, the priority
client 0 in the priority slot and clients 2 and 3 in the pending list. -/
def ts_waiting_state : State :=
  run regs_adc_h ts0_init
    [Op.start 1 0 1 none, Op.start 2 0 1 none, Op.start 0 0 1 none, Op.start 3 0 1 none]

/-- The calls of `s3c_adc_start` on the clients of a list, one after the other,
each asking for `nr` samples on channel `ch c` with wait queue `w c`: the list
of return values and the final state. -/
def start_all (K : regs_adc) (ch : Nat → Nat) (nr : Nat) (w : Nat → Option Nat) :
    State → List Nat → List Int × State
  | s, [] => ([], s)
  | s, c :: cs =>
    ((s3c_adc_start K s c (ch c) nr (w c)).1 ::
        (start_all K ch nr w (s3c_adc_start K s c (ch c) nr (w c)).2 cs).1,
      (start_all K ch nr w (s3c_adc_start K s c (ch c) nr (w c)).2 cs).2)

/-- The state after one interrupt for each pair of data register values. -/
def irqs (K : regs_adc) (s : State) (ds : List (Nat × Nat)) : State :=
  run K s (ds.map (fun d => Op.irq d.1 d.2))

/-- The clients of `L` hold the device in this order: the head is active, the
tail is the pending list, the priority slot is empty, and each of them has one
sample to go and the delivery callback `s3c_convert_done`. -/
structure OneShotLine (s : State) (L : List Nat) : Prop where
  inv : Inv s
  ts : s.ts_pend = none
  cur : s.cur = L.head?
  pend : s.adc_pending = L.tail
  one : ∀ c, c ∈ L → (s.clients c).nr_samples = 1 ∧
    (s.clients c).convert_cb = some convert_fn.s3c_convert_done

/-- The samples-remaining values with which the sample-delivery callback of
client `c` was called, oldest call first. -/
def convert_lefts (c : Nat) (log : List Event) : List Nat :=
  log.filterMap (fun e =>
    match e with
    | Event.convert_cb c' _ _ left => if c' = c then some left else none
    | _ => none)

/-- The number of times the select callback of client `c` was called with
"selected" (the client was given the device or kept it). -/
def select_count (c : Nat) (log : List Event) : Nat :=
  log.count (Event.select_cb c 1)

/-- The state after `s3c_adc_start` for three samples has dispatched the
ordinary client 1 on an idle device. -/
def three_samples_state : State :=
  (s3c_adc_start regs_adc_h ordinary_init 1 0 3 none).2

/-- The calls of the list are register writes only. -/
def RegisterWrites (l : List Event) : Prop :=
  ∀ e, e ∈ l → ∃ v r, e = Event.writel v r

/-- The calls of the sequence are starts and stops of clients other than `c`:
no interrupt arrives and nobody else touches `c`. -/
def OthersNoIrq (c : Nat) (ops : List Op) : Prop :=
  ∀ op, op ∈ ops →
    (∃ d ch n w, op = Op.start d ch n w ∧ d ≠ c) ∨ (∃ d, op = Op.stop d ∧ d ≠ c)

/-- Client `B` has not been given the device and has not been handed a sample
since the log held `b0` select calls and `d0` deliveries for it. -/
def Unserved (s : State) (B b0 d0 : Nat) : Prop :=
  s.cur ≠ some B ∧ select_count B s.log = b0 ∧ (convert_lefts B s.log).length = d0

/-- The progress of a request of client `A` made when the log held `a0`
select calls and `c0` deliveries for `A`: either `A` still waits in the
pending list, or it is active and has been selected since, or it has been
selected and handed a sample since.  With `wb`, in the first two cases client
`B` is unserved (relative to `b0`, `d0`) and does not stand before `A` in the
pending list. -/
def AheadOf (wb : Prop) (A B a0 c0 b0 d0 : Nat) (s : State) : Prop :=
  a0 ≤ select_count A s.log ∧ c0 ≤ (convert_lefts A s.log).length ∧
  (((wb → Unserved s B b0 d0) ∧
      ((∃ l1 l2, s.adc_pending = l1 ++ A :: l2 ∧ (wb → B ∉ l1)) ∨
        (s.cur = some A ∧ a0 < select_count A s.log))) ∨
    (a0 < select_count A s.log ∧ c0 < (convert_lefts A s.log).length))

/-- None of the calls is a stop of `A` or of `B`. -/
def NoStopOf (A B : Nat) (ops : List Op) : Prop :=
  ∀ op, op ∈ ops → op ≠ Op.stop A ∧ op ≠ Op.stop B

/-- An idle EXYNOS4412 device (the newest revision) with ordinary clients only,
after `s3c_adc_start` for two samples has dispatched client 1. -/
def v4_sampling_state : State :=
  (s3c_adc_start regs_adc_h (init_state s3c_cpu_type.TYPE_ADCV4 (fun _ => 0)) 1 0 2 none).2

/-- A delivery callback of a streaming registrant that asks for one more
sample each time it is called. -/
def one_more : convert_fn := convert_fn.user (fun _ _ left => left + 1)

/-- The state `three_samples_state` with the delivery callback of the active
client 1 replaced by `one_more`. -/
def streaming_state : State :=
  three_samples_state.upd 1 (fun cl => { cl with convert_cb := some one_more })

/-- An idle device on which `s3c_adc_register` has just created the ordinary
client 9 for a streaming registrant whose delivery callback is `one_more`. -/
def streaming_registered : State :=
  (s3c_adc_register ordinary_init (some 7) none (some one_more) 0 (some 9)).2

/-- The source function `s3c_adc_start` with the calls `others` that other
contexts complete between its `atomic_xchg` and the moment it is granted the
device lock. -/
def s3c_adc_start_interleaved (K : regs_adc) (s : State) (client channel nr_samples : Nat)
    (pwake : Option Nat) (others : List Op) : Int × State :=
  if (s.clients client).is_ts ≠ 0 ∧ s.ts_pend ≠ none then
    (-EAGAIN, s)
  else if (s.clients client).running then
    (-EAGAIN, s.emit (Event.warn_already_running client))
  else
    let s := s.upd client (fun cl => { cl with running := true })
    let s := run K s others
    s3c_adc_start_locked K s client channel nr_samples pwake

/-- A device with the two priority clients 0 and 5, on which the ordinary
client 1 is active with two samples to go. -/
def two_ts_state : State :=
  (s3c_adc_start regs_adc_h
    (init_state s3c_cpu_type.TYPE_ADCV2 (fun c => if c = 0 ∨ c = 5 then 1 else 0)) 1 0 2 none).2

/-- Calls of `s3c_adc_read` on client `c`, one after the other, the `i`-th with
the calls `durings[i]` of other contexts during its wait: the list of return
values and the final state, or `none` when one of the reads hits `BUG_ON`. -/
def reads_in_a_row (K : regs_adc) (c ch wake : Nat) : State → List (List Op) →
    Option (List Int × State)
  | s, [] => some ([], s)
  | s, during :: rest =>
    match s3c_adc_read K s c ch wake during with
    | none => none
    | some r =>
      match reads_in_a_row K c ch wake r.2 rest with
      | none => none
      | some rs => some (r.1 :: rs.1, rs.2)

/-- The state after a priority client, two ordinary clients, one interrupt and
a stop of the ordinary client 2: client 1 is active with one sample to go, the
priority client 0 waits, and client 2 is gone. -/
def after_stop_state : State :=
  run regs_adc_h ts0_init
    [Op.start 1 0 2 none, Op.start 0 0 1 none, Op.start 2 3 1 none, Op.irq 5 6, Op.stop 2]

/-- The state after two one-sample requests and the two interrupts that
complete them. -/
def drained_state : State :=
  run regs_adc_h ts0_init
    [Op.start 1 0 1 none, Op.start 2 0 1 none, Op.irq 5 6, Op.irq 7 8]

/-- The state in which the ordinary client 1 is active on its only sample. -/
def zero_request_state : State :=
  run regs_adc_h ts0_init [Op.start 1 0 1 none]

/-- The state `zero_request_state` after client 2 has asked for 0 samples,
client 3 for one sample, and the interrupt for client 1 has arrived. -/
def zero_active_state : State :=
  run regs_adc_h (s3c_adc_start regs_adc_h zero_request_state 2 0 0 none).2
    [Op.start 3 0 1 none, Op.irq 5 6]

/-- The state `s3c_adc_start` finds when it is granted the device lock: its
`atomic_xchg` has set the client's running flag, and the calls `others` of
other contexts have completed since. -/
def start_at_lock (K : regs_adc) (s : State) (client : Nat) (others : List Op) : State :=
  run K (s.upd client (fun cl => { cl with running := true })) others

/-! ## Frame lemmas -/

@[simp] theorem upd_cur (s : State) (c : Nat) (f) : (s.upd c f).cur = s.cur := rfl
@[simp] theorem upd_ts_pend (s : State) (c : Nat) (f) : (s.upd c f).ts_pend = s.ts_pend := rfl
@[simp] theorem upd_adc_pending (s : State) (c : Nat) (f) :
    (s.upd c f).adc_pending = s.adc_pending := rfl
@[simp] theorem upd_cpu (s : State) (c : Nat) (f) : (s.upd c f).cpu = s.cpu := rfl
@[simp] theorem upd_con (s : State) (c : Nat) (f) : (s.upd c f).con = s.con := rfl
@[simp] theorem upd_log (s : State) (c : Nat) (f) : (s.upd c f).log = s.log := rfl
@[simp] theorem upd_clients_same (s : State) (c : Nat) (f) :
    (s.upd c f).clients c = f (s.clients c) := by simp [State.upd]
theorem upd_clients (s : State) (c d : Nat) (f) :
    (s.upd c f).clients d = if d = c then f (s.clients c) else s.clients d := rfl
theorem upd_clients_ne (s : State) (c d : Nat) (f) (h : d ≠ c) :
    (s.upd c f).clients d = s.clients d := by simp [State.upd, h]

@[simp] theorem emit_cur (s : State) (e) : (s.emit e).cur = s.cur := rfl
@[simp] theorem emit_ts_pend (s : State) (e) : (s.emit e).ts_pend = s.ts_pend := rfl
@[simp] theorem emit_adc_pending (s : State) (e) : (s.emit e).adc_pending = s.adc_pending := rfl
@[simp] theorem emit_cpu (s : State) (e) : (s.emit e).cpu = s.cpu := rfl
@[simp] theorem emit_con (s : State) (e) : (s.emit e).con = s.con := rfl
@[simp] theorem emit_clients (s : State) (e) : (s.emit e).clients = s.clients := rfl
@[simp] theorem emit_log (s : State) (e) : (s.emit e).log = s.log ++ [e] := rfl

@[simp] theorem writel_con_cur (s : State) (v) : (writel_con s v).cur = s.cur := rfl
@[simp] theorem writel_con_ts_pend (s : State) (v) : (writel_con s v).ts_pend = s.ts_pend := rfl
@[simp] theorem writel_con_adc_pending (s : State) (v) :
    (writel_con s v).adc_pending = s.adc_pending := rfl
@[simp] theorem writel_con_cpu (s : State) (v) : (writel_con s v).cpu = s.cpu := rfl
@[simp] theorem writel_con_con (s : State) (v) : (writel_con s v).con = v := rfl
@[simp] theorem writel_con_clients (s : State) (v) : (writel_con s v).clients = s.clients := rfl
@[simp] theorem writel_con_log (s : State) (v) :
    (writel_con s v).log = s.log ++ [Event.writel v Reg.S3C2410_ADCCON] := rfl

@[simp] theorem convert_cur (K) (s : State) : (s3c_adc_convert K s).cur = s.cur := rfl
@[simp] theorem convert_ts_pend (K) (s : State) : (s3c_adc_convert K s).ts_pend = s.ts_pend := rfl
@[simp] theorem convert_adc_pending (K) (s : State) :
    (s3c_adc_convert K s).adc_pending = s.adc_pending := rfl
@[simp] theorem convert_cpu (K) (s : State) : (s3c_adc_convert K s).cpu = s.cpu := rfl
@[simp] theorem convert_clients (K) (s : State) : (s3c_adc_convert K s).clients = s.clients := rfl
@[simp] theorem convert_log (K) (s : State) : (s3c_adc_convert K s).log =
    s.log ++ [Event.writel (u32 (s.con ||| K.S3C2410_ADCCON_ENABLE_START)) Reg.S3C2410_ADCCON] :=
  rfl

@[simp] theorem select_cur (K) (s : State) (n) : (s3c_adc_select K s n).cur = s.cur := by
  unfold s3c_adc_select; simp only []; split_ifs <;> rfl
@[simp] theorem select_ts_pend (K) (s : State) (n) :
    (s3c_adc_select K s n).ts_pend = s.ts_pend := by
  unfold s3c_adc_select; simp only []; split_ifs <;> rfl
@[simp] theorem select_adc_pending (K) (s : State) (n) :
    (s3c_adc_select K s n).adc_pending = s.adc_pending := by
  unfold s3c_adc_select; simp only []; split_ifs <;> rfl
@[simp] theorem select_cpu (K) (s : State) (n) : (s3c_adc_select K s n).cpu = s.cpu := by
  unfold s3c_adc_select; simp only []; split_ifs <;> rfl
@[simp] theorem select_clients (K) (s : State) (n) :
    (s3c_adc_select K s n).clients = s.clients := by
  unfold s3c_adc_select; simp only []; split_ifs <;> rfl

/-- The dispatch step when the priority slot is occupied. -/
theorem try_ts (K) (s : State) (n : Nat) (h : s.ts_pend = some n) :
    s3c_adc_try K s =
      s3c_adc_convert K (s3c_adc_select K { s with ts_pend := none, cur := some n } n) := by
  simp [s3c_adc_try, h]

/-- The dispatch step when the priority slot is empty and the list is not. -/
theorem try_fifo (K) (s : State) (n : Nat) (rest : List Nat) (h : s.ts_pend = none)
    (hp : s.adc_pending = n :: rest) :
    s3c_adc_try K s =
      s3c_adc_convert K (s3c_adc_select K { s with adc_pending := rest, cur := some n } n) := by
  simp [s3c_adc_try, h, hp]

/-- The dispatch step when nothing waits. -/
theorem try_none (K) (s : State) (h : s.ts_pend = none) (hp : s.adc_pending = []) :
    s3c_adc_try K s =
      writel_con { s with ts_pend := none }
        (u32 ((s.con &&& not32 K.S3C2410_ADCCON_PRSCEN) ||| K.S3C2410_ADCCON_STDBM)) := by
  simp [s3c_adc_try, h, hp]

@[simp] theorem try_clients (K) (s : State) : (s3c_adc_try K s).clients = s.clients := by
  rcases hts : s.ts_pend with _ | n
  · rcases hp : s.adc_pending with _ | ⟨n, rest⟩
    · rw [try_none K s hts hp]; rfl
    · rw [try_fifo K s n rest hts hp]; simp
  · rw [try_ts K s n hts]; simp

@[simp] theorem try_cpu (K) (s : State) : (s3c_adc_try K s).cpu = s.cpu := by
  rcases hts : s.ts_pend with _ | n
  · rcases hp : s.adc_pending with _ | ⟨n, rest⟩
    · rw [try_none K s hts hp]; rfl
    · rw [try_fifo K s n rest hts hp]; simp
  · rw [try_ts K s n hts]; simp

@[simp] theorem try_ts_pend (K) (s : State) : (s3c_adc_try K s).ts_pend = none := by
  rcases hts : s.ts_pend with _ | n
  · rcases hp : s.adc_pending with _ | ⟨n, rest⟩
    · rw [try_none K s hts hp]; rfl
    · rw [try_fifo K s n rest hts hp]; simp [hts]
  · rw [try_ts K s n hts]; simp

theorem inv0_of_same {s s' : State} (h : Inv0 s) (h1 : s'.cur = s.cur)
    (h2 : s'.ts_pend = s.ts_pend) (h3 : s'.adc_pending = s.adc_pending)
    (h4 : ∀ c, (s'.clients c).running = (s.clients c).running ∧
      (s'.clients c).is_ts = (s.clients c).is_ts ∧
      ((s.clients c).running = true → (s'.clients c).convert_cb = (s.clients c).convert_cb)) :
    Inv0 s' := by
  obtain ⟨a, b, c, d, e, f⟩ := h
  refine ⟨?_, ?_, ?_, ?_, ?_, ?_⟩
  · intro x; rw [(h4 x).1, a x]; simp [referenced, h1, h2, h3]
  · intro x hx; rw [(h4 x).2.1]; exact b x (h2 ▸ hx)
  · intro x hx; rw [(h4 x).2.1]; exact c x (h3 ▸ hx)
  · rw [h3]; exact d
  · intro x hx; rw [h2, h3]; exact e x (h1 ▸ hx)
  · intro x hx; rw [(h4 x).1] at hx; rw [(h4 x).2.2 hx]; exact f x hx

theorem inv_of_same {s s' : State} (h : Inv s) (h1 : s'.cur = s.cur)
    (h2 : s'.ts_pend = s.ts_pend) (h3 : s'.adc_pending = s.adc_pending)
    (h4 : ∀ c, (s'.clients c).running = (s.clients c).running ∧
      (s'.clients c).is_ts = (s.clients c).is_ts ∧
      ((s.clients c).running = true → (s'.clients c).convert_cb = (s.clients c).convert_cb)) :
    Inv s' :=
  ⟨inv0_of_same h.toInv0 h1 h2 h3 h4, by rw [h1, h2, h3]; exact h.work⟩

/-- Dispatch restores the invariant on an idle device. -/
theorem try_inv (K) {s : State} (h : Inv0 s) (hc : s.cur = none) : Inv (s3c_adc_try K s) := by
  obtain ⟨a, b, c, d, e, f⟩ := h
  rcases hts : s.ts_pend with _ | n
  · rcases hp : s.adc_pending with _ | ⟨n, rest⟩
    · rw [try_none K s hts hp]
      refine ⟨⟨?_, ?_, ?_, ?_, ?_, ?_⟩, ?_⟩
      · intro x; rw [writel_con_clients]; simp only []; rw [a x]; simp [referenced, hts]
      · intro x hx; simp at hx
      · intro x hx; exact c x hx
      · exact d
      · intro x hx; simp [hc] at hx
      · exact f
      · intro _; exact ⟨rfl, hp⟩
    · rw [try_fifo K s n rest hts hp]
      rw [hp] at c d
      refine ⟨⟨?_, ?_, ?_, ?_, ?_, ?_⟩, ?_⟩
      · intro x; simp only [convert_clients, select_clients]; rw [a x]
        simp [referenced, hts, hc, hp, eq_comm]
      · intro x hx; simp [hts] at hx
      · intro x hx; simp at hx; simpa using c x (List.mem_cons_of_mem _ hx)
      · simp; exact (List.nodup_cons.mp d).2
      · intro x hx; simp at hx; subst hx; simp [hts]; exact (List.nodup_cons.mp d).1
      · simpa using f
      · intro h; simp at h
  · rw [try_ts K s n hts]
    refine ⟨⟨?_, ?_, ?_, ?_, ?_, ?_⟩, ?_⟩
    · intro x; simp only [convert_clients, select_clients]; rw [a x]
      simp [referenced, hts, hc, eq_comm]
    · intro x hx; simp at hx
    · intro x hx; simp at hx; simpa using c x hx
    · simpa using d
    · intro x hx; simp at hx; subst hx; simp
      intro hm; exact b n hts (c n hm)
    · simpa using f
    · intro h; simp at h

/-- A state with an active client needs no dispatch. -/
theorem inv_of_cur {s : State} (h : Inv0 s) (hc : s.cur ≠ none) : Inv s :=
  ⟨h, fun h0 => absurd h0 hc⟩

/-- The conditional dispatch that ends start and stop. -/
theorem dispatch_inv (K) {s : State} (h : Inv0 s) :
    Inv (if s.cur = none then s3c_adc_try K s else s) := by
  split_ifs with hc
  · exact try_inv K h hc
  · exact inv_of_cur h hc

/-- The start of a client that is refused by neither test. -/
theorem start_ok_eq (K) (s : State) (c ch n : Nat) (w : Option Nat)
    (h1 : ¬((s.clients c).is_ts ≠ 0 ∧ s.ts_pend ≠ none)) (h2 : (s.clients c).running = false) :
    s3c_adc_start K s c ch n w =
      (0, if (start_queued s c ch n w).cur = none then s3c_adc_try K (start_queued s c ch n w)
          else start_queued s c ch n w) := by
  simp only [s3c_adc_start, s3c_adc_start_locked, start_queued, upd_clients_same, upd_ts_pend]
  rw [if_neg h1, if_neg h1]
  simp [h2]

theorem stop_eq (K) (s : State) (c : Nat) :
    s3c_adc_stop K s c =
      if (stop_removed s c).cur = none then s3c_adc_try K (stop_removed s c)
      else stop_removed s c := by
  rfl

@[simp] theorem start_queued_cur (s : State) (c ch n : Nat) (w : Option Nat) :
    (start_queued s c ch n w).cur = s.cur := by
  unfold start_queued; simp only []; split_ifs <;> rfl

theorem start_queued_ts_pend (s : State) (c ch n : Nat) (w : Option Nat) :
    (start_queued s c ch n w).ts_pend =
      if (s.clients c).is_ts ≠ 0 then some c else s.ts_pend := by
  unfold start_queued; simp only [upd_clients_same]; split_ifs <;> rfl

theorem start_queued_adc_pending (s : State) (c ch n : Nat) (w : Option Nat) :
    (start_queued s c ch n w).adc_pending =
      if (s.clients c).is_ts ≠ 0 then s.adc_pending else s.adc_pending ++ [c] := by
  unfold start_queued; simp only [upd_clients_same]; split_ifs <;> rfl

theorem start_queued_clients (s : State) (c ch n : Nat) (w : Option Nat) (d : Nat) :
    (start_queued s c ch n w).clients d =
      if d = c then
        { s.clients c with running := true, convert_cb := some convert_fn.s3c_convert_done,
                           wait := w, result := -1, channel := u8 ch, nr_samples := u32 n }
      else s.clients d := by
  unfold start_queued; simp only [upd_clients_same]
  split_ifs <;> simp [State.upd] <;> split_ifs <;> simp_all

@[simp] theorem start_queued_log (s : State) (c ch n : Nat) (w : Option Nat) :
    (start_queued s c ch n w).log = s.log := by
  unfold start_queued; simp only []; split_ifs <;> rfl

@[simp] theorem start_queued_con (s : State) (c ch n : Nat) (w : Option Nat) :
    (start_queued s c ch n w).con = s.con := by
  unfold start_queued; simp only []; split_ifs <;> rfl

@[simp] theorem start_queued_cpu (s : State) (c ch n : Nat) (w : Option Nat) :
    (start_queued s c ch n w).cpu = s.cpu := by
  unfold start_queued; simp only []; split_ifs <;> rfl

theorem stop_removed_cur (s : State) (c : Nat) :
    (stop_removed s c).cur = if s.cur = some c then none else s.cur := by
  unfold stop_removed; simp only []; split_ifs <;> rfl

theorem stop_removed_ts_pend (s : State) (c : Nat) :
    (stop_removed s c).ts_pend = if s.ts_pend = some c then none else s.ts_pend := by
  unfold stop_removed; simp only []; split_ifs <;> simp_all

theorem stop_removed_adc_pending (s : State) (c : Nat) :
    (stop_removed s c).adc_pending =
      if s.ts_pend = some c then s.adc_pending
      else s.adc_pending.filter (fun tmp => tmp ≠ c) := by
  unfold stop_removed; simp only []; split_ifs <;> simp_all

theorem stop_removed_clients (s : State) (c d : Nat) :
    (stop_removed s c).clients d =
      if d = c then { s.clients c with running := false } else s.clients d := by
  unfold stop_removed; simp only []; split_ifs <;> simp_all [State.upd]

@[simp] theorem stop_removed_con (s : State) (c : Nat) : (stop_removed s c).con = s.con := by
  unfold stop_removed; simp only []; split_ifs <;> rfl

@[simp] theorem stop_removed_cpu (s : State) (c : Nat) : (stop_removed s c).cpu = s.cpu := by
  unfold stop_removed; simp only []; split_ifs <;> rfl

/-- Queuing a client that is not running keeps the invariant. -/
theorem start_queued_inv0 {s : State} (h : Inv0 s) (c ch n : Nat) (w : Option Nat)
    (h1 : ¬((s.clients c).is_ts ≠ 0 ∧ s.ts_pend ≠ none)) (h2 : (s.clients c).running = false) :
    Inv0 (start_queued s c ch n w) := by
  obtain ⟨a, b, p, d, e, f⟩ := h
  have hnr : ¬ referenced s c := by rw [← a c, h2]; simp
  simp only [referenced, not_or] at hnr
  obtain ⟨hn1, hn2, hn3⟩ := hnr
  have hcl : ∀ x, x ≠ c → (start_queued s c ch n w).clients x = s.clients x := by
    intro x hx; rw [start_queued_clients, if_neg hx]
  have hcc : ((start_queued s c ch n w).clients c).running = true ∧
      ((start_queued s c ch n w).clients c).is_ts = (s.clients c).is_ts ∧
      ((start_queued s c ch n w).clients c).convert_cb = some convert_fn.s3c_convert_done := by
    rw [start_queued_clients, if_pos rfl]; exact ⟨rfl, rfl, rfl⟩
  by_cases hts : (s.clients c).is_ts = 0
  · have ets : (start_queued s c ch n w).ts_pend = s.ts_pend := by
      rw [start_queued_ts_pend, if_neg (not_not.mpr hts)]
    have epd : (start_queued s c ch n w).adc_pending = s.adc_pending ++ [c] := by
      rw [start_queued_adc_pending, if_neg (not_not.mpr hts)]
    refine ⟨?_, ?_, ?_, ?_, ?_, ?_⟩
    · intro x
      simp only [referenced, start_queued_cur, ets, epd]
      by_cases hx : x = c
      · subst hx; simp [hcc.1]
      · have := a x; simp only [referenced] at this; rw [hcl x hx]; simp [hx, this]
    · intro x hx
      rw [ets] at hx
      have hxc : x ≠ c := by rintro rfl; exact hn2 hx
      rw [hcl x hxc]; exact b x hx
    · intro x hx
      rw [epd] at hx
      by_cases hxc : x = c
      · subst hxc; rw [hcc.2.1]; exact hts
      · rw [hcl x hxc]
        simp only [List.mem_append, List.mem_singleton] at hx
        rcases hx with hx | hx
        · exact p x hx
        · exact absurd hx hxc
    · rw [epd]
      exact List.Nodup.append d (List.nodup_singleton c) (by simpa using hn3)
    · intro x hx
      simp only [start_queued_cur] at hx
      rw [ets, epd]
      have hxc : x ≠ c := by rintro rfl; exact hn1 hx
      refine ⟨(e x hx).1, ?_⟩
      simp only [List.mem_append, List.mem_singleton, not_or]
      exact ⟨(e x hx).2, hxc⟩
    · intro x hx
      by_cases hxc : x = c
      · subst hxc; exact hcc.2.2
      · rw [hcl x hxc] at hx ⊢; exact f x hx
  · have htn : s.ts_pend = none := by
      by_contra hne; exact h1 ⟨hts, hne⟩
    have ets : (start_queued s c ch n w).ts_pend = some c := by
      rw [start_queued_ts_pend, if_pos hts]
    have epd : (start_queued s c ch n w).adc_pending = s.adc_pending := by
      rw [start_queued_adc_pending, if_pos hts]
    refine ⟨?_, ?_, ?_, ?_, ?_, ?_⟩
    · intro x
      simp only [referenced, start_queued_cur, ets, epd]
      by_cases hx : x = c
      · subst hx; simp [hcc.1]
      · have := a x; simp only [referenced] at this; rw [hcl x hx]
        simp only [this, htn, Option.some.injEq]
        constructor
        · rintro (h | h | h)
          · exact Or.inl h
          · exact absurd h (by simp)
          · exact Or.inr (Or.inr h)
        · rintro (h | h | h)
          · exact Or.inl h
          · exact absurd h.symm hx
          · exact Or.inr (Or.inr h)
    · intro x hx
      rw [ets] at hx
      simp only [Option.some.injEq] at hx; subst hx
      rw [hcc.2.1]; exact hts
    · intro x hx
      rw [epd] at hx
      have hxc : x ≠ c := by rintro rfl; exact hn3 hx
      rw [hcl x hxc]; exact p x hx
    · rw [epd]; exact d
    · intro x hx
      simp only [start_queued_cur] at hx
      rw [ets, epd]
      have hxc : x ≠ c := by rintro rfl; exact hn1 hx
      refine ⟨?_, (e x hx).2⟩
      simp only [ne_eq, Option.some.injEq]
      exact fun hh => hxc hh.symm
    · intro x hx
      by_cases hxc : x = c
      · subst hxc; exact hcc.2.2
      · rw [hcl x hxc] at hx ⊢; exact f x hx

/-- Every start keeps the invariant. -/
theorem start_inv (K) {s : State} (h : Inv s) (c ch n : Nat) (w : Option Nat) :
    Inv (s3c_adc_start K s c ch n w).2 := by
  by_cases h1 : (s.clients c).is_ts ≠ 0 ∧ s.ts_pend ≠ none
  · simp only [s3c_adc_start, if_pos h1]; exact h
  · by_cases h2 : (s.clients c).running = true
    · simp only [s3c_adc_start, if_neg h1, if_pos h2]
      exact inv_of_same h rfl rfl rfl (fun _ => ⟨rfl, rfl, fun _ => rfl⟩)
    · have h2 : (s.clients c).running = false := by simpa using h2
      rw [start_ok_eq K s c ch n w h1 h2]
      exact dispatch_inv K (start_queued_inv0 h.toInv0 c ch n w h1 h2)

/-- Removing a client keeps the invariant. -/
theorem stop_removed_inv0 {s : State} (h : Inv0 s) (c : Nat) : Inv0 (stop_removed s c) := by
  obtain ⟨a, b, p, d, e, f⟩ := h
  refine ⟨?_, ?_, ?_, ?_, ?_, ?_⟩
  · intro x
    simp only [stop_removed_clients, referenced, stop_removed_cur, stop_removed_ts_pend,
      stop_removed_adc_pending]
    by_cases hx : x = c
    · subst hx
      simp only [if_true]
      constructor
      · intro h; exact absurd h (by simp)
      · rintro (h | h | h)
        · split_ifs at h; contradiction
        · split_ifs at h; contradiction
        · split_ifs at h with hh
          · exact absurd (p x h) (b x hh)
          · simp at h
    · have := a x; simp only [referenced] at this
      simp only [if_neg hx, this]
      have e1 : (if s.cur = some c then none else s.cur) = some x ↔ s.cur = some x := by
        split_ifs with hh
        · rw [hh]; simp only [Option.some.injEq]
          exact ⟨fun h => absurd h (by simp), fun h => absurd h.symm hx⟩
        · rfl
      have e2 : (if s.ts_pend = some c then none else s.ts_pend) = some x ↔ s.ts_pend = some x := by
        split_ifs with hh
        · rw [hh]; simp only [Option.some.injEq]
          exact ⟨fun h => absurd h (by simp), fun h => absurd h.symm hx⟩
        · rfl
      have e3 : x ∈ (if s.ts_pend = some c then s.adc_pending
          else s.adc_pending.filter (fun tmp => tmp ≠ c)) ↔ x ∈ s.adc_pending := by
        split_ifs with hh
        · rfl
        · simp [hx]
      rw [e1, e2, e3]
  · intro x hx
    simp only [stop_removed_ts_pend] at hx
    have hx2 : s.ts_pend = some x := by
      split_ifs at hx with hh
      exact hx
    simp only [stop_removed_clients]
    split_ifs with hxc
    · subst hxc; exact b x hx2
    · exact b x hx2
  · intro x hx
    simp only [stop_removed_adc_pending] at hx
    have hx2 : x ∈ s.adc_pending := by
      split_ifs at hx with hh
      · exact hx
      · exact (List.mem_filter.mp hx).1
    simp only [stop_removed_clients]
    split_ifs with hxc
    · subst hxc; exact p x hx2
    · exact p x hx2
  · simp only [stop_removed_adc_pending]
    split_ifs
    · exact d
    · exact d.filter _
  · intro x hx
    simp only [stop_removed_cur] at hx
    have hx2 : s.cur = some x := by
      split_ifs at hx with hh
      exact hx
    obtain ⟨e1, e2⟩ := e x hx2
    simp only [stop_removed_ts_pend, stop_removed_adc_pending]
    constructor
    · split_ifs <;> simp_all
    · split_ifs
      · exact e2
      · exact fun hm => e2 (List.mem_filter.mp hm).1
  · intro x hx
    simp only [stop_removed_clients] at hx ⊢
    split_ifs with hxc
    · rw [if_pos hxc] at hx; simp at hx
    · rw [if_neg hxc] at hx; exact f x hx

/-- Every stop keeps the invariant. -/
theorem stop_inv (K) {s : State} (h : Inv s) (c : Nat) : Inv (s3c_adc_stop K s c) := by
  rw [stop_eq]
  exact dispatch_inv K (stop_removed_inv0 h.toInv0 c)

/-- The interrupt handler with no active client. -/
theorem irq_idle_eq (K) (s : State) (d0 d1 : Nat) (h : s.cur = none) :
    s3c_adc_irq K s d0 d1 = s3c_adc_irq_exit (s.emit Event.warn_no_adc_pending) := by
  simp [s3c_adc_irq, h]

/-- The interrupt handler with an active client that has no sample left. -/
theorem irq_zero_eq (K) (s : State) (c d0 d1 : Nat) (h : s.cur = some c)
    (hn : (s.clients c).nr_samples = 0) :
    s3c_adc_irq K s d0 d1 = s3c_adc_irq_exit (s.emit Event.warn_no_adc_pending) := by
  simp [s3c_adc_irq, h, hn]

/-- The interrupt handler with an active client that has samples left. -/
theorem irq_active_eq (K) (s : State) (c d0 d1 : Nat) (h : s.cur = some c)
    (hn : (s.clients c).nr_samples ≠ 0) :
    s3c_adc_irq K s d0 d1 =
      s3c_adc_irq_exit
        (if ((irq_delivered s c d0 d1).clients c).nr_samples > 0 then
          s3c_adc_convert K ((irq_delivered s c d0 d1).emit (Event.select_cb c 1))
        else s3c_adc_try K (irq_finished (irq_delivered s c d0 d1) c)) := by
  have hp : (s.clients c).nr_samples > 0 := Nat.pos_of_ne_zero hn
  simp only [s3c_adc_irq, h, if_neg hn, if_pos hp, irq_delivered, irq_data0, irq_data1,
    irq_finished, upd_cpu]
  split_ifs <;> rfl

@[simp] theorem irq_exit_cur (s : State) : (s3c_adc_irq_exit s).2.cur = s.cur := by
  unfold s3c_adc_irq_exit; simp only []; split_ifs <;> rfl
@[simp] theorem irq_exit_ts_pend (s : State) : (s3c_adc_irq_exit s).2.ts_pend = s.ts_pend := by
  unfold s3c_adc_irq_exit; simp only []; split_ifs <;> rfl
@[simp] theorem irq_exit_adc_pending (s : State) :
    (s3c_adc_irq_exit s).2.adc_pending = s.adc_pending := by
  unfold s3c_adc_irq_exit; simp only []; split_ifs <;> rfl
@[simp] theorem irq_exit_clients (s : State) : (s3c_adc_irq_exit s).2.clients = s.clients := by
  unfold s3c_adc_irq_exit; simp only []; split_ifs <;> rfl
@[simp] theorem irq_exit_cpu (s : State) : (s3c_adc_irq_exit s).2.cpu = s.cpu := by
  unfold s3c_adc_irq_exit; simp only []; split_ifs <;> rfl
@[simp] theorem irq_exit_con (s : State) : (s3c_adc_irq_exit s).2.con = s.con := by
  unfold s3c_adc_irq_exit; simp only []; split_ifs <;> rfl

@[simp] theorem call_convert_cur (s : State) (c : Nat) (cb) (v u : Nat) :
    (call_convert s c cb v u).cur = s.cur := by cases cb <;> rfl
@[simp] theorem call_convert_ts_pend (s : State) (c : Nat) (cb) (v u : Nat) :
    (call_convert s c cb v u).ts_pend = s.ts_pend := by cases cb <;> rfl
@[simp] theorem call_convert_adc_pending (s : State) (c : Nat) (cb) (v u : Nat) :
    (call_convert s c cb v u).adc_pending = s.adc_pending := by cases cb <;> rfl
@[simp] theorem call_convert_cpu (s : State) (c : Nat) (cb) (v u : Nat) :
    (call_convert s c cb v u).cpu = s.cpu := by cases cb <;> rfl
@[simp] theorem call_convert_con (s : State) (c : Nat) (cb) (v u : Nat) :
    (call_convert s c cb v u).con = s.con := by cases cb <;> rfl

/-- The callback leaves the scheduling attributes of every client alone. -/
theorem call_convert_attrs (s : State) (c : Nat) (cb) (v u : Nat) (x : Nat) :
    ((call_convert s c cb v u).clients x).running = (s.clients x).running ∧
    ((call_convert s c cb v u).clients x).is_ts = (s.clients x).is_ts ∧
    ((call_convert s c cb v u).clients x).convert_cb = (s.clients x).convert_cb := by
  cases cb <;> simp only [call_convert, s3c_convert_done, emit_clients, upd_clients] <;>
    split_ifs with hx <;> simp_all

@[simp] theorem irq_delivered_cur (s : State) (c d0 d1 : Nat) :
    (irq_delivered s c d0 d1).cur = s.cur := by
  unfold irq_delivered; simp only []; split <;> simp
@[simp] theorem irq_delivered_ts_pend (s : State) (c d0 d1 : Nat) :
    (irq_delivered s c d0 d1).ts_pend = s.ts_pend := by
  unfold irq_delivered; simp only []; split <;> simp
@[simp] theorem irq_delivered_adc_pending (s : State) (c d0 d1 : Nat) :
    (irq_delivered s c d0 d1).adc_pending = s.adc_pending := by
  unfold irq_delivered; simp only []; split <;> simp
@[simp] theorem irq_delivered_cpu (s : State) (c d0 d1 : Nat) :
    (irq_delivered s c d0 d1).cpu = s.cpu := by
  unfold irq_delivered; simp only []; split <;> simp
@[simp] theorem irq_delivered_con (s : State) (c d0 d1 : Nat) :
    (irq_delivered s c d0 d1).con = s.con := by
  unfold irq_delivered; simp only []; split <;> simp

/-- Delivering a sample leaves the scheduling attributes of every client alone. -/
theorem irq_delivered_attrs (s : State) (c d0 d1 : Nat) (x : Nat) :
    ((irq_delivered s c d0 d1).clients x).running = (s.clients x).running ∧
    ((irq_delivered s c d0 d1).clients x).is_ts = (s.clients x).is_ts ∧
    ((irq_delivered s c d0 d1).clients x).convert_cb = (s.clients x).convert_cb := by
  have h0 : ∀ y, ((s.upd c (fun cl => { cl with nr_samples := cl.nr_samples - 1 })).clients y).running
        = (s.clients y).running ∧
      ((s.upd c (fun cl => { cl with nr_samples := cl.nr_samples - 1 })).clients y).is_ts
        = (s.clients y).is_ts ∧
      ((s.upd c (fun cl => { cl with nr_samples := cl.nr_samples - 1 })).clients y).convert_cb
        = (s.clients y).convert_cb := by
    intro y; simp only [upd_clients]; split_ifs with hy <;> simp_all
  unfold irq_delivered; simp only []
  split
  · rename_i cb _
    have := call_convert_attrs (s.upd c (fun cl => { cl with nr_samples := cl.nr_samples - 1 })) c cb
      (irq_data0 s d0) (irq_data1 s d1) x
    rw [this.1, this.2.1, this.2.2]; exact h0 x
  · exact h0 x

@[simp] theorem irq_finished_cur (s : State) (c : Nat) : (irq_finished s c).cur = none := rfl
@[simp] theorem irq_finished_ts_pend (s : State) (c : Nat) :
    (irq_finished s c).ts_pend = s.ts_pend := by
  unfold irq_finished; simp only []; split_ifs <;> rfl
@[simp] theorem irq_finished_adc_pending (s : State) (c : Nat) :
    (irq_finished s c).adc_pending = s.adc_pending := by
  unfold irq_finished; simp only []; split_ifs <;> rfl
@[simp] theorem irq_finished_cpu (s : State) (c : Nat) : (irq_finished s c).cpu = s.cpu := by
  unfold irq_finished; simp only []; split_ifs <;> rfl
@[simp] theorem irq_finished_con (s : State) (c : Nat) : (irq_finished s c).con = s.con := by
  unfold irq_finished; simp only []; split_ifs <;> rfl
theorem irq_finished_clients (s : State) (c x : Nat) :
    (irq_finished s c).clients x =
      if x = c then { s.clients c with running := false } else s.clients x := by
  unfold irq_finished; simp only []; split_ifs <;> simp_all [State.upd]

/-- Retiring the active client keeps the invariant. -/
theorem irq_finished_inv0 {s : State} (h : Inv0 s) (c : Nat) (hc : s.cur = some c) :
    Inv0 (irq_finished s c) := by
  obtain ⟨a, b, p, d, e, f⟩ := h
  obtain ⟨e1, e2⟩ := e c hc
  refine ⟨?_, ?_, ?_, ?_, ?_, ?_⟩
  · intro x
    simp only [referenced, irq_finished_cur, irq_finished_ts_pend, irq_finished_adc_pending,
      irq_finished_clients]
    by_cases hx : x = c
    · subst hx; simp [e1, e2]
    · have := a x; simp only [referenced] at this
      rw [if_neg hx, this, hc]; simp only [Option.some.injEq]
      constructor
      · rintro (h | h | h)
        · exact absurd h.symm hx
        · exact Or.inr (Or.inl h)
        · exact Or.inr (Or.inr h)
      · rintro (h | h | h)
        · exact absurd h (by simp)
        · exact Or.inr (Or.inl h)
        · exact Or.inr (Or.inr h)
  · intro x hx
    simp only [irq_finished_ts_pend] at hx
    simp only [irq_finished_clients]
    split_ifs with hxc
    · subst hxc; exact b x hx
    · exact b x hx
  · intro x hx
    simp only [irq_finished_adc_pending] at hx
    simp only [irq_finished_clients]
    split_ifs with hxc
    · subst hxc; exact p x hx
    · exact p x hx
  · simpa using d
  · intro x hx; simp at hx
  · intro x hx
    simp only [irq_finished_clients] at hx ⊢
    split_ifs with hxc
    · rw [if_pos hxc] at hx; simp at hx
    · rw [if_neg hxc] at hx; exact f x hx

/-- Every interrupt keeps the invariant. -/
theorem irq_inv (K) {s : State} (h : Inv s) (d0 d1 : Nat) : Inv (s3c_adc_irq K s d0 d1).2 := by
  rcases hc : s.cur with _ | c
  · rw [irq_idle_eq K s d0 d1 hc]
    exact inv_of_same h (by simp) (by simp) (by simp) (fun _ => by simp)
  · by_cases hn : (s.clients c).nr_samples = 0
    · rw [irq_zero_eq K s c d0 d1 hc hn]
      exact inv_of_same h (by simp) (by simp) (by simp) (fun _ => by simp)
    · rw [irq_active_eq K s c d0 d1 hc hn]
      have hd : Inv (irq_delivered s c d0 d1) :=
        inv_of_same h (by simp) (by simp) (by simp) (fun x => by
          have := irq_delivered_attrs s c d0 d1 x
          exact ⟨this.1, this.2.1, fun _ => this.2.2⟩)
      split_ifs with hl
      · exact inv_of_same hd (by simp) (by simp) (by simp) (fun _ => by simp)
      · have := try_inv K (irq_finished_inv0 hd.toInv0 c (by simp [hc])) (by simp)
        exact inv_of_same this (by simp) (by simp) (by simp) (fun _ => by simp)

/-- An idle device satisfies the invariant. -/
theorem idle_inv {s : State} (h : Idle s) : Inv s := by
  obtain ⟨h1, h2, h3, h4⟩ := h
  refine ⟨⟨?_, ?_, ?_, ?_, ?_, ?_⟩, ?_⟩
  · intro c; simp [referenced, h1, h2, h3, h4]
  · intro c hc; simp [h2] at hc
  · intro c hc; simp [h3] at hc
  · simp [h3]
  · intro c hc; simp [h1] at hc
  · intro c hc; simp [h4] at hc
  · intro _; exact ⟨h2, h3⟩

/-- Every call keeps the invariant. -/
theorem step_inv (K) {s : State} (h : Inv s) (op : Op) : Inv (step K s op) := by
  cases op with
  | start c ch n w => exact start_inv K h c ch n w
  | stop c => exact stop_inv K h c
  | irq d0 d1 => exact irq_inv K h d0 d1

/-- Every sequence of calls keeps the invariant. -/
theorem run_inv (K) (ops : List Op) : ∀ {s : State}, Inv s → Inv (run K s ops) := by
  induction ops with
  | nil => intro s h; exact h
  | cons op ops ih => intro s h; exact ih (step_inv K h op)

/-- Every reachable state satisfies the invariant. -/
theorem reachable_inv {K} {s : State} (h : Reachable K s) : Inv s := by
  obtain ⟨s0, ops, h0, rfl⟩ := h
  exact run_inv K ops (idle_inv h0)

/-! ## What dispatch and stop do to the three places -/

theorem try_cur_ts (K) (s : State) (n : Nat) (h : s.ts_pend = some n) :
    (s3c_adc_try K s).cur = some n := by
  rw [try_ts K s n h]; simp

theorem try_adc_pending_ts (K) (s : State) (n : Nat) (h : s.ts_pend = some n) :
    (s3c_adc_try K s).adc_pending = s.adc_pending := by
  rw [try_ts K s n h]; simp

theorem try_cur_fifo (K) (s : State) (n : Nat) (rest : List Nat) (h : s.ts_pend = none)
    (hp : s.adc_pending = n :: rest) : (s3c_adc_try K s).cur = some n := by
  rw [try_fifo K s n rest h hp]; simp

theorem try_adc_pending_fifo (K) (s : State) (n : Nat) (rest : List Nat) (h : s.ts_pend = none)
    (hp : s.adc_pending = n :: rest) : (s3c_adc_try K s).adc_pending = rest := by
  rw [try_fifo K s n rest h hp]; simp

theorem try_cur_none (K) (s : State) (h : s.ts_pend = none) (hp : s.adc_pending = []) :
    (s3c_adc_try K s).cur = s.cur := by
  rw [try_none K s h hp]; rfl

theorem try_adc_pending_none (K) (s : State) (h : s.ts_pend = none) (hp : s.adc_pending = []) :
    (s3c_adc_try K s).adc_pending = [] := by
  rw [try_none K s h hp]; exact hp

/-- Dispatch never selects a client that is in none of the three places. -/
theorem try_unreferenced (K) (s : State) (c : Nat) (h1 : s.cur ≠ some c)
    (h2 : s.ts_pend ≠ some c) (h3 : c ∉ s.adc_pending) :
    (s3c_adc_try K s).cur ≠ some c ∧ c ∉ (s3c_adc_try K s).adc_pending := by
  rcases hts : s.ts_pend with _ | n
  · rcases hp : s.adc_pending with _ | ⟨n, rest⟩
    · rw [try_cur_none K s hts hp, try_adc_pending_none K s hts hp]
      exact ⟨h1, by simp⟩
    · rw [try_cur_fifo K s n rest hts hp, try_adc_pending_fifo K s n rest hts hp]
      rw [hp] at h3
      simp only [List.mem_cons, not_or] at h3
      exact ⟨fun h => h3.1 (Option.some.inj h).symm, h3.2⟩
  · rw [try_cur_ts K s n hts, try_adc_pending_ts K s n hts]
    rw [hts] at h2
    exact ⟨h2, h3⟩

/-- A stop never leaves the client in the priority slot. -/
theorem stop_ts_pend_ne (K) (s : State) (c : Nat) : (s3c_adc_stop K s c).ts_pend ≠ some c := by
  rw [stop_eq]
  split_ifs with h
  · simp
  · rw [stop_removed_ts_pend]
    split_ifs with h2
    · simp
    · exact h2

/-- A stop clears the running flag of the client. -/
theorem stop_running (K) (s : State) (c : Nat) :
    ((s3c_adc_stop K s c).clients c).running = false := by
  rw [stop_eq]
  split_ifs with h
  · rw [try_clients, stop_removed_clients, if_pos rfl]
  · rw [stop_removed_clients, if_pos rfl]

/-- A stop leaves the client in none of the three places, provided the client
was not in the priority slot and in the pending list at once. -/
theorem stop_unreferenced (K) (s : State) (c : Nat)
    (h : s.ts_pend = some c → c ∉ s.adc_pending) : ¬ referenced (s3c_adc_stop K s c) c := by
  have r1 : (stop_removed s c).cur ≠ some c := by
    rw [stop_removed_cur]; split_ifs with h1
    · simp
    · exact h1
  have r2 : (stop_removed s c).ts_pend ≠ some c := by
    rw [stop_removed_ts_pend]; split_ifs with h1
    · simp
    · exact h1
  have r3 : c ∉ (stop_removed s c).adc_pending := by
    rw [stop_removed_adc_pending]; split_ifs with h1
    · exact h h1
    · simp
  simp only [referenced, not_or]
  refine ⟨?_, stop_ts_pend_ne K s c, ?_⟩
  · rw [stop_eq]; split_ifs
    · exact (try_unreferenced K _ c r1 r2 r3).1
    · exact r1
  · rw [stop_eq]; split_ifs
    · exact (try_unreferenced K _ c r1 r2 r3).2
    · exact r3

/-! ## Client records under the calls -/

/-- Delivering a sample touches the record of the active client only. -/
theorem irq_delivered_clients_ne (s : State) (c d0 d1 x : Nat) (hx : x ≠ c) :
    (irq_delivered s c d0 d1).clients x = s.clients x := by
  unfold irq_delivered
  simp only []
  split
  · rename_i cb _
    cases cb <;> simp [call_convert, s3c_convert_done, upd_clients, hx]
  · simp [upd_clients, hx]

/-- The driver's own delivery callback leaves the sample count alone. -/
theorem irq_delivered_nr_samples_done (s : State) (c d0 d1 : Nat)
    (h : (s.clients c).convert_cb = some convert_fn.s3c_convert_done) :
    ((irq_delivered s c d0 d1).clients c).nr_samples = (s.clients c).nr_samples - 1 := by
  simp [irq_delivered, h, call_convert, s3c_convert_done]

/-- A start changes no client's priority flag. -/
theorem start_is_ts (K) (s : State) (c ch n : Nat) (w : Option Nat) (x : Nat) :
    ((s3c_adc_start K s c ch n w).2.clients x).is_ts = (s.clients x).is_ts := by
  by_cases h1 : (s.clients c).is_ts ≠ 0 ∧ s.ts_pend ≠ none
  · simp only [s3c_adc_start, if_pos h1]
  · by_cases h2 : (s.clients c).running = true
    · simp only [s3c_adc_start, if_neg h1, if_pos h2, emit_clients]
    · have h2f : (s.clients c).running = false := by simpa using h2
      rw [start_ok_eq K s c ch n w h1 h2f]
      simp only []
      split_ifs
      · rw [try_clients, start_queued_clients]; split_ifs with hx
        · subst hx; rfl
        · rfl
      · rw [start_queued_clients]; split_ifs with hx
        · subst hx; rfl
        · rfl

/-! ## The log of outgoing calls -/

@[simp] theorem convert_lefts_append (c : Nat) (l1 l2 : List Event) :
    convert_lefts c (l1 ++ l2) = convert_lefts c l1 ++ convert_lefts c l2 := by
  simp [convert_lefts, List.filterMap_append]

@[simp] theorem select_count_append (c : Nat) (l1 l2 : List Event) :
    select_count c (l1 ++ l2) = select_count c l1 + select_count c l2 := by
  simp [select_count, List.count_append]

theorem register_writes_convert_lefts {l : List Event} (h : RegisterWrites l) (c : Nat) :
    convert_lefts c l = [] := by
  induction l with
  | nil => rfl
  | cons e l ih =>
    obtain ⟨v, r, rfl⟩ := h e (List.mem_cons_self _ _)
    have := ih (fun e he => h e (List.mem_cons_of_mem _ he))
    simpa [convert_lefts] using this

theorem register_writes_select_count {l : List Event} (h : RegisterWrites l) (c : Nat) :
    select_count c l = 0 := by
  induction l with
  | nil => rfl
  | cons e l ih =>
    obtain ⟨v, r, rfl⟩ := h e (List.mem_cons_self _ _)
    have := ih (fun e he => h e (List.mem_cons_of_mem _ he))
    simpa [select_count, List.count_cons] using this

theorem log_one_write (l0 : List Event) (a : Event) (v : Nat) (r : Reg) :
    ∃ l, (l0 ++ [a]) ++ [Event.writel v r] = l0 ++ a :: l ∧ RegisterWrites l := by
  refine ⟨[Event.writel v r], by simp, ?_⟩
  intro e he
  simp only [List.mem_singleton] at he
  subst he; exact ⟨_, _, rfl⟩

theorem log_two_writes (l0 : List Event) (a : Event) (v1 : Nat) (r1 : Reg) (v2 : Nat) (r2 : Reg) :
    ∃ l, ((l0 ++ [a]) ++ [Event.writel v1 r1]) ++ [Event.writel v2 r2] = l0 ++ a :: l ∧
      RegisterWrites l := by
  refine ⟨[Event.writel v1 r1, Event.writel v2 r2], by simp, ?_⟩
  intro e he
  simp only [List.mem_cons, List.mem_singleton, List.not_mem_nil, or_false] at he
  rcases he with rfl | rfl <;> exact ⟨_, _, rfl⟩

theorem select_log (K) (s : State) (n : Nat) :
    ∃ l, (s3c_adc_select K s n).log = s.log ++ Event.select_cb n 1 :: l ∧ RegisterWrites l := by
  unfold s3c_adc_select
  simp only []
  split_ifs
  · exact log_two_writes _ _ _ _ _ _
  · exact log_one_write _ _ _ _
  · exact log_one_write _ _ _ _

/-- The calls of select followed by convert. -/
theorem convert_select_log (K) (s : State) (n : Nat) :
    ∃ l, (s3c_adc_convert K (s3c_adc_select K s n)).log = s.log ++ Event.select_cb n 1 :: l ∧
      RegisterWrites l := by
  obtain ⟨l, hl, hq⟩ := select_log K s n
  refine ⟨l ++ [Event.writel (u32 ((s3c_adc_select K s n).con ||| K.S3C2410_ADCCON_ENABLE_START))
    Reg.S3C2410_ADCCON], by rw [convert_log, hl]; simp, ?_⟩
  intro e he
  simp only [List.mem_append, List.mem_singleton] at he
  rcases he with he | rfl
  · exact hq e he
  · exact ⟨_, _, rfl⟩

/-- The calls dispatch makes when it selects a client, or when it selects none. -/
theorem try_log (K) (s : State) :
    (∃ n l, (s3c_adc_try K s).cur = some n ∧
      (s3c_adc_try K s).log = s.log ++ Event.select_cb n 1 :: l ∧ RegisterWrites l) ∨
    ((s3c_adc_try K s).cur = s.cur ∧ ∃ l, (s3c_adc_try K s).log = s.log ++ l ∧
      RegisterWrites l) := by
  rcases hts : s.ts_pend with _ | n
  · rcases hp : s.adc_pending with _ | ⟨n, rest⟩
    · right
      rw [try_none K s hts hp]
      refine ⟨rfl, [Event.writel _ _], rfl, ?_⟩
      intro e he
      simp only [List.mem_singleton] at he
      subst he; exact ⟨_, _, rfl⟩
    · left
      rw [try_fifo K s n rest hts hp]
      obtain ⟨l, hl, hq⟩ := convert_select_log K { s with adc_pending := rest, cur := some n } n
      exact ⟨n, l, by simp, hl, hq⟩
  · left
    rw [try_ts K s n hts]
    obtain ⟨l, hl, hq⟩ := convert_select_log K { s with ts_pend := none, cur := some n } n
    exact ⟨n, l, by simp, hl, hq⟩

theorem try_convert_lefts (K) (s : State) (c : Nat) :
    convert_lefts c (s3c_adc_try K s).log = convert_lefts c s.log := by
  rcases try_log K s with ⟨n, l, _, hl, hq⟩ | ⟨_, l, hl, hq⟩
  · rw [hl, convert_lefts_append]
    have : convert_lefts c (Event.select_cb n 1 :: l) = [] := by
      simpa [convert_lefts] using register_writes_convert_lefts hq c
    rw [this, List.append_nil]
  · rw [hl, convert_lefts_append, register_writes_convert_lefts hq c, List.append_nil]

/-- Dispatch calls the select callback of no client but the one it leaves active. -/
theorem try_select_count_other (K) (s : State) (c : Nat) (h : (s3c_adc_try K s).cur ≠ some c) :
    select_count c (s3c_adc_try K s).log = select_count c s.log := by
  rcases try_log K s with ⟨n, l, hn, hl, hq⟩ | ⟨_, l, hl, hq⟩
  · rw [hl, select_count_append]
    have hnc : n ≠ c := by rintro rfl; exact h hn
    have : select_count c (Event.select_cb n 1 :: l) = 0 := by
      have := register_writes_select_count hq c
      simp only [select_count] at this ⊢
      simp [List.count_cons, this, hnc]
    rw [this, Nat.add_zero]
  · rw [hl, select_count_append, register_writes_select_count hq c, Nat.add_zero]

theorem irq_exit_convert_lefts (s : State) (c : Nat) :
    convert_lefts c (s3c_adc_irq_exit s).2.log = convert_lefts c s.log := by
  unfold s3c_adc_irq_exit; simp only []
  split_ifs
  · simp [convert_lefts]
  · rfl

theorem irq_exit_select_count (s : State) (c : Nat) :
    select_count c (s3c_adc_irq_exit s).2.log = select_count c s.log := by
  unfold s3c_adc_irq_exit; simp only []
  split_ifs
  · simp [select_count]
  · rfl

theorem irq_finished_convert_lefts (s : State) (c x : Nat) :
    convert_lefts x (irq_finished s c).log = convert_lefts x s.log := by
  unfold irq_finished; simp only []
  split_ifs <;> simp [convert_lefts]

theorem irq_finished_select_count (s : State) (c x : Nat) :
    select_count x (irq_finished s c).log = select_count x s.log := by
  unfold irq_finished; simp only []
  split_ifs <;> simp [select_count]

/-- The delivery with the driver's own callback logs the call and the wake-up. -/
theorem irq_delivered_log_done (s : State) (c d0 d1 : Nat)
    (h : (s.clients c).convert_cb = some convert_fn.s3c_convert_done) :
    (irq_delivered s c d0 d1).log =
      s.log ++ [Event.convert_cb c (irq_data0 s d0) (irq_data1 s d1) ((s.clients c).nr_samples - 1),
        Event.wake_up (s.clients c).wait] := by
  simp [irq_delivered, h, call_convert, s3c_convert_done]

/-! ## Calls on other clients -/

/-- A start changes the record of its own client only. -/
theorem start_clients_ne (K) (s : State) (d ch n : Nat) (w : Option Nat) (c : Nat) (h : c ≠ d) :
    (s3c_adc_start K s d ch n w).2.clients c = s.clients c := by
  by_cases h1 : (s.clients d).is_ts ≠ 0 ∧ s.ts_pend ≠ none
  · simp only [s3c_adc_start, if_pos h1]
  · by_cases h2 : (s.clients d).running = true
    · simp only [s3c_adc_start, if_neg h1, if_pos h2, emit_clients]
    · have h2f : (s.clients d).running = false := by simpa using h2
      rw [start_ok_eq K s d ch n w h1 h2f]
      simp only []
      split_ifs
      · rw [try_clients, start_queued_clients, if_neg h]
      · rw [start_queued_clients, if_neg h]

/-- A stop clears the running flag of its client and changes nothing else in
the client records. -/
theorem stop_clients (K) (s : State) (d c : Nat) :
    (s3c_adc_stop K s d).clients c =
      if c = d then { s.clients d with running := false } else s.clients c := by
  rw [stop_eq]
  split_ifs with h1 h2 h2
  · rw [try_clients, stop_removed_clients, if_pos h2]
  · rw [try_clients, stop_removed_clients, if_neg h2]
  · rw [stop_removed_clients, if_pos h2]
  · rw [stop_removed_clients, if_neg h2]

/-- Starts and stops of other clients leave the record of `c` alone. -/
theorem run_others_clients (K) (c : Nat) (ops : List Op) :
    ∀ (s : State), OthersNoIrq c ops → (run K s ops).clients c = s.clients c := by
  induction ops with
  | nil => intro s _; rfl
  | cons op ops ih =>
    intro s h
    have hrest : OthersNoIrq c ops := fun o ho => h o (List.mem_cons_of_mem _ ho)
    have hstep : run K s (op :: ops) = run K (step K s op) ops := rfl
    rw [hstep, ih _ hrest]
    rcases h op (List.mem_cons_self _ _) with ⟨d, ch, n, w, rfl, hd⟩ | ⟨d, rfl, hd⟩
    · exact start_clients_ne K s d ch n w c (fun h => hd h.symm)
    · simp only [step]; rw [stop_clients, if_neg (fun h => hd h.symm)]

/-- The stop of a running priority client leaves the priority slot empty. -/
theorem stop_ts_pend_none (K) {s : State} (hi : Inv s) (c : Nat)
    (hr : (s.clients c).running = true) (hts : (s.clients c).is_ts ≠ 0) :
    (s3c_adc_stop K s c).ts_pend = none := by
  rw [stop_eq]
  split_ifs with h
  · exact try_ts_pend K _
  · rw [stop_removed_cur] at h
    have hcur : s.cur ≠ some c := by
      intro hc; rw [if_pos hc] at h; exact h rfl
    rcases (hi.run_ref c).mp hr with h1 | h1 | h1
    · exact absurd h1 hcur
    · rw [stop_removed_ts_pend, if_pos h1]
    · exact absurd (hi.pend_not_ts c h1) hts

/-! ## C1: running flags under sequences of starts -/

/-- C1, as stated, fails: on an idle device with two ordinary clients 1 and 2,
after `s3c_adc_start` on 1 and then on 2 (one sample each) client 1 is active,
client 2 waits in the list, and both have their running flag set. -/
theorem c1_two_running_counterexample :
    Idle ordinary_init ∧
    StartsOnly [Op.start 1 0 1 none, Op.start 2 0 1 none] ∧
    ¬ AtMostOneRunning (run regs_adc_h ordinary_init
        [Op.start 1 0 1 none, Op.start 2 0 1 none]) := by
  refine ⟨⟨rfl, rfl, rfl, fun _ => rfl⟩, ?_, ?_⟩
  · intro op hop
    simp only [List.mem_cons, List.mem_singleton, List.not_mem_nil, or_false] at hop
    rcases hop with rfl | rfl
    · exact ⟨1, 0, 1, none, rfl⟩
    · exact ⟨2, 0, 1, none, rfl⟩
  · intro h
    have h12 := h 1 2 (by decide) (by decide)
    exact absurd h12 (by decide)

/-- A start leaves a set running flag set. -/
theorem start_keeps_running (K) (s : State) (d ch n : Nat) (w : Option Nat) (c : Nat)
    (h : (s.clients c).running = true) :
    ((s3c_adc_start K s d ch n w).2.clients c).running = true := by
  by_cases hd : c = d
  · subst hd
    by_cases h1 : (s.clients c).is_ts ≠ 0 ∧ s.ts_pend ≠ none
    · simp only [s3c_adc_start, if_pos h1]; exact h
    · simp only [s3c_adc_start, if_neg h1, if_pos h, emit_clients]; exact h
  · rw [start_clients_ne K s d ch n w c hd]; exact h

/-- A start of an ordinary client leaves its running flag set, whether the
start is accepted or refused. -/
theorem start_sets_running (K) (s : State) (c ch n : Nat) (w : Option Nat)
    (h : (s.clients c).is_ts = 0) :
    ((s3c_adc_start K s c ch n w).2.clients c).running = true := by
  have h1 : ¬((s.clients c).is_ts ≠ 0 ∧ s.ts_pend ≠ none) := fun hh => hh.1 h
  by_cases h2 : (s.clients c).running = true
  · exact start_keeps_running K s c ch n w c h2
  · have h2f : (s.clients c).running = false := by simpa using h2
    rw [start_ok_eq K s c ch n w h1 h2f]
    simp only []
    split_ifs
    · rw [try_clients, start_queued_clients, if_pos rfl]
    · rw [start_queued_clients, if_pos rfl]

/-- After a sequence of starts, a client that was running, or an ordinary
client that one of the starts was for, has its running flag set. -/
theorem starts_running (K) (c : Nat) (ops : List Op) :
    ∀ (s : State), StartsOnly ops →
      ((s.clients c).running = true ∨
        ((∃ ch n w, Op.start c ch n w ∈ ops) ∧ (s.clients c).is_ts = 0)) →
      ((run K s ops).clients c).running = true := by
  induction ops with
  | nil =>
    intro s _ h
    rcases h with h | ⟨⟨ch, n, w, hm⟩, _⟩
    · exact h
    · exact absurd hm (List.not_mem_nil _)
  | cons op ops ih =>
    intro s hs h
    have hrest : StartsOnly ops := fun o ho => hs o (List.mem_cons_of_mem _ ho)
    obtain ⟨d, ch0, n0, w0, rfl⟩ := hs op (List.mem_cons_self _ _)
    have hstep : run K s (Op.start d ch0 n0 w0 :: ops) =
        run K (s3c_adc_start K s d ch0 n0 w0).2 ops := rfl
    rw [hstep]
    apply ih _ hrest
    rcases h with h | ⟨⟨ch, n, w, hm⟩, hts⟩
    · exact Or.inl (start_keeps_running K s d ch0 n0 w0 c h)
    · rcases List.mem_cons.mp hm with he | hm
      · have hcd : c = d := by injection he
        subst hcd
        exact Or.inl (start_sets_running K s c ch0 n0 w0 hts)
      · exact Or.inr ⟨⟨ch, n, w, hm⟩, by rw [start_is_ts]; exact hts⟩

/-- C1, amended: in every state reached from an idle device by starts only,
every client whose running flag is set is the active client or waits in the
priority slot or the pending list; at most one client has its running flag
set without waiting; and the active client and every waiting client have
their running flag set.  The flag is set for every ordinary client that one
of the starts was for, so with starts for several ordinary clients several
flags are set. -/
theorem c1_running_is_active_or_waiting (K : regs_adc) (s0 : State) (ops : List Op)
    (h0 : Idle s0) (hs : StartsOnly ops) :
    (∀ a, ((run K s0 ops).clients a).running = true →
      (run K s0 ops).cur = some a ∨ waiting (run K s0 ops) a) ∧
    (∀ a b, ((run K s0 ops).clients a).running = true →
      ((run K s0 ops).clients b).running = true →
      ¬ waiting (run K s0 ops) a → ¬ waiting (run K s0 ops) b → a = b) ∧
    (∀ a, waiting (run K s0 ops) a → ((run K s0 ops).clients a).running = true) ∧
    (∀ a, (run K s0 ops).cur = some a → ((run K s0 ops).clients a).running = true) ∧
    (∀ c ch n w, Op.start c ch n w ∈ ops → (s0.clients c).is_ts = 0 →
      ((run K s0 ops).clients c).running = true) := by
  have hi : Inv (run K s0 ops) := run_inv K ops (idle_inv h0)
  have key : ∀ a, ((run K s0 ops).clients a).running = true →
      (run K s0 ops).cur = some a ∨ waiting (run K s0 ops) a := by
    intro a ha
    exact (hi.run_ref a).mp ha
  refine ⟨key, ?_, ?_, ?_, ?_⟩
  · intro a b ha hb hwa hwb
    have ca := (key a ha).resolve_right hwa
    have cb := (key b hb).resolve_right hwb
    rw [ca] at cb
    exact Option.some.inj cb
  · intro a hw
    exact (hi.run_ref a).mpr (Or.inr hw)
  · intro a hc
    exact (hi.run_ref a).mpr (Or.inl hc)
  · intro c ch n w hm hts
    exact starts_running K c ops s0 hs (Or.inr ⟨⟨ch, n, w, hm⟩, hts⟩)

/-- C1, amended, at the two starts of the counterexample: client 1 is active,
client 2 waits in the pending list, and both have their running flag set. -/
theorem c1_running_is_active_or_waiting_witness :
    Idle ordinary_init ∧ StartsOnly [Op.start 1 0 1 none, Op.start 2 0 1 none] ∧
    (run regs_adc_h ordinary_init [Op.start 1 0 1 none, Op.start 2 0 1 none]).cur = some 1 ∧
    waiting (run regs_adc_h ordinary_init [Op.start 1 0 1 none, Op.start 2 0 1 none]) 2 ∧
    ((run regs_adc_h ordinary_init
        [Op.start 1 0 1 none, Op.start 2 0 1 none]).clients 2).running = true ∧
    ((run regs_adc_h ordinary_init
        [Op.start 1 0 1 none, Op.start 2 0 1 none]).clients 1).running = true ∧
    (∀ a, ((run regs_adc_h ordinary_init
        [Op.start 1 0 1 none, Op.start 2 0 1 none]).clients a).running = true →
      (run regs_adc_h ordinary_init [Op.start 1 0 1 none, Op.start 2 0 1 none]).cur = some a ∨
      waiting (run regs_adc_h ordinary_init [Op.start 1 0 1 none, Op.start 2 0 1 none]) a) :=
  have hs : StartsOnly [Op.start 1 0 1 none, Op.start 2 0 1 none] := by
    intro op hop
    simp only [List.mem_cons, List.mem_singleton, List.not_mem_nil, or_false] at hop
    rcases hop with rfl | rfl
    · exact ⟨1, 0, 1, none, rfl⟩
    · exact ⟨2, 0, 1, none, rfl⟩
  have hw : waiting (run regs_adc_h ordinary_init
      [Op.start 1 0 1 none, Op.start 2 0 1 none]) 2 := Or.inr (by decide)
  have h := c1_running_is_active_or_waiting regs_adc_h ordinary_init
      [Op.start 1 0 1 none, Op.start 2 0 1 none] ⟨rfl, rfl, rfl, fun _ => rfl⟩ hs
  ⟨⟨rfl, rfl, rfl, fun _ => rfl⟩, hs, by decide, hw, h.2.2.1 2 hw,
    h.2.2.2.2 1 0 1 none (by decide) rfl, h.1⟩

/-! ## C2: ordinary clients are served in the order of their starts -/

/-- Calls that are neither a select callback with "selected" nor a sample
delivery leave the progress of a request as it is. -/
theorem ahead_log {wb : Prop} {A B a0 c0 b0 d0 : Nat} {s s' : State} (l : List Event)
    (hl : s'.log = s.log ++ l) (hc : s'.cur = s.cur) (hp : s'.adc_pending = s.adc_pending)
    (hb : wb → select_count B l = 0 ∧ convert_lefts B l = [])
    (h : AheadOf wb A B a0 c0 b0 d0 s) : AheadOf wb A B a0 c0 b0 d0 s' := by
  obtain ⟨h0, h0c, h⟩ := h
  have ma : select_count A s.log ≤ select_count A s'.log := by
    rw [hl, select_count_append]; omega
  have mc : (convert_lefts A s.log).length ≤ (convert_lefts A s'.log).length := by
    rw [hl, convert_lefts_append, List.length_append]; omega
  refine ⟨le_trans h0 ma, le_trans h0c mc, ?_⟩
  rcases h with ⟨hu, hw⟩ | hd
  · left
    refine ⟨fun w => ?_, ?_⟩
    · obtain ⟨u1, u2, u3⟩ := hu w
      refine ⟨by rw [hc]; exact u1, ?_, ?_⟩
      · rw [hl, select_count_append, (hb w).1, u2]; rfl
      · rw [hl, convert_lefts_append, (hb w).2, List.append_nil, u3]
    · rcases hw with hw | ⟨hw1, hw2⟩
      · left; rw [hp]; exact hw
      · right; exact ⟨by rw [hc]; exact hw1, lt_of_lt_of_le hw2 ma⟩
  · right
    exact ⟨lt_of_lt_of_le hd.1 ma, lt_of_lt_of_le hd.2 mc⟩

/-- Once the request has been selected and served, every later state has. -/
theorem ahead_done {wb : Prop} {A B a0 c0 b0 d0 : Nat} {s s' : State} (l : List Event)
    (hl : s'.log = s.log ++ l)
    (hd : a0 < select_count A s.log ∧ c0 < (convert_lefts A s.log).length) :
    AheadOf wb A B a0 c0 b0 d0 s' := by
  have ma : select_count A s.log ≤ select_count A s'.log := by
    rw [hl, select_count_append]; omega
  have mc : (convert_lefts A s.log).length ≤ (convert_lefts A s'.log).length := by
    rw [hl, convert_lefts_append, List.length_append]; omega
  exact ⟨by omega, by omega, Or.inr ⟨by omega, by omega⟩⟩

/-- Queuing a client leaves the progress of a request as it is. -/
theorem ahead_start_queued {wb : Prop} {A B a0 c0 b0 d0 : Nat} {s : State} (d ch n : Nat)
    (w : Option Nat) (h : AheadOf wb A B a0 c0 b0 d0 s) :
    AheadOf wb A B a0 c0 b0 d0 (start_queued s d ch n w) := by
  obtain ⟨h0, h0c, h⟩ := h
  refine ⟨by simpa using h0, by simpa using h0c, ?_⟩
  rcases h with ⟨hu, hw⟩ | hd
  · left
    refine ⟨fun w => ?_, ?_⟩
    · simpa [Unserved] using hu w
    · rcases hw with ⟨l1, l2, e, hb⟩ | hw
      · left
        rw [start_queued_adc_pending]
        split_ifs
        · exact ⟨l1, l2, e, hb⟩
        · exact ⟨l1, l2 ++ [d], by rw [e]; simp, hb⟩
      · right; simpa using hw
  · right; simpa using hd

theorem stop_removed_log_eq (s : State) (d : Nat) :
    (stop_removed s d).log =
      if (s.clients d).running = true then s.log
      else s.log ++ [Event.warn_already_stopped d] := by
  unfold stop_removed
  simp only []
  split_ifs <;> simp_all [State.upd, State.emit]

theorem stop_removed_log (s : State) (d : Nat) :
    ∃ l, (stop_removed s d).log = s.log ++ l ∧
      ∀ x, select_count x l = 0 ∧ convert_lefts x l = [] := by
  rw [stop_removed_log_eq]
  split_ifs
  · exact ⟨[], by simp, fun x => ⟨rfl, rfl⟩⟩
  · exact ⟨[Event.warn_already_stopped d], rfl, fun x =>
      ⟨by simp [select_count], by simp [convert_lefts]⟩⟩

/-- Removing another client leaves the progress of a request as it is. -/
theorem ahead_stop_removed {wb : Prop} {A B a0 c0 b0 d0 : Nat} {s : State} (d : Nat)
    (hdA : d ≠ A) (h : AheadOf wb A B a0 c0 b0 d0 s) :
    AheadOf wb A B a0 c0 b0 d0 (stop_removed s d) := by
  obtain ⟨l, hl, hn⟩ := stop_removed_log s d
  obtain ⟨h0, h0c, h⟩ := h
  have ma : select_count A (stop_removed s d).log = select_count A s.log := by
    rw [hl, select_count_append, (hn A).1]; rfl
  have mc : convert_lefts A (stop_removed s d).log = convert_lefts A s.log := by
    rw [hl, convert_lefts_append, (hn A).2, List.append_nil]
  refine ⟨by rw [ma]; exact h0, by rw [mc]; exact h0c, ?_⟩
  rcases h with ⟨hu, hw⟩ | hd
  · left
    refine ⟨fun w => ?_, ?_⟩
    · obtain ⟨u1, u2, u3⟩ := hu w
      refine ⟨?_, ?_, ?_⟩
      · rw [stop_removed_cur]; split_ifs
        · simp
        · exact u1
      · rw [hl, select_count_append, (hn B).1, u2]; rfl
      · rw [hl, convert_lefts_append, (hn B).2, List.append_nil, u3]
    · rcases hw with ⟨l1, l2, e, hb⟩ | ⟨hw1, hw2⟩
      · left
        rw [stop_removed_adc_pending]
        split_ifs
        · exact ⟨l1, l2, e, hb⟩
        · refine ⟨l1.filter (fun tmp => tmp ≠ d), l2.filter (fun tmp => tmp ≠ d), ?_, ?_⟩
          · rw [e, List.filter_append, List.filter_cons_of_pos (by simpa using hdA.symm)]
          · intro w hm; exact hb w (List.mem_filter.mp hm).1
      · right
        refine ⟨?_, by rw [ma]; exact hw2⟩
        rw [stop_removed_cur, if_neg (by rw [hw1]; simpa using hdA.symm)]; exact hw1
  · right
    rw [ma, mc]; exact hd

/-- Dispatch on an idle device moves a waiting request forward or leaves it. -/
theorem ahead_try (K) {wb : Prop} {A B a0 c0 b0 d0 : Nat} {s : State} (hc : s.cur = none)
    (hAB : wb → A ≠ B) (hts : wb → s.ts_pend ≠ some B) (h : AheadOf wb A B a0 c0 b0 d0 s) :
    AheadOf wb A B a0 c0 b0 d0 (s3c_adc_try K s) := by
  rcases try_log K s with ⟨n, l, hn, hl, hq⟩ | ⟨hcur, l, hl, hq⟩
  · -- a client n is dispatched
    obtain ⟨h0, h0c, h⟩ := h
    have hsel : ∀ x, select_count x (s3c_adc_try K s).log =
        select_count x s.log + if n = x then 1 else 0 := by
      intro x
      rw [hl, select_count_append]
      have := register_writes_select_count hq x
      simp only [select_count] at this ⊢
      rw [List.count_cons, this]
      by_cases hx : n = x
      · subst hx; simp
      · simp [hx]
    have hconv : ∀ x, convert_lefts x (s3c_adc_try K s).log = convert_lefts x s.log :=
      fun x => try_convert_lefts K s x
    refine ⟨by rw [hsel]; omega, by rw [hconv]; exact h0c, ?_⟩
    rcases h with ⟨hu, hw⟩ | hd
    · rcases hw with ⟨l1, l2, e, hb⟩ | ⟨hw1, _⟩
      · rcases htsp : s.ts_pend with _ | m
        · -- the head of the pending list is dispatched
          cases l1 with
          | nil =>
            have e2 : s.adc_pending = A :: l2 := by simpa using e
            have hA : n = A := by
              rw [try_cur_fifo K s A l2 htsp e2] at hn
              exact (Option.some.inj hn).symm
            subst hA
            left
            refine ⟨fun w => ?_, Or.inr ⟨hn, by rw [hsel]; simp; omega⟩⟩
            obtain ⟨u1, u2, u3⟩ := hu w
            have hnB : n ≠ B := hAB w
            exact ⟨by rw [hn]; simpa using hnB, by rw [hsel, u2]; simp [hnB],
              by rw [hconv, u3]⟩
          | cons x l1' =>
            have e2 : s.adc_pending = x :: (l1' ++ A :: l2) := by simpa using e
            have hx : n = x := by
              rw [try_cur_fifo K s x _ htsp e2] at hn
              exact (Option.some.inj hn).symm
            subst hx
            left
            refine ⟨fun w => ?_, Or.inl ⟨l1', l2, try_adc_pending_fifo K s n _ htsp e2,
              fun w hm => hb w (List.mem_cons_of_mem _ hm)⟩⟩
            obtain ⟨u1, u2, u3⟩ := hu w
            have hnB : n ≠ B := by
              rintro rfl; exact hb w (List.mem_cons_self _ _)
            exact ⟨by rw [hn]; simpa using hnB, by rw [hsel, u2]; simp [hnB],
              by rw [hconv, u3]⟩
        · -- the priority client is dispatched
          have hm : n = m := by
            rw [try_cur_ts K s m htsp] at hn
            exact (Option.some.inj hn).symm
          subst hm
          left
          refine ⟨fun w => ?_, Or.inl ⟨l1, l2, by rw [try_adc_pending_ts K s n htsp]; exact e,
            hb⟩⟩
          obtain ⟨u1, u2, u3⟩ := hu w
          have hnB : n ≠ B := by
            rintro rfl; exact hts w htsp
          exact ⟨by rw [hn]; simpa using hnB, by rw [hsel, u2]; simp [hnB],
            by rw [hconv, u3]⟩
      · rw [hc] at hw1; exact absurd hw1 (by simp)
    · right
      exact ⟨by rw [hsel]; omega, by rw [hconv]; exact hd.2⟩
  · -- nothing is dispatched
    have hp : (s3c_adc_try K s).adc_pending = s.adc_pending := by
      rcases htsp : s.ts_pend with _ | m
      · rcases hpp : s.adc_pending with _ | ⟨x, rest⟩
        · rw [try_adc_pending_none K s htsp hpp]
        · rw [try_cur_fifo K s x rest htsp hpp, hc] at hcur
          exact absurd hcur (by simp)
      · rw [try_adc_pending_ts K s m htsp]
    exact ahead_log l hl hcur hp
      (fun _ => ⟨register_writes_select_count hq B, register_writes_convert_lefts hq B⟩) h

theorem irq_exit_log (s : State) :
    ∃ l, (s3c_adc_irq_exit s).2.log = s.log ++ l ∧ RegisterWrites l := by
  unfold s3c_adc_irq_exit; simp only []
  split_ifs
  · refine ⟨[Event.writel 0 Reg.S3C64XX_ADCCLRINT], rfl, ?_⟩
    intro e he
    simp only [List.mem_singleton] at he
    subst he; exact ⟨_, _, rfl⟩
  · exact ⟨[], by simp, fun e he => absurd he (by simp)⟩

/-- Leaving the interrupt handler leaves the progress of a request as it is. -/
theorem ahead_irq_exit {wb : Prop} {A B a0 c0 b0 d0 : Nat} {s : State}
    (h : AheadOf wb A B a0 c0 b0 d0 s) : AheadOf wb A B a0 c0 b0 d0 (s3c_adc_irq_exit s).2 := by
  obtain ⟨l, hl, hq⟩ := irq_exit_log s
  exact ahead_log l hl (by simp) (by simp)
    (fun _ => ⟨register_writes_select_count hq B, register_writes_convert_lefts hq B⟩) h

theorem call_convert_log (s : State) (c : Nat) (cb : convert_fn) (v u : Nat) :
    ∃ l, (call_convert s c cb v u).log =
        s.log ++ Event.convert_cb c v u (s.clients c).nr_samples :: l ∧
      ∀ x, select_count x l = 0 ∧ convert_lefts x l = [] := by
  cases cb with
  | s3c_convert_done =>
    refine ⟨[Event.wake_up (s.clients c).wait],
      by simp [call_convert, s3c_convert_done, State.emit], fun x => ⟨?_, ?_⟩⟩
    · simp [select_count]
    · simp [convert_lefts]
  | user f =>
    exact ⟨[], by simp [call_convert, State.emit], fun x => ⟨rfl, rfl⟩⟩

/-- The calls of a delivery: no select callback, and no delivery to a client
other than the active one. -/
theorem irq_delivered_log (s : State) (c d0 d1 : Nat) :
    ∃ l, (irq_delivered s c d0 d1).log = s.log ++ l ∧
      ∀ x, select_count x l = 0 ∧ (x ≠ c → convert_lefts x l = []) := by
  unfold irq_delivered
  simp only []
  split
  · rename_i cb _
    obtain ⟨l, hl, hn⟩ := call_convert_log
      (s.upd c (fun cl => { cl with nr_samples := cl.nr_samples - 1 })) c cb
      (irq_data0 s d0) (irq_data1 s d1)
    refine ⟨_, hl, fun x => ⟨?_, fun hx => ?_⟩⟩
    · have := (hn x).1
      simp only [select_count] at this ⊢
      simp [List.count_cons, this]
    · have := (hn x).2
      have hcx : ¬ c = x := fun h => hx h.symm
      simp only [convert_lefts] at this ⊢
      simp [List.filterMap_cons, this, hcx]
  · exact ⟨[], by simp, fun x => ⟨rfl, fun _ => rfl⟩⟩

theorem irq_finished_log (s : State) (c : Nat) :
    ∃ l, (irq_finished s c).log = s.log ++ l ∧
      ∀ x, select_count x l = 0 ∧ convert_lefts x l = [] := by
  unfold irq_finished
  simp only []
  split_ifs
  · exact ⟨[Event.select_cb c 0], by simp [State.emit, State.upd], fun x =>
      ⟨by simp [select_count], by simp [convert_lefts]⟩⟩
  · exact ⟨[Event.select_cb c 0, Event.warn_already_stopped c],
      by simp [State.emit, State.upd], fun x =>
      ⟨by simp [select_count], by simp [convert_lefts]⟩⟩

/-- Dispatch only appends to the log. -/
theorem try_log_append (K) (s : State) : ∃ l, (s3c_adc_try K s).log = s.log ++ l := by
  rcases try_log K s with ⟨n, l, _, hl, _⟩ | ⟨_, l, hl, _⟩
  · exact ⟨_, hl⟩
  · exact ⟨_, hl⟩

/-- The interrupt handler only appends to the log. -/
theorem irq_log_append (K) (s : State) (d0 d1 : Nat) :
    ∃ l, (s3c_adc_irq K s d0 d1).2.log = s.log ++ l := by
  rcases hc : s.cur with _ | c
  · rw [irq_idle_eq K s d0 d1 hc]
    obtain ⟨l, hl, _⟩ := irq_exit_log (s.emit Event.warn_no_adc_pending)
    exact ⟨Event.warn_no_adc_pending :: l, by rw [hl]; simp⟩
  · by_cases hn : (s.clients c).nr_samples = 0
    · rw [irq_zero_eq K s c d0 d1 hc hn]
      obtain ⟨l, hl, _⟩ := irq_exit_log (s.emit Event.warn_no_adc_pending)
      exact ⟨Event.warn_no_adc_pending :: l, by rw [hl]; simp⟩
    · rw [irq_active_eq K s c d0 d1 hc hn]
      obtain ⟨l1, hl1, _⟩ := irq_delivered_log s c d0 d1
      split_ifs
      · obtain ⟨l, hl, _⟩ := irq_exit_log
          (s3c_adc_convert K ((irq_delivered s c d0 d1).emit (Event.select_cb c 1)))
        exact ⟨_, by rw [hl, convert_log, emit_log, hl1]; simp only [List.append_assoc]; rfl⟩
      · obtain ⟨l, hl, _⟩ := irq_exit_log (s3c_adc_try K (irq_finished (irq_delivered s c d0 d1) c))
        obtain ⟨l2, hl2⟩ := try_log_append K (irq_finished (irq_delivered s c d0 d1) c)
        obtain ⟨l3, hl3, _⟩ := irq_finished_log (irq_delivered s c d0 d1) c
        exact ⟨_, by rw [hl, hl2, hl3, hl1]; simp only [List.append_assoc]; rfl⟩

/-- Retiring an active client other than `A` leaves the progress of the
request of `A` as it is. -/
theorem ahead_irq_finished {wb : Prop} {A B a0 c0 b0 d0 : Nat} {s : State} (c : Nat)
    (hcA : s.cur ≠ some A) (h : AheadOf wb A B a0 c0 b0 d0 s) :
    AheadOf wb A B a0 c0 b0 d0 (irq_finished s c) := by
  obtain ⟨l, hl, hn⟩ := irq_finished_log s c
  obtain ⟨h0, h0c, h⟩ := h
  have ma : select_count A (irq_finished s c).log = select_count A s.log := by
    rw [hl, select_count_append, (hn A).1]; rfl
  have mc : convert_lefts A (irq_finished s c).log = convert_lefts A s.log := by
    rw [hl, convert_lefts_append, (hn A).2, List.append_nil]
  refine ⟨by rw [ma]; exact h0, by rw [mc]; exact h0c, ?_⟩
  rcases h with ⟨hu, hw⟩ | hd
  · left
    refine ⟨fun w => ?_, ?_⟩
    · obtain ⟨_, u2, u3⟩ := hu w
      refine ⟨by simp, ?_, ?_⟩
      · rw [hl, select_count_append, (hn B).1, u2]; rfl
      · rw [hl, convert_lefts_append, (hn B).2, List.append_nil, u3]
    · rcases hw with hw | ⟨hw1, _⟩
      · left; simpa using hw
      · exact absurd hw1 hcA
  · right
    rw [ma, mc]; exact hd

/-- One interrupt moves a request forward or leaves it. -/
theorem ahead_irq (K) {wb : Prop} {A B a0 c0 b0 d0 : Nat} {s : State} (hi : Inv s)
    (hAB : wb → A ≠ B) (hB : wb → (s.clients B).is_ts = 0) (d0' d1' : Nat)
    (h : AheadOf wb A B a0 c0 b0 d0 s) :
    AheadOf wb A B a0 c0 b0 d0 (s3c_adc_irq K s d0' d1').2 := by
  have hts : wb → s.ts_pend ≠ some B := fun w hh => hi.ts_is_ts B hh (hB w)
  rcases hc : s.cur with _ | c
  · rw [irq_idle_eq K s d0' d1' hc]
    exact ahead_irq_exit (ahead_log [Event.warn_no_adc_pending] rfl rfl rfl
      (fun _ => ⟨by simp [select_count], by simp [convert_lefts]⟩) h)
  · by_cases hn : (s.clients c).nr_samples = 0
    · rw [irq_zero_eq K s c d0' d1' hc hn]
      exact ahead_irq_exit (ahead_log [Event.warn_no_adc_pending] rfl rfl rfl
        (fun _ => ⟨by simp [select_count], by simp [convert_lefts]⟩) h)
    · obtain ⟨lall, hlall⟩ := irq_log_append K s d0' d1'
      obtain ⟨h0, h0c, h'⟩ := h
      rcases h' with ⟨hu, hw⟩ | hd
      · rcases hw with ⟨l1, l2, e, hb⟩ | ⟨hw1, hw2⟩
        · -- the request of A waits; the active client is another one
          have hcA : c ≠ A := by
            rintro rfl
            exact (hi.cur_not_wait c hc).2 (by rw [e]; simp)
          have hcB : wb → c ≠ B := by
            intro w hcb
            exact (hu w).1 (by rw [hc, hcb])
          have hstart : AheadOf wb A B a0 c0 b0 d0 s :=
            ⟨h0, h0c, Or.inl ⟨hu, Or.inl ⟨l1, l2, e, hb⟩⟩⟩
          obtain ⟨ld, hld, hnd⟩ := irq_delivered_log s c d0' d1'
          have hdel : AheadOf wb A B a0 c0 b0 d0 (irq_delivered s c d0' d1') :=
            ahead_log ld hld (by simp) (by simp)
              (fun w => ⟨(hnd B).1, (hnd B).2 (fun hh => hcB w hh.symm)⟩) hstart
          rw [irq_active_eq K s c d0' d1' hc hn]
          split_ifs
          · refine ahead_irq_exit (ahead_log
              [Event.select_cb c 1, Event.writel (u32
                (((irq_delivered s c d0' d1').emit (Event.select_cb c 1)).con |||
                  K.S3C2410_ADCCON_ENABLE_START)) Reg.S3C2410_ADCCON] ?_ (by simp) (by simp)
              (fun w => ⟨?_, by simp [convert_lefts]⟩) hdel)
            · rw [convert_log, emit_log]; simp
            · simp [select_count, List.count_cons, hcB w]
          · refine ahead_irq_exit (ahead_try K (by simp) hAB (by simpa using hts)
              (ahead_irq_finished c ?_ hdel))
            rw [irq_delivered_cur, hc]
            simpa using hcA
        · -- A is active: it is handed the sample
          have hcA : c = A := by rw [hc] at hw1; exact Option.some.inj hw1
          subst hcA
          have hrun : (s.clients c).running = true := (hi.run_ref c).mpr (Or.inl hc)
          have hcb := hi.cb c hrun
          have hdl := irq_delivered_log_done s c d0' d1' hcb
          obtain ⟨lrest, hrest⟩ : ∃ l, (s3c_adc_irq K s d0' d1').2.log =
              (irq_delivered s c d0' d1').log ++ l := by
            rw [irq_active_eq K s c d0' d1' hc hn]
            split_ifs
            · obtain ⟨l, hl, _⟩ := irq_exit_log
                (s3c_adc_convert K ((irq_delivered s c d0' d1').emit (Event.select_cb c 1)))
              exact ⟨_, by rw [hl, convert_log, emit_log]; simp only [List.append_assoc]; rfl⟩
            · obtain ⟨l, hl, _⟩ := irq_exit_log
                (s3c_adc_try K (irq_finished (irq_delivered s c d0' d1') c))
              obtain ⟨l2, hl2⟩ := try_log_append K (irq_finished (irq_delivered s c d0' d1') c)
              obtain ⟨l3, hl3, _⟩ := irq_finished_log (irq_delivered s c d0' d1') c
              exact ⟨_, by rw [hl, hl2, hl3]; simp only [List.append_assoc]; rfl⟩
          refine ahead_done lrest hrest ⟨?_, ?_⟩
          · rw [hdl, select_count_append]; omega
          · rw [hdl, convert_lefts_append, List.length_append]
            have : (convert_lefts c [Event.convert_cb c (irq_data0 s d0') (irq_data1 s d1')
                ((s.clients c).nr_samples - 1), Event.wake_up (s.clients c).wait]).length = 1 := by
              simp [convert_lefts]
            omega
      · exact ahead_done lall hlall hd

/-- No call changes a client's priority flag. -/
theorem step_is_ts (K) (s : State) (op : Op) (x : Nat) :
    ((step K s op).clients x).is_ts = (s.clients x).is_ts := by
  cases op with
  | start d ch n w => exact start_is_ts K s d ch n w x
  | stop d =>
    simp only [step]; rw [stop_clients]
    split_ifs with hx
    · subst hx; rfl
    · rfl
  | irq d0 d1 =>
    simp only [step]
    rcases hc : s.cur with _ | c
    · rw [irq_idle_eq K s d0 d1 hc]; simp
    · by_cases hn : (s.clients c).nr_samples = 0
      · rw [irq_zero_eq K s c d0 d1 hc hn]; simp
      · rw [irq_active_eq K s c d0 d1 hc hn]
        split_ifs
        · simp only [irq_exit_clients, convert_clients, emit_clients]
          exact (irq_delivered_attrs s c d0 d1 x).2.1
        · rw [irq_exit_clients, try_clients, irq_finished_clients]
          split_ifs with hx
          · subst hx; exact (irq_delivered_attrs s x d0 d1 x).2.1
          · exact (irq_delivered_attrs s c d0 d1 x).2.1

theorem run_is_ts (K) (ops : List Op) (x : Nat) :
    ∀ s : State, ((run K s ops).clients x).is_ts = (s.clients x).is_ts := by
  induction ops with
  | nil => intro s; rfl
  | cons op ops ih =>
    intro s
    have hstep : run K s (op :: ops) = run K (step K s op) ops := rfl
    rw [hstep, ih, step_is_ts]

/-- A successful start was refused by neither test. -/
theorem start_ok_cases (K) (s : State) (c ch n : Nat) (w : Option Nat)
    (h : (s3c_adc_start K s c ch n w).1 = 0) :
    ¬((s.clients c).is_ts ≠ 0 ∧ s.ts_pend ≠ none) ∧ (s.clients c).running = false := by
  by_cases h1 : (s.clients c).is_ts ≠ 0 ∧ s.ts_pend ≠ none
  · simp only [s3c_adc_start, if_pos h1] at h; exact absurd h (by decide)
  · by_cases h2 : (s.clients c).running = true
    · simp only [s3c_adc_start, if_neg h1, if_pos h2] at h; exact absurd h (by decide)
    · exact ⟨h1, by simpa using h2⟩

/-- Every call but a stop of `A` moves the request of `A` forward or leaves it. -/
theorem ahead_step (K) {wb : Prop} {A B a0 c0 b0 d0 : Nat} {s : State} (hi : Inv s)
    (hAB : wb → A ≠ B) (hB : wb → (s.clients B).is_ts = 0) (op : Op) (hop : op ≠ Op.stop A)
    (h : AheadOf wb A B a0 c0 b0 d0 s) : AheadOf wb A B a0 c0 b0 d0 (step K s op) := by
  have hts : wb → s.ts_pend ≠ some B := fun w hh => hi.ts_is_ts B hh (hB w)
  cases op with
  | start d ch n w =>
    simp only [step]
    by_cases h1 : (s.clients d).is_ts ≠ 0 ∧ s.ts_pend ≠ none
    · simp only [s3c_adc_start, if_pos h1]; exact h
    · by_cases h2 : (s.clients d).running = true
      · simp only [s3c_adc_start, if_neg h1, if_pos h2]
        exact ahead_log [Event.warn_already_running d] rfl rfl rfl
          (fun _ => ⟨by simp [select_count], by simp [convert_lefts]⟩) h
      · have h2f : (s.clients d).running = false := by simpa using h2
        rw [start_ok_eq K s d ch n w h1 h2f]
        simp only []
        have hq := ahead_start_queued d ch n w h
        split_ifs with hc
        · refine ahead_try K hc hAB (fun wt => ?_) hq
          rw [start_queued_ts_pend]
          split_ifs with hd
          · intro hh
            have hdB : d = B := Option.some.inj hh
            subst hdB
            exact hd (hB wt)
          · exact hts wt
        · exact hq
  | stop d =>
    simp only [step]
    have hdA : d ≠ A := by rintro rfl; exact hop rfl
    rw [stop_eq]
    have hq := ahead_stop_removed d hdA h
    split_ifs with hc
    · refine ahead_try K hc hAB (fun wt => ?_) hq
      rw [stop_removed_ts_pend]
      split_ifs
      · simp
      · exact hts wt
    · exact hq
  | irq d0' d1' => exact ahead_irq K hi hAB hB d0' d1' h

/-- Every sequence of calls without a stop of `A` moves the request of `A`
forward or leaves it. -/
theorem ahead_run (K) {wb : Prop} {A B a0 c0 b0 d0 : Nat} (hAB : wb → A ≠ B) (ops : List Op) :
    ∀ {s : State}, Inv s → (wb → (s.clients B).is_ts = 0) → (∀ op, op ∈ ops → op ≠ Op.stop A) →
      AheadOf wb A B a0 c0 b0 d0 s → AheadOf wb A B a0 c0 b0 d0 (run K s ops) := by
  induction ops with
  | nil => intro s _ _ _ h; exact h
  | cons op ops ih =>
    intro s hi hB hops h
    have hstep : run K s (op :: ops) = run K (step K s op) ops := rfl
    rw [hstep]
    exact ih (step_inv K hi op) (fun w => by rw [step_is_ts]; exact hB w)
      (fun o ho => hops o (List.mem_cons_of_mem _ ho))
      (ahead_step K hi hAB hB op (hops op (List.mem_cons_self _ _)) h)

/-- C2: let the ordinary clients `A ≠ B` be started successfully, `A` in a
reachable state and `B` later, with no stop of `A` or `B` among the calls
`mid` between the two starts nor among the calls `post` after them.  Then at
every later moment: if `B` is the active client, or its select callback has
been called with "selected" since its start, or it has been handed a sample
since its start, then since the start of `A` the select callback of `A` has
been called with "selected" (`A` has been made the active client) and `A` has
been handed a sample. -/
theorem c2_fifo_order (K : regs_adc) (s : State) (A B chA nA chB nB : Nat)
    (wA wB : Option Nat) (mid post : List Op) (h : Reachable K s) (hAB : A ≠ B)
    (hA : (s.clients A).is_ts = 0) (hB : (s.clients B).is_ts = 0)
    (hsA : (s3c_adc_start K s A chA nA wA).1 = 0) (hmid : NoStopOf A B mid)
    (hsB : (s3c_adc_start K (run K (s3c_adc_start K s A chA nA wA).2 mid) B chB nB wB).1 = 0)
    (hpost : NoStopOf A B post) :
    ((run K (s3c_adc_start K (run K (s3c_adc_start K s A chA nA wA).2 mid) B chB nB wB).2
        post).cur = some B ∨
      select_count B (run K (s3c_adc_start K s A chA nA wA).2 mid).log <
        select_count B (run K (s3c_adc_start K (run K (s3c_adc_start K s A chA nA wA).2 mid)
          B chB nB wB).2 post).log ∨
      (convert_lefts B (run K (s3c_adc_start K s A chA nA wA).2 mid).log).length <
        (convert_lefts B (run K (s3c_adc_start K (run K (s3c_adc_start K s A chA nA wA).2 mid)
          B chB nB wB).2 post).log).length) →
    select_count A s.log <
      select_count A (run K (s3c_adc_start K (run K (s3c_adc_start K s A chA nA wA).2 mid)
        B chB nB wB).2 post).log ∧
    (convert_lefts A s.log).length <
      (convert_lefts A (run K (s3c_adc_start K (run K (s3c_adc_start K s A chA nA wA).2 mid)
        B chB nB wB).2 post).log).length := by
  have hi := reachable_inv h
  -- the start of A
  obtain ⟨a1, a2⟩ := start_ok_cases K s A chA nA wA hsA
  have hiA : Inv (s3c_adc_start K s A chA nA wA).2 := start_inv K hi A chA nA wA
  have phA : AheadOf False A B (select_count A s.log) (convert_lefts A s.log).length 0 0
      (s3c_adc_start K s A chA nA wA).2 := by
    rw [start_ok_eq K s A chA nA wA a1 a2]
    simp only []
    have hq : AheadOf False A B (select_count A s.log) (convert_lefts A s.log).length 0 0
        (start_queued s A chA nA wA) := by
      refine ⟨by simp, by simp, Or.inl ⟨fun f => f.elim, Or.inl ⟨s.adc_pending, [], ?_,
        fun f => f.elim⟩⟩⟩
      rw [start_queued_adc_pending, if_neg (not_not.mpr hA)]
    split_ifs with hc
    · exact ahead_try K hc (fun f => f.elim) (fun f => f.elim) hq
    · exact hq
  -- the calls up to the start of B
  have him : Inv (run K (s3c_adc_start K s A chA nA wA).2 mid) := run_inv K mid hiA
  have phm := ahead_run K (fun f => f.elim) mid hiA (fun f => f.elim)
    (fun op ho => (hmid op ho).1) phA
  have hBm : ((run K (s3c_adc_start K s A chA nA wA).2 mid).clients B).is_ts = 0 := by
    rw [run_is_ts, start_is_ts]; exact hB
  generalize run K (s3c_adc_start K s A chA nA wA).2 mid = sm at hsB him phm hBm ⊢
  -- the start of B
  obtain ⟨b1, b2⟩ := start_ok_cases K sm B chB nB wB hsB
  have hunref : ¬ referenced sm B := by
    intro hr
    have := (him.run_ref B).mpr hr
    rw [b2] at this
    exact absurd this (by simp)
  simp only [referenced, not_or] at hunref
  obtain ⟨u1, u2, u3⟩ := hunref
  have hiB : Inv (s3c_adc_start K sm B chB nB wB).2 := start_inv K him B chB nB wB
  have hBB : ((s3c_adc_start K sm B chB nB wB).2.clients B).is_ts = 0 := by
    rw [start_is_ts]; exact hBm
  have phB : AheadOf True A B (select_count A s.log) (convert_lefts A s.log).length
      (select_count B sm.log) (convert_lefts B sm.log).length
      (s3c_adc_start K sm B chB nB wB).2 := by
    rw [start_ok_eq K sm B chB nB wB b1 b2]
    simp only []
    have hqp : (start_queued sm B chB nB wB).adc_pending = sm.adc_pending ++ [B] := by
      rw [start_queued_adc_pending, if_neg (not_not.mpr hBm)]
    have hqt : (start_queued sm B chB nB wB).ts_pend = sm.ts_pend := by
      rw [start_queued_ts_pend, if_neg (not_not.mpr hBm)]
    have hq : AheadOf True A B (select_count A s.log) (convert_lefts A s.log).length
        (select_count B sm.log) (convert_lefts B sm.log).length
        (start_queued sm B chB nB wB) := by
      obtain ⟨h0, h0c, h'⟩ := phm
      refine ⟨by simpa using h0, by simpa using h0c, ?_⟩
      rcases h' with ⟨_, hw⟩ | hd
      · left
        refine ⟨fun _ => ⟨by simpa using u1, by simp, by simp⟩, ?_⟩
        rcases hw with ⟨l1, l2, e, _⟩ | hw
        · left
          refine ⟨l1, l2 ++ [B], by rw [hqp, e]; simp, fun _ hm => u3 ?_⟩
          rw [e]; exact List.mem_append_left _ hm
        · right; simpa using hw
      · right; simpa using hd
    split_ifs with hc
    · exact ahead_try K hc (fun _ => hAB) (fun _ => by rw [hqt]; exact u2) hq
    · exact hq
  -- the calls after the start of B
  have phf := ahead_run K (fun _ => hAB) post hiB (fun _ => hBB)
    (fun op ho => (hpost op ho).1) phB
  intro hyp
  obtain ⟨_, _, h'⟩ := phf
  rcases h' with ⟨hu, _⟩ | hd
  · obtain ⟨v1, v2, v3⟩ := hu trivial
    rcases hyp with hyp | hyp | hyp
    · exact absurd hyp v1
    · omega
    · omega
  · exact hd

/-- C2 for the ordinary clients 2 and 3 started behind the active client 1,
with another start between them and three interrupts after them. -/
theorem c2_fifo_order_witness :
    Reachable regs_adc_h three_samples_state ∧ (2 : Nat) ≠ 3 ∧
    (three_samples_state.clients 2).is_ts = 0 ∧ (three_samples_state.clients 3).is_ts = 0 ∧
    (s3c_adc_start regs_adc_h three_samples_state 2 0 1 none).1 = 0 ∧
    NoStopOf 2 3 [Op.start 4 0 1 none, Op.irq 1 1] ∧
    (s3c_adc_start regs_adc_h
      (run regs_adc_h (s3c_adc_start regs_adc_h three_samples_state 2 0 1 none).2
        [Op.start 4 0 1 none, Op.irq 1 1]) 3 0 1 none).1 = 0 ∧
    NoStopOf 2 3 [Op.irq 1 1, Op.irq 2 2, Op.irq 3 3, Op.irq 4 4] ∧
    (run regs_adc_h (s3c_adc_start regs_adc_h
      (run regs_adc_h (s3c_adc_start regs_adc_h three_samples_state 2 0 1 none).2
        [Op.start 4 0 1 none, Op.irq 1 1]) 3 0 1 none).2
      [Op.irq 1 1, Op.irq 2 2, Op.irq 3 3, Op.irq 4 4]).cur = some 3 ∧
    select_count 2 three_samples_state.log <
      select_count 2 (run regs_adc_h (s3c_adc_start regs_adc_h
        (run regs_adc_h (s3c_adc_start regs_adc_h three_samples_state 2 0 1 none).2
          [Op.start 4 0 1 none, Op.irq 1 1]) 3 0 1 none).2
        [Op.irq 1 1, Op.irq 2 2, Op.irq 3 3, Op.irq 4 4]).log ∧
    (convert_lefts 2 three_samples_state.log).length <
      (convert_lefts 2 (run regs_adc_h (s3c_adc_start regs_adc_h
        (run regs_adc_h (s3c_adc_start regs_adc_h three_samples_state 2 0 1 none).2
          [Op.start 4 0 1 none, Op.irq 1 1]) 3 0 1 none).2
        [Op.irq 1 1, Op.irq 2 2, Op.irq 3 3, Op.irq 4 4]).log).length :=
  have hr : Reachable regs_adc_h three_samples_state :=
    ⟨ordinary_init, [Op.start 1 0 3 none], ⟨rfl, rfl, rfl, fun _ => rfl⟩, rfl⟩
  have h1 : NoStopOf 2 3 [Op.start 4 0 1 none, Op.irq 1 1] := by
    intro op hop
    simp only [List.mem_cons, List.mem_singleton, List.not_mem_nil, or_false] at hop
    rcases hop with rfl | rfl <;> exact ⟨by decide, by decide⟩
  have h2 : NoStopOf 2 3 [Op.irq 1 1, Op.irq 2 2, Op.irq 3 3, Op.irq 4 4] := by
    intro op hop
    simp only [List.mem_cons, List.mem_singleton, List.not_mem_nil, or_false] at hop
    rcases hop with rfl | rfl | rfl | rfl <;> exact ⟨by decide, by decide⟩
  have hcur : (run regs_adc_h (s3c_adc_start regs_adc_h
      (run regs_adc_h (s3c_adc_start regs_adc_h three_samples_state 2 0 1 none).2
        [Op.start 4 0 1 none, Op.irq 1 1]) 3 0 1 none).2
      [Op.irq 1 1, Op.irq 2 2, Op.irq 3 3, Op.irq 4 4]).cur = some 3 := by decide
  have h := c2_fifo_order regs_adc_h three_samples_state 2 3 0 1 0 1 none none
    [Op.start 4 0 1 none, Op.irq 1 1] [Op.irq 1 1, Op.irq 2 2, Op.irq 3 3, Op.irq 4 4]
    hr (by decide) (by decide) (by decide) (by decide) h1 (by decide) h2 (Or.inl hcur)
  ⟨hr, by decide, by decide, by decide, by decide, h1, by decide, h2, hcur, h.1, h.2⟩

/-! ## C3: the priority client is next -/

/-- Outside the reachable states the pending list can hold the active client:
in `cur_in_list_state`, `s3c_adc_stop` on the active client 1 deletes it from
the pending list `[1, 2]` as well. -/
theorem stop_deletes_active_from_list :
    cur_in_list_state.cur = some 1 ∧ cur_in_list_state.adc_pending = [1, 2] ∧
    (s3c_adc_stop regs_adc_h cur_in_list_state 1).adc_pending = [2] := by
  decide

/-- No sequence of calls produces `cur_in_list_state`. -/
theorem cur_in_list_state_unreachable (K : regs_adc) : ¬ Reachable K cur_in_list_state := by
  intro h
  have hi := reachable_inv h
  exact (hi.cur_not_wait 1 rfl).2 (by decide)

/-- In any state, reachable or not, in which an ordinary client X is active
and a priority client P is in the priority slot: the interrupt that brings
X's sample count to zero makes P the active client, empties the priority slot
and leaves the pending list unchanged; `s3c_adc_stop` on X also makes P the
active client and empties the priority slot, and it leaves the pending list
unchanged when X is not itself in the pending list. -/
theorem priority_client_is_next_any_state (K : regs_adc) (s : State) (X P d0 d1 : Nat)
    (hcur : s.cur = some X) (hX : (s.clients X).is_ts = 0)
    (hts : s.ts_pend = some P) (hP : (s.clients P).is_ts ≠ 0) :
    ((s.clients X).nr_samples ≠ 0 → ((s3c_adc_irq K s d0 d1).2.clients X).nr_samples = 0 →
      (s3c_adc_irq K s d0 d1).2.cur = some P ∧ (s3c_adc_irq K s d0 d1).2.ts_pend = none ∧
      (s3c_adc_irq K s d0 d1).2.adc_pending = s.adc_pending) ∧
    ((s3c_adc_stop K s X).cur = some P ∧ (s3c_adc_stop K s X).ts_pend = none ∧
      (X ∉ s.adc_pending → (s3c_adc_stop K s X).adc_pending = s.adc_pending)) := by
  have hXP : X ≠ P := by rintro rfl; exact hP hX
  constructor
  · intro hn hz
    rw [irq_active_eq K s X d0 d1 hcur hn] at hz ⊢
    by_cases hl : ((irq_delivered s X d0 d1).clients X).nr_samples > 0
    · rw [if_pos hl] at hz
      simp only [irq_exit_clients, convert_clients, emit_clients] at hz
      omega
    · rw [if_neg hl]
      have hf : (irq_finished (irq_delivered s X d0 d1) X).ts_pend = some P := by simp [hts]
      simp only [irq_exit_cur, irq_exit_ts_pend, irq_exit_adc_pending, try_ts_pend]
      rw [try_cur_ts K _ P hf, try_adc_pending_ts K _ P hf]
      simp
  · have h1 : (stop_removed s X).cur = none := by rw [stop_removed_cur, if_pos hcur]
    have h2 : (stop_removed s X).ts_pend = some P := by
      rw [stop_removed_ts_pend, hts, if_neg (by simpa using fun h => hXP h.symm)]
    rw [stop_eq, if_pos h1, try_cur_ts K _ P h2, try_adc_pending_ts K _ P h2]
    refine ⟨rfl, try_ts_pend K _, fun hnm => ?_⟩
    rw [stop_removed_adc_pending, hts, if_neg (by simpa using fun h => hXP h.symm)]
    rw [List.filter_eq_self]
    intro a ha
    have : a ≠ X := by rintro rfl; exact hnm ha
    simpa using this

/-- C3: in every reachable state in which an ordinary client X is active and
a priority client P is in the priority slot, the step that ends X's
conversion makes P the active client, empties the priority slot and leaves
the pending list unchanged, whatever the list holds.  That step is the
interrupt that brings X's sample count to zero, which the interrupt does
when X has one sample to go, or `s3c_adc_stop` on X. -/
theorem c3_priority_client_is_next (K : regs_adc) (s : State) (X P d0 d1 : Nat)
    (h : Reachable K s)
    (hcur : s.cur = some X) (hX : (s.clients X).is_ts = 0)
    (hts : s.ts_pend = some P) (hP : (s.clients P).is_ts ≠ 0) :
    ((s.clients X).nr_samples ≠ 0 → ((s3c_adc_irq K s d0 d1).2.clients X).nr_samples = 0 →
      (s3c_adc_irq K s d0 d1).2.cur = some P ∧ (s3c_adc_irq K s d0 d1).2.ts_pend = none ∧
      (s3c_adc_irq K s d0 d1).2.adc_pending = s.adc_pending) ∧
    ((s.clients X).nr_samples = 1 → ((s3c_adc_irq K s d0 d1).2.clients X).nr_samples = 0) ∧
    ((s3c_adc_stop K s X).cur = some P ∧ (s3c_adc_stop K s X).ts_pend = none ∧
      (s3c_adc_stop K s X).adc_pending = s.adc_pending) := by
  have hi := reachable_inv h
  have hg := priority_client_is_next_any_state K s X P d0 d1 hcur hX hts hP
  have hnot : X ∉ s.adc_pending := (hi.cur_not_wait X hcur).2
  refine ⟨hg.1, fun h1 => ?_, hg.2.1, hg.2.2.1, hg.2.2.2 hnot⟩
  have hrun : (s.clients X).running = true := (hi.run_ref X).mpr (Or.inl hcur)
  have hcb := hi.cb X hrun
  have hn : (s.clients X).nr_samples ≠ 0 := by rw [h1]; decide
  have hd : ((irq_delivered s X d0 d1).clients X).nr_samples = 0 := by
    rw [irq_delivered_nr_samples_done s X d0 d1 hcb, h1]
  rw [irq_active_eq K s X d0 d1 hcur hn]
  have hl : ¬ ((irq_delivered s X d0 d1).clients X).nr_samples > 0 := by rw [hd]; decide
  rw [if_neg hl]
  simp only [irq_exit_clients, try_clients]
  rw [irq_finished_clients, if_pos rfl]
  exact hd

/-- C3 at the state with client 1 active on its last sample, the priority
client 0 waiting and two more clients in the pending list. -/
theorem c3_priority_client_is_next_witness :
    Reachable regs_adc_h ts_waiting_state ∧
    ts_waiting_state.cur = some 1 ∧ (ts_waiting_state.clients 1).is_ts = 0 ∧
    ts_waiting_state.ts_pend = some 0 ∧ (ts_waiting_state.clients 0).is_ts ≠ 0 ∧
    ts_waiting_state.adc_pending = [2, 3] ∧
    (ts_waiting_state.clients 1).nr_samples = 1 ∧
    ((s3c_adc_irq regs_adc_h ts_waiting_state 5 6).2.clients 1).nr_samples = 0 ∧
    ((s3c_adc_irq regs_adc_h ts_waiting_state 5 6).2.cur = some 0 ∧
      (s3c_adc_irq regs_adc_h ts_waiting_state 5 6).2.ts_pend = none ∧
      (s3c_adc_irq regs_adc_h ts_waiting_state 5 6).2.adc_pending =
        ts_waiting_state.adc_pending) ∧
    ((s3c_adc_stop regs_adc_h ts_waiting_state 1).cur = some 0 ∧
      (s3c_adc_stop regs_adc_h ts_waiting_state 1).ts_pend = none ∧
      (s3c_adc_stop regs_adc_h ts_waiting_state 1).adc_pending =
        ts_waiting_state.adc_pending) :=
  have hr : Reachable regs_adc_h ts_waiting_state :=
    ⟨ts0_init, _, ⟨rfl, rfl, rfl, fun _ => rfl⟩, rfl⟩
  have h := c3_priority_client_is_next regs_adc_h ts_waiting_state 1 0 5 6 hr
      (by decide) (by decide) (by decide) (by decide)
  ⟨hr, by decide, by decide, by decide, by decide, by decide, by decide,
    h.2.1 (by decide), h.1 (by decide) (h.2.1 (by decide)), h.2.2⟩

/-! ## C4: one priority client and a row of ordinary clients -/

/-- One interrupt retires the head of a line of one-shot requests. -/
theorem one_shot_line_irq (K) {s : State} {c : Nat} {L : List Nat} (h : OneShotLine s (c :: L))
    (d0 d1 : Nat) : OneShotLine (s3c_adc_irq K s d0 d1).2 L := by
  obtain ⟨hi, hts, hcur, hpend, hone⟩ := h
  simp only [List.head?_cons, List.tail_cons] at hcur hpend
  have h1 := hone c (List.mem_cons_self _ _)
  have hnotin : c ∉ L := by rw [← hpend]; exact (hi.cur_not_wait c hcur).2
  have hn : (s.clients c).nr_samples ≠ 0 := by rw [h1.1]; decide
  have hz : ¬ ((irq_delivered s c d0 d1).clients c).nr_samples > 0 := by
    rw [irq_delivered_nr_samples_done s c d0 d1 h1.2, h1.1]; decide
  have hinv := irq_inv K hi d0 d1
  rw [irq_active_eq K s c d0 d1 hcur hn, if_neg hz] at hinv ⊢
  have hcl : ∀ x, x ∈ L →
      ((s3c_adc_irq_exit (s3c_adc_try K (irq_finished (irq_delivered s c d0 d1) c))).2.clients
        x).nr_samples = 1 ∧
      ((s3c_adc_irq_exit (s3c_adc_try K (irq_finished (irq_delivered s c d0 d1) c))).2.clients
        x).convert_cb = some convert_fn.s3c_convert_done := by
    intro x hx
    have hxc : x ≠ c := by rintro rfl; exact hnotin hx
    rw [irq_exit_clients, try_clients, irq_finished_clients, if_neg hxc,
      irq_delivered_clients_ne s c d0 d1 x hxc]
    exact hone x (List.mem_cons_of_mem _ hx)
  have fts : (irq_finished (irq_delivered s c d0 d1) c).ts_pend = none := by simp [hts]
  have fpd : (irq_finished (irq_delivered s c d0 d1) c).adc_pending = L := by simp [hpend]
  refine ⟨hinv, by simp, ?_, ?_, hcl⟩
  · rw [irq_exit_cur]
    cases L with
    | nil => rw [try_cur_none K _ fts fpd]; rfl
    | cons n rest => rw [try_cur_fifo K _ n rest fts fpd]; rfl
  · rw [irq_exit_adc_pending]
    cases L with
    | nil => rw [try_adc_pending_none K _ fts fpd]; rfl
    | cons n rest => rw [try_adc_pending_fifo K _ n rest fts fpd]; rfl

/-- As many interrupts as there are data pairs retire as many clients. -/
theorem one_shot_line_irqs (K) (ds : List (Nat × Nat)) :
    ∀ {s : State} {L : List Nat}, OneShotLine s L → ds.length ≤ L.length →
      OneShotLine (irqs K s ds) (L.drop ds.length) := by
  induction ds with
  | nil => intro s L h _; simpa [S3cAdc.irqs, run] using h
  | cons d ds ih =>
    intro s L h hl
    cases L with
    | nil => simp at hl
    | cons c L =>
      have := ih (one_shot_line_irq K h d.1 d.2) (by simpa using hl)
      simpa [S3cAdc.irqs, run, step] using this

/-- The start of an ordinary client behind a non-empty line puts it at the end. -/
theorem one_shot_line_start (K) {s : State} {L : List Nat} (h : OneShotLine s L) (hL : L ≠ [])
    (c ch : Nat) (w : Option Nat) (hc : (s.clients c).is_ts = 0) (hcL : c ∉ L) :
    (s3c_adc_start K s c ch 1 w).1 = 0 ∧ OneShotLine (s3c_adc_start K s c ch 1 w).2 (L ++ [c]) := by
  obtain ⟨hi, hts, hcur, hpend, hone⟩ := h
  obtain ⟨a, L', rfl⟩ := List.exists_cons_of_ne_nil hL
  simp only [List.head?_cons, List.tail_cons] at hcur hpend
  have hnr : (s.clients c).running = false := by
    have : ¬ referenced s c := by
      simp only [referenced, hcur, hts, hpend, not_or]
      simp only [List.mem_cons, not_or] at hcL
      exact ⟨by simpa using fun h => hcL.1 h.symm, by simp, hcL.2⟩
    have hh := (hi.run_ref c).not.mpr this
    simpa using hh
  have h1 : ¬((s.clients c).is_ts ≠ 0 ∧ s.ts_pend ≠ none) := fun hh => hh.1 hc
  have hinv := start_inv K hi c ch 1 w
  rw [start_ok_eq K s c ch 1 w h1 hnr] at hinv ⊢
  have hcn : ¬ (start_queued s c ch 1 w).cur = none := by simp [hcur]
  rw [if_neg hcn] at hinv ⊢
  refine ⟨rfl, hinv, ?_, ?_, ?_, ?_⟩
  · rw [start_queued_ts_pend, if_neg (not_not.mpr hc)]; exact hts
  · simp [hcur]
  · rw [start_queued_adc_pending, if_neg (not_not.mpr hc), hpend]; simp
  · intro x hx
    simp only [start_queued_clients]
    split_ifs with hxc
    · exact ⟨rfl, rfl⟩
    · simp only [List.mem_append, List.mem_singleton] at hx
      exact hone x (hx.resolve_right hxc)

/-- Starting a row of ordinary clients behind a non-empty line: every start
returns 0 and the clients line up in the order of the calls. -/
theorem one_shot_line_start_all (K) (ch : Nat → Nat) (w : Nat → Option Nat) (cs : List Nat) :
    ∀ {s : State} {L : List Nat}, OneShotLine s L → L ≠ [] →
      (∀ c, c ∈ cs → (s.clients c).is_ts = 0 ∧ c ∉ L) → cs.Nodup →
      (start_all K ch 1 w s cs).1 = List.replicate cs.length 0 ∧
      OneShotLine (start_all K ch 1 w s cs).2 (L ++ cs) := by
  induction cs with
  | nil => intro s L h _ _ _; simpa [S3cAdc.start_all] using h
  | cons c cs ih =>
    intro s L h hL hcs hnd
    obtain ⟨hc1, hc2⟩ := hcs c (List.mem_cons_self _ _)
    obtain ⟨r0, hline⟩ := one_shot_line_start K h hL c (ch c) (w c) hc1 hc2
    have hts := start_is_ts K s c (ch c) 1 (w c)
    have := ih hline (by simp) (fun x hx => by
      rw [hts x]
      refine ⟨(hcs x (List.mem_cons_of_mem _ hx)).1, ?_⟩
      simp only [List.mem_append, List.mem_singleton, not_or]
      refine ⟨(hcs x (List.mem_cons_of_mem _ hx)).2, ?_⟩
      rintro rfl
      exact (List.nodup_cons.mp hnd).1 hx) (List.nodup_cons.mp hnd).2
    simp only [S3cAdc.start_all, List.length_cons, List.replicate_succ, r0]
    refine ⟨by rw [this.1], ?_⟩
    simpa using this.2

/-- The start of a priority client on an idle device dispatches it at once. -/
theorem start_ts_on_idle (K) {s : State} (h : Idle s) (p ch : Nat) (w : Option Nat)
    (hp : (s.clients p).is_ts ≠ 0) :
    (s3c_adc_start K s p ch 1 w).1 = 0 ∧ OneShotLine (s3c_adc_start K s p ch 1 w).2 [p] := by
  have hinv := start_inv K (idle_inv h) p ch 1 w
  obtain ⟨h1, h2, h3, h4⟩ := h
  have hc1 : ¬((s.clients p).is_ts ≠ 0 ∧ s.ts_pend ≠ none) := fun hh => hh.2 h2
  rw [start_ok_eq K s p ch 1 w hc1 (h4 p)] at hinv ⊢
  have hcn : (start_queued s p ch 1 w).cur = none := by simp [h1]
  have hq : (start_queued s p ch 1 w).ts_pend = some p := by
    rw [start_queued_ts_pend, if_pos hp]
  have hqp : (start_queued s p ch 1 w).adc_pending = [] := by
    rw [start_queued_adc_pending, if_pos hp]; exact h3
  rw [if_pos hcn] at hinv ⊢
  refine ⟨rfl, hinv, by simp, ?_, ?_, ?_⟩
  · rw [try_cur_ts K _ p hq]; rfl
  · rw [try_adc_pending_ts K _ p hq, hqp]; rfl
  · intro x hx
    simp only [List.mem_singleton] at hx
    subst hx
    rw [try_clients, start_queued_clients, if_pos rfl]
    exact ⟨rfl, rfl⟩

/-- C4: on an idle device, when a priority client `p` and then the distinct
ordinary clients `cs` call `s3c_adc_start` in this order, each for one sample,
every start returns 0; `p` is the active client as soon as its own start
returns, and after all starts `p` is still active with `cs` waiting in the
pending list in call order; after `k` interrupts the active client is the
`k`-th of `p :: cs`, and after one interrupt per client the device is idle
again. -/
theorem c4_priority_then_fifo_order (K : regs_adc) (s0 : State) (p : Nat) (cs : List Nat)
    (ch : Nat → Nat) (w : Nat → Option Nat) (h0 : Idle s0) (hp : (s0.clients p).is_ts ≠ 0)
    (hcs : ∀ c, c ∈ cs → (s0.clients c).is_ts = 0) (hnd : cs.Nodup) :
    (start_all K ch 1 w s0 (p :: cs)).1 = List.replicate (cs.length + 1) 0 ∧
    (s3c_adc_start K s0 p (ch p) 1 (w p)).2.cur = some p ∧
    ((start_all K ch 1 w s0 (p :: cs)).2.cur = some p ∧
      (start_all K ch 1 w s0 (p :: cs)).2.ts_pend = none ∧
      (start_all K ch 1 w s0 (p :: cs)).2.adc_pending = cs) ∧
    ∀ ds : List (Nat × Nat), ds.length ≤ cs.length + 1 →
      (irqs K (start_all K ch 1 w s0 (p :: cs)).2 ds).cur = (p :: cs)[ds.length]? ∧
      (irqs K (start_all K ch 1 w s0 (p :: cs)).2 ds).ts_pend = none ∧
      (irqs K (start_all K ch 1 w s0 (p :: cs)).2 ds).adc_pending = cs.drop ds.length ∧
      (ds.length = cs.length + 1 → Idle (irqs K (start_all K ch 1 w s0 (p :: cs)).2 ds)) := by
  obtain ⟨r0, l0⟩ := start_ts_on_idle K h0 p (ch p) (w p) hp
  have hall := one_shot_line_start_all K ch w cs l0 (by simp) (fun c hc => by
    rw [start_is_ts]
    refine ⟨hcs c hc, ?_⟩
    simp only [List.mem_singleton]
    rintro rfl
    exact hp (hcs c hc)) hnd
  have e1 : (start_all K ch 1 w s0 (p :: cs)).1 =
      (s3c_adc_start K s0 p (ch p) 1 (w p)).1 ::
        (start_all K ch 1 w (s3c_adc_start K s0 p (ch p) 1 (w p)).2 cs).1 := rfl
  have e2 : (start_all K ch 1 w s0 (p :: cs)).2 =
      (start_all K ch 1 w (s3c_adc_start K s0 p (ch p) 1 (w p)).2 cs).2 := rfl
  rw [e1, e2, r0, hall.1]
  have hl := hall.2
  simp only [List.singleton_append] at hl
  refine ⟨by simp [List.replicate_succ], by simpa using l0.cur, ⟨by simpa using hl.cur, hl.ts,
    by simpa using hl.pend⟩, ?_⟩
  intro ds hds
  have hk := one_shot_line_irqs K ds hl (by simpa using hds)
  refine ⟨?_, hk.ts, ?_, ?_⟩
  · rw [hk.cur, List.head?_drop]
  · rw [hk.pend, List.tail_drop, List.drop_succ_cons]
  · intro hlen
    have hnil : List.drop ds.length (p :: cs) = [] := by
      rw [List.drop_eq_nil_iff]; simp [hlen]
    have hc := hk.cur
    have hp2 := hk.pend
    rw [hnil] at hc hp2
    refine ⟨hc, hk.ts, hp2, ?_⟩
    intro c
    have := (hk.inv.run_ref c).not.mpr (by
      simp only [referenced, hc, hk.ts, hp2, not_or]
      exact ⟨by simp, by simp, by simp⟩)
    simpa using this

/-- C4 for the priority client 0 and the ordinary clients 1 and 2 (the
scenario of the specification), with the three interrupts. -/
theorem c4_priority_then_fifo_order_witness :
    Idle ts0_init ∧ (ts0_init.clients 0).is_ts ≠ 0 ∧
    (∀ c, c ∈ [1, 2] → (ts0_init.clients c).is_ts = 0) ∧ [1, 2].Nodup ∧
    (start_all regs_adc_h (fun _ => 0) 1 (fun _ => none) ts0_init [0, 1, 2]).1 = [0, 0, 0] ∧
    (irqs regs_adc_h (start_all regs_adc_h (fun _ => 0) 1 (fun _ => none) ts0_init [0, 1, 2]).2
      []).cur = some 0 ∧
    (irqs regs_adc_h (start_all regs_adc_h (fun _ => 0) 1 (fun _ => none) ts0_init [0, 1, 2]).2
      [(5, 6)]).cur = some 1 ∧
    (irqs regs_adc_h (start_all regs_adc_h (fun _ => 0) 1 (fun _ => none) ts0_init [0, 1, 2]).2
      [(5, 6), (7, 8)]).cur = some 2 ∧
    Idle (irqs regs_adc_h
      (start_all regs_adc_h (fun _ => 0) 1 (fun _ => none) ts0_init [0, 1, 2]).2
      [(5, 6), (7, 8), (9, 10)]) :=
  have hi : Idle ts0_init := ⟨rfl, rfl, rfl, fun _ => rfl⟩
  have h1 : (ts0_init.clients 0).is_ts ≠ 0 := by decide
  have h2 : ∀ c, c ∈ [1, 2] → (ts0_init.clients c).is_ts = 0 := by
    intro c hc
    simp only [List.mem_cons, List.mem_singleton, List.not_mem_nil, or_false] at hc
    rcases hc with rfl | rfl <;> rfl
  have h3 : [1, 2].Nodup := by decide
  have h := c4_priority_then_fifo_order regs_adc_h ts0_init 0 [1, 2] (fun _ => 0)
    (fun _ => none) hi h1 h2 h3
  ⟨hi, h1, h2, h3, h.1, (h.2.2.2 [] (by decide)).1, (h.2.2.2 [(5, 6)] (by decide)).1,
    (h.2.2.2 [(5, 6), (7, 8)] (by decide)).1,
    (h.2.2.2 [(5, 6), (7, 8), (9, 10)] (by decide)).2.2.2 rfl⟩

/-! ## C5: when a start is refused -/

/-- C5, as stated, fails: the ordinary client 1 is active with two samples to
go, the priority slot is empty and the priority client 0 is not running, so
neither condition holds when `s3c_adc_start` is called for client 0.  Before
the call is granted the device lock an interrupt arrives and another context
starts the priority client 5, which fills the priority slot.  The re-check
under the lock then finds the slot occupied and the call returns `-EAGAIN`. -/
theorem c5_busy_at_recheck_counterexample :
    (two_ts_state.clients 0).is_ts ≠ 0 ∧ two_ts_state.ts_pend = none ∧
    (two_ts_state.clients 0).running = false ∧
    (start_at_lock regs_adc_h two_ts_state 0 [Op.irq 1 1, Op.start 5 0 1 none]).ts_pend =
      some 5 ∧
    (s3c_adc_start_interleaved regs_adc_h two_ts_state 0 0 1 none
      [Op.irq 1 1, Op.start 5 0 1 none]).1 = -EAGAIN ∧
    ¬ ((s3c_adc_start_interleaved regs_adc_h two_ts_state 0 0 1 none
        [Op.irq 1 1, Op.start 5 0 1 none]).1 = -EAGAIN ↔
      (((two_ts_state.clients 0).is_ts ≠ 0 ∧ two_ts_state.ts_pend ≠ none) ∨
        (two_ts_state.clients 0).running = true)) := by
  refine ⟨by decide, by decide, by decide, by decide, by decide, ?_⟩
  intro h
  rcases h.mp (by decide) with h1 | h1
  · exact h1.2 (by decide)
  · exact absurd h1 (by decide)

/-- A call of `s3c_adc_start` during which no other context gets in returns
`-EAGAIN` exactly when the client is a priority client and the priority slot
is occupied, or the client's running flag is set; otherwise it returns 0; and
refused, it leaves the active slot, the priority slot, the pending list and
the client's running flag, channel, sample count and result as they were. -/
theorem start_busy_alone (K : regs_adc) (s : State) (c ch n : Nat) (w : Option Nat) :
    ((s3c_adc_start K s c ch n w).1 = -EAGAIN ↔
      (((s.clients c).is_ts ≠ 0 ∧ s.ts_pend ≠ none) ∨ (s.clients c).running = true)) ∧
    ((s3c_adc_start K s c ch n w).1 = -EAGAIN ∨ (s3c_adc_start K s c ch n w).1 = 0) ∧
    ((s3c_adc_start K s c ch n w).1 = -EAGAIN →
      (s3c_adc_start K s c ch n w).2.cur = s.cur ∧
      (s3c_adc_start K s c ch n w).2.ts_pend = s.ts_pend ∧
      (s3c_adc_start K s c ch n w).2.adc_pending = s.adc_pending ∧
      ((s3c_adc_start K s c ch n w).2.clients c).running = (s.clients c).running ∧
      ((s3c_adc_start K s c ch n w).2.clients c).channel = (s.clients c).channel ∧
      ((s3c_adc_start K s c ch n w).2.clients c).nr_samples = (s.clients c).nr_samples ∧
      ((s3c_adc_start K s c ch n w).2.clients c).result = (s.clients c).result) := by
  by_cases h1 : (s.clients c).is_ts ≠ 0 ∧ s.ts_pend ≠ none
  · have e : s3c_adc_start K s c ch n w = (-EAGAIN, s) := by
      simp only [s3c_adc_start, if_pos h1]
    rw [e]
    exact ⟨⟨fun _ => Or.inl h1, fun _ => rfl⟩, Or.inl rfl, fun _ => ⟨rfl, rfl, rfl, rfl, rfl, rfl, rfl⟩⟩
  · by_cases h2 : (s.clients c).running = true
    · have e : s3c_adc_start K s c ch n w = (-EAGAIN, s.emit (Event.warn_already_running c)) := by
        simp only [s3c_adc_start, if_neg h1, if_pos h2]
      rw [e]
      exact ⟨⟨fun _ => Or.inr h2, fun _ => rfl⟩, Or.inl rfl,
        fun _ => ⟨rfl, rfl, rfl, rfl, rfl, rfl, rfl⟩⟩
    · have h2f : (s.clients c).running = false := by simpa using h2
      rw [start_ok_eq K s c ch n w h1 h2f]
      have hne : (0 : Int) ≠ -EAGAIN := by decide
      refine ⟨⟨fun h => absurd h hne, fun h => ?_⟩, Or.inr rfl, fun h => absurd h hne⟩
      rcases h with h | h
      · exact absurd h h1
      · exact absurd h h2

/-- A call of `s3c_adc_start` returns `-EAGAIN` or 0. -/
theorem start_busy_or_zero (K) (s : State) (c ch n : Nat) (w : Option Nat) :
    (s3c_adc_start K s c ch n w).1 = -EAGAIN ∨ (s3c_adc_start K s c ch n w).1 = 0 :=
  (start_busy_alone K s c ch n w).2.1

/-- The interleaved start is the locked part run on the state at the lock,
once the two unlocked tests have passed. -/
theorem start_interleaved_eq (K) (s : State) (c ch n : Nat) (w : Option Nat) (others : List Op)
    (h1 : ¬((s.clients c).is_ts ≠ 0 ∧ s.ts_pend ≠ none)) (h2 : (s.clients c).running = false) :
    s3c_adc_start_interleaved K s c ch n w others =
      s3c_adc_start_locked K (start_at_lock K s c others) c ch n w := by
  simp only [s3c_adc_start_interleaved, start_at_lock]
  rw [if_neg h1]
  simp [h2]

/-- The priority flag of the client at the lock is its priority flag at the
call. -/
theorem start_at_lock_is_ts (K) (s : State) (c : Nat) (others : List Op) :
    ((start_at_lock K s c others).clients c).is_ts = (s.clients c).is_ts := by
  unfold start_at_lock
  rw [run_is_ts]
  simp [State.upd]

/-- C5, amended: `s3c_adc_start`, with the calls `others` that other contexts
complete between its `atomic_xchg` and the device lock, returns `-EAGAIN`
exactly when the client is a priority client and the priority slot is
occupied, at the call or at the re-check under the lock, or the client's
running flag is set at the call; otherwise it returns 0.  Refused by the
tests at the call, it leaves the active slot, the priority slot, the pending
list, the control register and every client record, so the client's running
flag, channel, sample count and result, as they were.  Refused by the
re-check, it leaves the active slot, the priority slot, the pending list, the
control register and the client's channel, sample count and result as it
found them at the lock.  With no call of another context in between it is
`s3c_adc_start` itself, which returns `-EAGAIN` exactly when one of the two
conditions holds at the call and then changes none of these. -/
theorem c5_start_busy_iff (K : regs_adc) (s : State) (c ch n : Nat) (w : Option Nat)
    (others : List Op) :
    ((s3c_adc_start_interleaved K s c ch n w others).1 = -EAGAIN ↔
      (((s.clients c).is_ts ≠ 0 ∧ s.ts_pend ≠ none) ∨ (s.clients c).running = true ∨
        ((s.clients c).is_ts ≠ 0 ∧ (start_at_lock K s c others).ts_pend ≠ none))) ∧
    ((s3c_adc_start_interleaved K s c ch n w others).1 = -EAGAIN ∨
      (s3c_adc_start_interleaved K s c ch n w others).1 = 0) ∧
    ((((s.clients c).is_ts ≠ 0 ∧ s.ts_pend ≠ none) ∨ (s.clients c).running = true) →
      (s3c_adc_start_interleaved K s c ch n w others).2.cur = s.cur ∧
      (s3c_adc_start_interleaved K s c ch n w others).2.ts_pend = s.ts_pend ∧
      (s3c_adc_start_interleaved K s c ch n w others).2.adc_pending = s.adc_pending ∧
      (s3c_adc_start_interleaved K s c ch n w others).2.con = s.con ∧
      (s3c_adc_start_interleaved K s c ch n w others).2.clients = s.clients) ∧
    (¬((s.clients c).is_ts ≠ 0 ∧ s.ts_pend ≠ none) → (s.clients c).running = false →
      (s3c_adc_start_interleaved K s c ch n w others).1 = -EAGAIN →
      (s3c_adc_start_interleaved K s c ch n w others).2.cur =
        (start_at_lock K s c others).cur ∧
      (s3c_adc_start_interleaved K s c ch n w others).2.ts_pend =
        (start_at_lock K s c others).ts_pend ∧
      (s3c_adc_start_interleaved K s c ch n w others).2.adc_pending =
        (start_at_lock K s c others).adc_pending ∧
      (s3c_adc_start_interleaved K s c ch n w others).2.con =
        (start_at_lock K s c others).con ∧
      ((s3c_adc_start_interleaved K s c ch n w others).2.clients c).channel =
        ((start_at_lock K s c others).clients c).channel ∧
      ((s3c_adc_start_interleaved K s c ch n w others).2.clients c).nr_samples =
        ((start_at_lock K s c others).clients c).nr_samples ∧
      ((s3c_adc_start_interleaved K s c ch n w others).2.clients c).result =
        ((start_at_lock K s c others).clients c).result) ∧
    (s3c_adc_start_interleaved K s c ch n w [] = s3c_adc_start K s c ch n w ∧
      ((s3c_adc_start K s c ch n w).1 = -EAGAIN ↔
        (((s.clients c).is_ts ≠ 0 ∧ s.ts_pend ≠ none) ∨ (s.clients c).running = true)) ∧
      ((s3c_adc_start K s c ch n w).1 = -EAGAIN →
        (s3c_adc_start K s c ch n w).2.cur = s.cur ∧
        (s3c_adc_start K s c ch n w).2.ts_pend = s.ts_pend ∧
        (s3c_adc_start K s c ch n w).2.adc_pending = s.adc_pending ∧
        ((s3c_adc_start K s c ch n w).2.clients c).running = (s.clients c).running ∧
        ((s3c_adc_start K s c ch n w).2.clients c).channel = (s.clients c).channel ∧
        ((s3c_adc_start K s c ch n w).2.clients c).nr_samples = (s.clients c).nr_samples ∧
        ((s3c_adc_start K s c ch n w).2.clients c).result = (s.clients c).result)) := by
  have halone := start_busy_alone K s c ch n w
  have hne : (0 : Int) ≠ -EAGAIN := by decide
  by_cases h1 : (s.clients c).is_ts ≠ 0 ∧ s.ts_pend ≠ none
  · have e : s3c_adc_start_interleaved K s c ch n w others = (-EAGAIN, s) := by
      simp only [s3c_adc_start_interleaved, if_pos h1]
    rw [e]
    exact ⟨⟨fun _ => Or.inl h1, fun _ => rfl⟩, Or.inl rfl, fun _ => ⟨rfl, rfl, rfl, rfl, rfl⟩,
      fun h => absurd h1 h, rfl, halone.1, halone.2.2⟩
  · by_cases h2 : (s.clients c).running = true
    · have e : s3c_adc_start_interleaved K s c ch n w others =
          (-EAGAIN, s.emit (Event.warn_already_running c)) := by
        simp only [s3c_adc_start_interleaved, if_neg h1, if_pos h2]
      rw [e]
      exact ⟨⟨fun _ => Or.inr (Or.inl h2), fun _ => rfl⟩, Or.inl rfl,
        fun _ => ⟨rfl, rfl, rfl, rfl, rfl⟩,
        fun _ hf => absurd h2 (by rw [hf]; decide), rfl, halone.1, halone.2.2⟩
    · have h2f : (s.clients c).running = false := by simpa using h2
      rw [start_interleaved_eq K s c ch n w others h1 h2f]
      by_cases h3 : ((start_at_lock K s c others).clients c).is_ts ≠ 0 ∧
          (start_at_lock K s c others).ts_pend ≠ none
      · have e : s3c_adc_start_locked K (start_at_lock K s c others) c ch n w =
            (-EAGAIN, start_at_lock K s c others) := by
          simp only [s3c_adc_start_locked, if_pos h3]
        rw [e]
        have h3s : (s.clients c).is_ts ≠ 0 ∧ (start_at_lock K s c others).ts_pend ≠ none := by
          rw [← start_at_lock_is_ts K s c others]; exact h3
        exact ⟨⟨fun _ => Or.inr (Or.inr h3s), fun _ => rfl⟩, Or.inl rfl,
          fun h => (h.elim (fun a => absurd a h1) (fun a => absurd a h2)),
          fun _ _ _ => ⟨rfl, rfl, rfl, rfl, rfl, rfl, rfl⟩, rfl, halone.1, halone.2.2⟩
      · have e : (s3c_adc_start_locked K (start_at_lock K s c others) c ch n w).1 = 0 := by
          simp only [s3c_adc_start_locked, if_neg h3]
        have h3s : ¬((s.clients c).is_ts ≠ 0 ∧ (start_at_lock K s c others).ts_pend ≠ none) := by
          rw [← start_at_lock_is_ts K s c others]; exact h3
        refine ⟨⟨fun h => absurd (e ▸ h) hne, fun h => ?_⟩, Or.inr e,
          fun h => (h.elim (fun a => absurd a h1) (fun a => absurd a h2)),
          fun _ _ h => absurd (e ▸ h) hne, rfl, halone.1, halone.2.2⟩
        rcases h with h | h | h
        · exact absurd h h1
        · exact absurd h h2
        · exact absurd h h3s

/-- C5, amended, at the call of the counterexample, where the re-check
refuses, and at a call for a client that is running, where the test at the
call refuses. -/
theorem c5_start_busy_iff_witness :
    ¬((two_ts_state.clients 0).is_ts ≠ 0 ∧ two_ts_state.ts_pend ≠ none) ∧
    (two_ts_state.clients 0).running = false ∧
    (s3c_adc_start_interleaved regs_adc_h two_ts_state 0 0 1 none
      [Op.irq 1 1, Op.start 5 0 1 none]).1 = -EAGAIN ∧
    (s3c_adc_start_interleaved regs_adc_h two_ts_state 0 0 1 none
      [Op.irq 1 1, Op.start 5 0 1 none]).2.cur = some 1 ∧
    (s3c_adc_start_interleaved regs_adc_h two_ts_state 0 0 1 none
      [Op.irq 1 1, Op.start 5 0 1 none]).2.ts_pend = some 5 ∧
    (two_ts_state.clients 1).running = true ∧
    (s3c_adc_start_interleaved regs_adc_h two_ts_state 1 3 4 none
      [Op.irq 1 1, Op.start 5 0 1 none]).1 = -EAGAIN ∧
    (s3c_adc_start_interleaved regs_adc_h two_ts_state 1 3 4 none
      [Op.irq 1 1, Op.start 5 0 1 none]).2.clients = two_ts_state.clients ∧
    (s3c_adc_start regs_adc_h two_ts_state 0 0 1 none).1 = 0 :=
  have h := c5_start_busy_iff regs_adc_h two_ts_state 0 0 1 none
    [Op.irq 1 1, Op.start 5 0 1 none]
  have hb : (s3c_adc_start_interleaved regs_adc_h two_ts_state 0 0 1 none
      [Op.irq 1 1, Op.start 5 0 1 none]).1 = -EAGAIN :=
    h.1.mpr (Or.inr (Or.inr ⟨by decide, by decide⟩))
  have h4 := h.2.2.2.1 (by decide) (by decide) hb
  have g := c5_start_busy_iff regs_adc_h two_ts_state 1 3 4 none
    [Op.irq 1 1, Op.start 5 0 1 none]
  ⟨by decide, by decide, hb, by rw [h4.1]; decide, by rw [h4.2.1]; decide, by decide,
    g.1.mpr (Or.inr (Or.inl (by decide))), (g.2.2.1 (Or.inr (by decide))).2.2.2.2,
    ((h.2.2.2.2.2.1.not.mpr (by decide)) |> fun hn =>
      (start_busy_or_zero regs_adc_h two_ts_state 0 0 1 none).resolve_left hn)⟩

/-! ## C6: stop and release leave no reference behind -/

/-- Outside the reachable states a client can be in the priority slot and in
the pending list at once: in `ts_and_list_state`, `s3c_adc_stop` on client 0
only empties the priority slot, and the dispatch it then runs takes client 0
from the pending list. -/
theorem stop_reselects_outside_reach :
    ts_and_list_state.ts_pend = some 0 ∧ ts_and_list_state.adc_pending = [0] ∧
    (s3c_adc_stop regs_adc_h ts_and_list_state 0).cur = some 0 := by
  decide

/-- No sequence of calls produces `ts_and_list_state`. -/
theorem ts_and_list_state_unreachable (K : regs_adc) : ¬ Reachable K ts_and_list_state := by
  intro h
  have hi := reachable_inv h
  exact hi.ts_is_ts 0 rfl (hi.pend_not_ts 0 (by decide))

/-- In any state, reachable or not: after `s3c_adc_stop` followed by
`s3c_adc_release` the device does not refer to the client and its running
flag is clear; after `s3c_adc_stop` alone the same holds when the client was
not in the priority slot and in the pending list at once. -/
theorem stop_release_unreferenced_any_state (K : regs_adc) (s : State) (c : Nat) :
    (¬ referenced (s3c_adc_release K (s3c_adc_stop K s c) c) c ∧
      ((s3c_adc_release K (s3c_adc_stop K s c) c).clients c).running = false) ∧
    ((s.ts_pend = some c → c ∉ s.adc_pending) →
      ¬ referenced (s3c_adc_stop K s c) c ∧ ((s3c_adc_stop K s c).clients c).running = false) := by
  refine ⟨⟨?_, ?_⟩, fun h => ⟨stop_unreferenced K s c h, stop_running K s c⟩⟩
  · have := stop_unreferenced K (s3c_adc_stop K s c) c
      (fun h => absurd h (stop_ts_pend_ne K s c))
    simpa [referenced, s3c_adc_release] using this
  · simpa [s3c_adc_release] using stop_running K (s3c_adc_stop K s c) c

/-- C6: in every reachable state and for every client `c`, after
`s3c_adc_stop` on `c`, and likewise after `s3c_adc_stop` followed by
`s3c_adc_release` on `c`, `c` is not the active client, is not in the
priority slot and does not occur in the pending list, and the running flag
of `c` is clear. -/
theorem c6_stop_release_unreferenced (K : regs_adc) (s : State) (c : Nat)
    (h : Reachable K s) :
    ((s3c_adc_stop K s c).cur ≠ some c ∧ (s3c_adc_stop K s c).ts_pend ≠ some c ∧
      c ∉ (s3c_adc_stop K s c).adc_pending ∧
      ((s3c_adc_stop K s c).clients c).running = false) ∧
    ((s3c_adc_release K (s3c_adc_stop K s c) c).cur ≠ some c ∧
      (s3c_adc_release K (s3c_adc_stop K s c) c).ts_pend ≠ some c ∧
      c ∉ (s3c_adc_release K (s3c_adc_stop K s c) c).adc_pending ∧
      ((s3c_adc_release K (s3c_adc_stop K s c) c).clients c).running = false) := by
  have hi := reachable_inv h
  have hone : s.ts_pend = some c → c ∉ s.adc_pending :=
    fun h1 h2 => hi.ts_is_ts c h1 (hi.pend_not_ts c h2)
  obtain ⟨⟨r1, r2⟩, r3⟩ := stop_release_unreferenced_any_state K s c
  obtain ⟨r4, r5⟩ := r3 hone
  simp only [referenced, not_or] at r1 r4
  exact ⟨⟨r4.1, r4.2.1, r4.2.2, r5⟩, ⟨r1.1, r1.2.1, r1.2.2, r2⟩⟩

/-- C6 for the active client 1, the waiting priority client 0 and the client
2 in the pending list of a reachable state, and for client 7, which is not
running there. -/
theorem c6_stop_release_unreferenced_witness :
    Reachable regs_adc_h ts_waiting_state ∧
    ts_waiting_state.cur = some 1 ∧ ts_waiting_state.ts_pend = some 0 ∧
    ts_waiting_state.adc_pending = [2, 3] ∧
    ((s3c_adc_stop regs_adc_h ts_waiting_state 1).cur ≠ some 1 ∧
      ((s3c_adc_stop regs_adc_h ts_waiting_state 1).clients 1).running = false) ∧
    ((s3c_adc_stop regs_adc_h ts_waiting_state 0).ts_pend ≠ some 0 ∧
      ((s3c_adc_stop regs_adc_h ts_waiting_state 0).clients 0).running = false) ∧
    (2 ∉ (s3c_adc_stop regs_adc_h ts_waiting_state 2).adc_pending ∧
      ((s3c_adc_stop regs_adc_h ts_waiting_state 2).clients 2).running = false) ∧
    ((s3c_adc_release regs_adc_h (s3c_adc_stop regs_adc_h ts_waiting_state 7) 7).cur ≠ some 7 ∧
      ((s3c_adc_release regs_adc_h
        (s3c_adc_stop regs_adc_h ts_waiting_state 7) 7).clients 7).running = false) :=
  have hr : Reachable regs_adc_h ts_waiting_state :=
    ⟨ts0_init, _, ⟨rfl, rfl, rfl, fun _ => rfl⟩, rfl⟩
  have h1 := (c6_stop_release_unreferenced regs_adc_h ts_waiting_state 1 hr).1
  have h0 := (c6_stop_release_unreferenced regs_adc_h ts_waiting_state 0 hr).1
  have h2 := (c6_stop_release_unreferenced regs_adc_h ts_waiting_state 2 hr).1
  have h7 := (c6_stop_release_unreferenced regs_adc_h ts_waiting_state 7 hr).2
  ⟨hr, by decide, by decide, by decide, ⟨h1.1, h1.2.2.2⟩, ⟨h0.2.1, h0.2.2.2⟩,
    ⟨h2.2.2.1, h2.2.2.2⟩, ⟨h7.1, h7.2.2.2⟩⟩

/-! ## C7: a request for n samples -/

/-- One interrupt for an active client with `m + 1` samples to go: the
callback is called once, with `m`; the client stays active when `m > 0` and is
retired when `m = 0`. -/
theorem irq_sample_step (K) {s : State} (hi : Inv s) (c m d0 d1 : Nat) (hcur : s.cur = some c)
    (hn : (s.clients c).nr_samples = m + 1) :
    Inv (s3c_adc_irq K s d0 d1).2 ∧
    convert_lefts c (s3c_adc_irq K s d0 d1).2.log = convert_lefts c s.log ++ [m] ∧
    ((s3c_adc_irq K s d0 d1).2.clients c).nr_samples = m ∧
    (0 < m → (s3c_adc_irq K s d0 d1).2.cur = some c ∧
      ((s3c_adc_irq K s d0 d1).2.clients c).running = true) ∧
    (m = 0 → ((s3c_adc_irq K s d0 d1).2.clients c).running = false ∧
      (s3c_adc_irq K s d0 d1).2.cur ≠ some c) := by
  have hrun : (s.clients c).running = true := (hi.run_ref c).mpr (Or.inl hcur)
  have hcb := hi.cb c hrun
  have hnz : (s.clients c).nr_samples ≠ 0 := by omega
  have hinv := irq_inv K hi d0 d1
  have hdn : ((irq_delivered s c d0 d1).clients c).nr_samples = m := by
    rw [irq_delivered_nr_samples_done s c d0 d1 hcb, hn]; rfl
  have hdl : convert_lefts c (irq_delivered s c d0 d1).log = convert_lefts c s.log ++ [m] := by
    rw [irq_delivered_log_done s c d0 d1 hcb, convert_lefts_append, hn]
    simp [convert_lefts]
  refine ⟨hinv, ?_⟩
  rw [irq_active_eq K s c d0 d1 hcur hnz]
  by_cases hm : 0 < m
  · have hl : ((irq_delivered s c d0 d1).clients c).nr_samples > 0 := by rw [hdn]; exact hm
    rw [if_pos hl]
    refine ⟨?_, ?_, fun _ => ⟨?_, ?_⟩, fun h0 => by omega⟩
    · rw [irq_exit_convert_lefts, convert_log, convert_lefts_append, emit_log,
        convert_lefts_append, hdl]
      simp [convert_lefts]
    · simpa using hdn
    · simpa using hcur
    · simp only [irq_exit_clients, convert_clients, emit_clients]
      rw [(irq_delivered_attrs s c d0 d1 c).1]; exact hrun
  · have hl : ¬ ((irq_delivered s c d0 d1).clients c).nr_samples > 0 := by rw [hdn]; exact hm
    rw [if_neg hl]
    obtain ⟨e1, e2⟩ := hi.cur_not_wait c hcur
    refine ⟨?_, ?_, fun h => absurd h hm, fun _ => ⟨?_, ?_⟩⟩
    · rw [irq_exit_convert_lefts, try_convert_lefts, irq_finished_convert_lefts, hdl]
    · rw [irq_exit_clients, try_clients, irq_finished_clients, if_pos rfl]; exact hdn
    · rw [irq_exit_clients, try_clients, irq_finished_clients, if_pos rfl]
    · rw [irq_exit_cur]
      exact (try_unreferenced K _ c (by simp) (by simpa using e1) (by simpa using e2)).1

/-- The values `n - 1, n - 2, ...` of the first `k + 1` calls. -/
theorem count_down_succ (m k : Nat) :
    (List.range (k + 1)).map (fun i => m + 1 - 1 - i) =
      m :: (List.range k).map (fun i => m - 1 - i) := by
  rw [List.range_succ_eq_map, List.map_cons, List.map_map]
  congr 1
  apply List.map_congr_left
  intro i _
  simp only [Function.comp]
  omega

/-- Interrupts for an active client with `n` samples to go, under the invariant. -/
theorem samples_count_down (K) (c : Nat) (ds : List (Nat × Nat)) :
    ∀ (s : State) (n : Nat), Inv s → s.cur = some c → (s.clients c).nr_samples = n → 1 ≤ n →
      ds.length ≤ n →
      convert_lefts c (irqs K s ds).log =
        convert_lefts c s.log ++ (List.range ds.length).map (fun i => n - 1 - i) ∧
      ((irqs K s ds).clients c).nr_samples = n - ds.length ∧
      (ds.length < n → (irqs K s ds).cur = some c ∧ ((irqs K s ds).clients c).running = true) ∧
      (ds.length = n → ((irqs K s ds).clients c).running = false ∧
        (irqs K s ds).cur ≠ some c) := by
  induction ds with
  | nil =>
    intro s n hi hcur hn h1 _
    refine ⟨by simp [irqs, run], by simpa [irqs, run] using hn, fun _ => ?_, fun h => ?_⟩
    · exact ⟨hcur, (hi.run_ref c).mpr (Or.inl hcur)⟩
    · simp at h; omega
  | cons d ds ih =>
    intro s n hi hcur hn h1 hlen
    obtain ⟨m, rfl⟩ : ∃ m, n = m + 1 := ⟨n - 1, by omega⟩
    obtain ⟨hinv, hlog, hnr, hpos, hzero⟩ := irq_sample_step K hi c m d.1 d.2 hcur hn
    have hstep : irqs K s (d :: ds) = irqs K (s3c_adc_irq K s d.1 d.2).2 ds := rfl
    rw [hstep]
    simp only [List.length_cons] at hlen ⊢
    by_cases hm : 0 < m
    · obtain ⟨a1, a2, a3, a4⟩ := ih _ m hinv (hpos hm).1 hnr hm (by omega)
      refine ⟨?_, ?_, fun h => a3 (by omega), fun h => a4 (by omega)⟩
      · rw [a1, hlog, count_down_succ, List.append_assoc]; rfl
      · rw [a2]; omega
    · have hm0 : m = 0 := by omega
      have hds : ds = [] := by
        cases ds with
        | nil => rfl
        | cons _ _ => simp at hlen; omega
      subst hds
      subst hm0
      refine ⟨?_, ?_, fun h => by simp at h, fun _ => ?_⟩
      · simpa [irqs, run] using hlog
      · simpa [irqs, run] using hnr
      · simpa [irqs, run] using hzero rfl

/-- C7: in a reachable state in which client `c` is active with `n ≥ 1` samples
to go (what a start for `n` samples leaves when `c` is dispatched; the delivery
callback is then `s3c_convert_done`, which leaves the count alone), `k ≤ n`
successive interrupts call the delivery callback of `c` exactly `k` times, with
the values `n - 1, n - 2, ..., n - k`; while `k < n` the client is still active
with its running flag set; after the `n`-th interrupt its running flag is
clear and it is not the active client. -/
theorem c7_samples_count_down (K : regs_adc) (s : State) (c n : Nat) (ds : List (Nat × Nat))
    (h : Reachable K s) (hcur : s.cur = some c) (hn : (s.clients c).nr_samples = n)
    (h1 : 1 ≤ n) (hlen : ds.length ≤ n) :
    convert_lefts c (irqs K s ds).log =
      convert_lefts c s.log ++ (List.range ds.length).map (fun i => n - 1 - i) ∧
    ((irqs K s ds).clients c).nr_samples = n - ds.length ∧
    (ds.length < n → (irqs K s ds).cur = some c ∧ ((irqs K s ds).clients c).running = true) ∧
    (ds.length = n → ((irqs K s ds).clients c).running = false ∧ (irqs K s ds).cur ≠ some c) :=
  samples_count_down K c ds s n (reachable_inv h) hcur hn h1 hlen

/-- C7 for the request of three samples of the specification: the callback
gets 2, 1, 0; the client is active after the second interrupt and retired
after the third. -/
theorem c7_samples_count_down_witness :
    Reachable regs_adc_h three_samples_state ∧ three_samples_state.cur = some 1 ∧
    (three_samples_state.clients 1).nr_samples = 3 ∧
    convert_lefts 1 (irqs regs_adc_h three_samples_state [(5, 6), (7, 8), (9, 10)]).log =
      [2, 1, 0] ∧
    ((irqs regs_adc_h three_samples_state [(5, 6), (7, 8)]).cur = some 1 ∧
      ((irqs regs_adc_h three_samples_state [(5, 6), (7, 8)]).clients 1).running = true) ∧
    (((irqs regs_adc_h three_samples_state [(5, 6), (7, 8), (9, 10)]).clients 1).running = false ∧
      (irqs regs_adc_h three_samples_state [(5, 6), (7, 8), (9, 10)]).cur ≠ some 1) :=
  have hr : Reachable regs_adc_h three_samples_state :=
    ⟨ordinary_init, [Op.start 1 0 3 none], ⟨rfl, rfl, rfl, fun _ => rfl⟩, rfl⟩
  have h3 := c7_samples_count_down regs_adc_h three_samples_state 1 3 [(5, 6), (7, 8), (9, 10)]
    hr (by decide) (by decide) (by decide) (by decide)
  have h2 := c7_samples_count_down regs_adc_h three_samples_state 1 3 [(5, 6), (7, 8)]
    hr (by decide) (by decide) (by decide) (by decide)
  ⟨hr, by decide, by decide, h3.1, h2.2.2.1 (by decide), h3.2.2.2 rfl⟩

/-! ## C8: a read that times out -/

/-- C8: in every reachable state, for a client that is not running (with the
priority slot empty if it is a priority client) and whose error counter is
below 10, a `s3c_adc_read` during which no interrupt arrives (other contexts
may start and stop other clients meanwhile) returns `-ETIMEDOUT`; afterwards
the client's running flag is clear, the device does not refer to the client,
and a start of the same client returns 0. -/
theorem c8_read_timeout_then_start (K : regs_adc) (s : State) (c ch wake : Nat)
    (during : List Op) (ch2 n2 : Nat) (w2 : Option Nat) (h : Reachable K s)
    (hr : (s.clients c).running = false) (hts : (s.clients c).is_ts ≠ 0 → s.ts_pend = none)
    (he : (s.clients c).error_count < 10) (hd : OthersNoIrq c during) :
    ∃ s', s3c_adc_read K s c ch wake during = some (-ETIMEDOUT, s') ∧
      (s'.clients c).running = false ∧ ¬ referenced s' c ∧
      (s3c_adc_start K s' c ch2 n2 w2).1 = 0 := by
  have hi := reachable_inv h
  have h1 : ¬((s.clients c).is_ts ≠ 0 ∧ s.ts_pend ≠ none) := fun hh => hh.2 (hts hh.1)
  have hs1 := start_ok_eq K s c ch 1 (some wake) h1 hr
  have hi1 : Inv (s3c_adc_start K s c ch 1 (some wake)).2 := start_inv K hi c ch 1 (some wake)
  have hc1 : (s3c_adc_start K s c ch 1 (some wake)).2.clients c =
      { s.clients c with running := true, convert_cb := some convert_fn.s3c_convert_done,
                         wait := some wake, result := -1, channel := u8 ch,
                         nr_samples := u32 1 } := by
    rw [hs1]; simp only []
    split_ifs
    · rw [try_clients, start_queued_clients, if_pos rfl]
    · rw [start_queued_clients, if_pos rfl]
  have hret : ¬ (s3c_adc_start K s c ch 1 (some wake)).1 < 0 := by rw [hs1]; simp
  have hi2 : Inv (run K (s3c_adc_start K s c ch 1 (some wake)).2 during) :=
    run_inv K during hi1
  have hc2 : (run K (s3c_adc_start K s c ch 1 (some wake)).2 during).clients c =
      (s3c_adc_start K s c ch 1 (some wake)).2.clients c :=
    run_others_clients K c during _ hd
  rw [hc1] at hc2
  have hrun2 : ((run K (s3c_adc_start K s c ch 1 (some wake)).2 during).clients c).running
      = true := by rw [hc2]
  have hres2 : ((run K (s3c_adc_start K s c ch 1 (some wake)).2 during).clients c).result
      < 0 := by rw [hc2]; simp
  have hts2 : ((run K (s3c_adc_start K s c ch 1 (some wake)).2 during).clients c).is_ts =
      (s.clients c).is_ts := by rw [hc2]
  have herr2 : ((run K (s3c_adc_start K s c ch 1 (some wake)).2 during).clients c).error_count =
      (s.clients c).error_count := by rw [hc2]
  have hc3 : ∀ s2 : State, (s3c_adc_stop K s2 c).clients c =
      { s2.clients c with running := false } := by
    intro s2; rw [stop_clients, if_pos rfl]
  have hunref : ¬ referenced
      (s3c_adc_stop K (run K (s3c_adc_start K s c ch 1 (some wake)).2 during) c) c :=
    stop_unreferenced K _ c (fun a b => hi2.ts_is_ts c a (hi2.pend_not_ts c b))
  have herr : ¬ ((((s3c_adc_stop K (run K (s3c_adc_start K s c ch 1 (some wake)).2 during) c).emit
      (Event.warn_timed_out c)).upd c
      (fun cl => { cl with error_count := cl.error_count + 1 })).clients c).error_count
      > 10 := by
    simp only [upd_clients_same, emit_clients]
    rw [hc3, herr2]; omega
  refine ⟨((s3c_adc_stop K (run K (s3c_adc_start K s c ch 1 (some wake)).2 during) c).emit
      (Event.warn_timed_out c)).upd c
      (fun cl => { cl with error_count := cl.error_count + 1 }), ?_, ?_, ?_, ?_⟩
  · simp only [s3c_adc_read]
    rw [if_neg hret, if_pos hres2, if_neg herr]
  · simp only [upd_clients_same, emit_clients]
    rw [hc3]
  · simpa [referenced] using hunref
  · have hnr : ((((s3c_adc_stop K (run K (s3c_adc_start K s c ch 1 (some wake)).2 during)
        c).emit (Event.warn_timed_out c)).upd c
        (fun cl => { cl with error_count := cl.error_count + 1 })).clients c).running = false := by
      simp only [upd_clients_same, emit_clients]; rw [hc3]
    have hnb : ¬(((((s3c_adc_stop K (run K (s3c_adc_start K s c ch 1 (some wake)).2 during)
        c).emit (Event.warn_timed_out c)).upd c
        (fun cl => { cl with error_count := cl.error_count + 1 })).clients c).is_ts ≠ 0 ∧
        (((s3c_adc_stop K (run K (s3c_adc_start K s c ch 1 (some wake)).2 during) c).emit
        (Event.warn_timed_out c)).upd c
        (fun cl => { cl with error_count := cl.error_count + 1 })).ts_pend ≠ none) := by
      rintro ⟨a, b⟩
      simp only [upd_clients_same, emit_clients, upd_ts_pend, emit_ts_pend] at a b
      rw [hc3] at a
      exact b (stop_ts_pend_none K hi2 c hrun2 a)
    rw [start_ok_eq K _ c ch2 n2 w2 hnb hnr]

/-- C8 for the ordinary client 4 on a device with an active client and
three waiting ones, while client 5 is started during the wait. -/
theorem c8_read_timeout_then_start_witness :
    Reachable regs_adc_h ts_waiting_state ∧ (ts_waiting_state.clients 4).running = false ∧
    ((ts_waiting_state.clients 4).is_ts ≠ 0 → ts_waiting_state.ts_pend = none) ∧
    (ts_waiting_state.clients 4).error_count < 10 ∧ OthersNoIrq 4 [Op.start 5 0 1 none] ∧
    ∃ s', s3c_adc_read regs_adc_h ts_waiting_state 4 2 7 [Op.start 5 0 1 none] =
        some (-ETIMEDOUT, s') ∧
      (s'.clients 4).running = false ∧ ¬ referenced s' 4 ∧
      (s3c_adc_start regs_adc_h s' 4 2 1 none).1 = 0 :=
  have hr : Reachable regs_adc_h ts_waiting_state :=
    ⟨ts0_init, _, ⟨rfl, rfl, rfl, fun _ => rfl⟩, rfl⟩
  have h1 : (ts_waiting_state.clients 4).running = false := by decide
  have h2 : (ts_waiting_state.clients 4).is_ts ≠ 0 → ts_waiting_state.ts_pend = none :=
    fun h => absurd (by decide) h
  have h3 : (ts_waiting_state.clients 4).error_count < 10 := by decide
  have h4 : OthersNoIrq 4 [Op.start 5 0 1 none] := by
    intro op hop
    simp only [List.mem_singleton] at hop
    subst hop
    exact Or.inl ⟨5, 0, 1, none, rfl, by decide⟩
  ⟨hr, h1, h2, h3, h4,
    c8_read_timeout_then_start regs_adc_h ts_waiting_state 4 2 7 [Op.start 5 0 1 none] 2 1 none
      hr h1 h2 h3 h4⟩

/-! ## C9: stopping twice -/

/-- Clearing and setting bits of the control register twice gives what doing
it once gives. -/
theorem standby_bits_idem (x N S : Nat) :
    u32 ((u32 ((x &&& N) ||| S) &&& N) ||| S) = u32 ((x &&& N) ||| S) := by
  apply Nat.eq_of_testBit_eq
  intro i
  simp only [u32, Nat.testBit_mod_two_pow, Nat.testBit_or, Nat.testBit_and]
  cases x.testBit i <;> cases N.testBit i <;> cases S.testBit i <;> simp

/-- A stop that leaves the device idle has put the control register in
standby. -/
theorem stop_con_of_idle (K) (s : State) (c : Nat) (h : (s3c_adc_stop K s c).cur = none) :
    (s3c_adc_stop K s c).con =
      u32 ((s.con &&& not32 K.S3C2410_ADCCON_PRSCEN) ||| K.S3C2410_ADCCON_STDBM) := by
  rw [stop_eq] at h ⊢
  by_cases hc : (stop_removed s c).cur = none
  · rw [if_pos hc] at h ⊢
    rcases hts : (stop_removed s c).ts_pend with _ | n
    · rcases hp : (stop_removed s c).adc_pending with _ | ⟨n, rest⟩
      · rw [try_none K _ hts hp]; simp
      · rw [try_cur_fifo K _ n rest hts hp] at h; exact absurd h (by simp)
    · rw [try_cur_ts K _ n hts] at h; exact absurd h (by simp)
  · rw [if_neg hc] at h; exact absurd h hc

/-- Removing a client the device does not refer to, and whose running flag is
clear, only logs the warning. -/
theorem stop_removed_of_unreferenced (s : State) (c : Nat) (h : ¬ referenced s c)
    (hr : (s.clients c).running = false) :
    stop_removed s c = s.emit (Event.warn_already_stopped c) := by
  simp only [referenced, not_or] at h
  obtain ⟨h1, h2, h3⟩ := h
  have hf : s.adc_pending.filter (fun tmp => tmp ≠ c) = s.adc_pending := by
    rw [List.filter_eq_self]
    intro a ha
    have : a ≠ c := by rintro rfl; exact h3 ha
    simpa using this
  have hcl : (fun i => if i = c then { s.clients c with running := false } else s.clients i)
      = s.clients := by
    funext i
    split_ifs with hi
    · subst hi
      rw [← hr]
    · rfl
  simp only [stop_removed, if_neg h1, if_neg h2, hr, State.upd, State.emit, hf, hcl]
  rfl

/-- C9: in every reachable state, a second `s3c_adc_stop` on the same client
leaves the active client, the priority slot, the pending list, every client
record (so every running flag) and the control register value as the first
stop left them; its only outgoing calls are the already-stopped warning and,
on an idle device, a rewrite of the unchanged control register value: no
client is dispatched and no select callback is invoked. -/
theorem c9_stop_idempotent (K : regs_adc) (s : State) (c : Nat) (h : Reachable K s) :
    (s3c_adc_stop K (s3c_adc_stop K s c) c).cur = (s3c_adc_stop K s c).cur ∧
    (s3c_adc_stop K (s3c_adc_stop K s c) c).ts_pend = (s3c_adc_stop K s c).ts_pend ∧
    (s3c_adc_stop K (s3c_adc_stop K s c) c).adc_pending = (s3c_adc_stop K s c).adc_pending ∧
    (s3c_adc_stop K (s3c_adc_stop K s c) c).clients = (s3c_adc_stop K s c).clients ∧
    (s3c_adc_stop K (s3c_adc_stop K s c) c).con = (s3c_adc_stop K s c).con ∧
    (s3c_adc_stop K (s3c_adc_stop K s c) c).log =
      (s3c_adc_stop K s c).log ++ Event.warn_already_stopped c ::
        (if (s3c_adc_stop K s c).cur = none then
          [Event.writel (s3c_adc_stop K s c).con Reg.S3C2410_ADCCON]
        else []) := by
  have hi : Inv (s3c_adc_stop K s c) := stop_inv K (reachable_inv h) c
  have hu : ¬ referenced (s3c_adc_stop K s c) c :=
    stop_unreferenced K s c (fun h1 h2 => (reachable_inv h).ts_is_ts c h1 ((reachable_inv h).pend_not_ts c h2))
  have hr := stop_running K s c
  have hcon := stop_con_of_idle K s c
  generalize s3c_adc_stop K s c = s1 at hi hu hr hcon
  rw [stop_eq, stop_removed_of_unreferenced s1 c hu hr]
  by_cases hc : s1.cur = none
  · obtain ⟨w1, w2⟩ := hi.work hc
    have hc2 : (s1.emit (Event.warn_already_stopped c)).cur = none := hc
    rw [if_pos hc2, if_pos hc, try_none K (s1.emit (Event.warn_already_stopped c)) w1 w2]
    have e : u32 (((s1.emit (Event.warn_already_stopped c)).con &&&
        not32 K.S3C2410_ADCCON_PRSCEN) ||| K.S3C2410_ADCCON_STDBM) = s1.con := by
      rw [emit_con, hcon hc]; exact standby_bits_idem _ _ _
    rw [e]
    refine ⟨rfl, w1.symm, rfl, rfl, rfl, ?_⟩
    simp [writel_con, State.emit]
  · have hc2 : ¬ (s1.emit (Event.warn_already_stopped c)).cur = none := hc
    rw [if_neg hc2, if_neg hc]
    exact ⟨rfl, rfl, rfl, rfl, rfl, rfl⟩

/-- C9 on the state reached by four starts, stopping the active client. -/
theorem c9_stop_idempotent_witness :
    Reachable regs_adc_h ts_waiting_state ∧
    (s3c_adc_stop regs_adc_h (s3c_adc_stop regs_adc_h ts_waiting_state 1) 1).cur =
      (s3c_adc_stop regs_adc_h ts_waiting_state 1).cur ∧
    (s3c_adc_stop regs_adc_h (s3c_adc_stop regs_adc_h ts_waiting_state 1) 1).con =
      (s3c_adc_stop regs_adc_h ts_waiting_state 1).con :=
  have hr : Reachable regs_adc_h ts_waiting_state :=
    ⟨ts0_init, _, ⟨rfl, rfl, rfl, fun _ => rfl⟩, rfl⟩
  have h := c9_stop_idempotent regs_adc_h ts_waiting_state 1 hr
  ⟨hr, h.1, h.2.2.2.2.1⟩

/-! ## C10: the waiting places are disjoint -/

/-- C10: in every state reached from an idle device by starts, stops and
interrupts, no client is in both the priority slot and the pending list, the
active client is in neither, and no client occurs twice in the pending list. -/
theorem c10_slots_disjoint (K : regs_adc) (s : State) (h : Reachable K s) :
    (∀ c, ¬ (s.ts_pend = some c ∧ c ∈ s.adc_pending)) ∧
    (∀ c, s.cur = some c → s.ts_pend ≠ some c ∧ c ∉ s.adc_pending) ∧
    s.adc_pending.Nodup := by
  have hi := reachable_inv h
  refine ⟨?_, hi.cur_not_wait, hi.nodup⟩
  rintro c ⟨h1, h2⟩
  exact hi.ts_is_ts c h1 (hi.pend_not_ts c h2)

/-- C10 on a run with a priority client, two ordinary clients, an interrupt
and a stop. -/
theorem c10_slots_disjoint_witness :
    Reachable regs_adc_h (run regs_adc_h ts0_init
      [Op.start 1 0 2 none, Op.start 0 0 1 none, Op.start 2 3 1 none, Op.irq 5 6, Op.stop 2]) ∧
    ((∀ c, ¬ ((run regs_adc_h ts0_init
      [Op.start 1 0 2 none, Op.start 0 0 1 none, Op.start 2 3 1 none, Op.irq 5 6,
        Op.stop 2]).ts_pend = some c ∧
      c ∈ (run regs_adc_h ts0_init
      [Op.start 1 0 2 none, Op.start 0 0 1 none, Op.start 2 3 1 none, Op.irq 5 6,
        Op.stop 2]).adc_pending)) ∧
    (∀ c, (run regs_adc_h ts0_init
      [Op.start 1 0 2 none, Op.start 0 0 1 none, Op.start 2 3 1 none, Op.irq 5 6,
        Op.stop 2]).cur = some c →
      (run regs_adc_h ts0_init
      [Op.start 1 0 2 none, Op.start 0 0 1 none, Op.start 2 3 1 none, Op.irq 5 6,
        Op.stop 2]).ts_pend ≠ some c ∧
      c ∉ (run regs_adc_h ts0_init
      [Op.start 1 0 2 none, Op.start 0 0 1 none, Op.start 2 3 1 none, Op.irq 5 6,
        Op.stop 2]).adc_pending) ∧
    (run regs_adc_h ts0_init
      [Op.start 1 0 2 none, Op.start 0 0 1 none, Op.start 2 3 1 none, Op.irq 5 6,
        Op.stop 2]).adc_pending.Nodup) :=
  have hr : Reachable regs_adc_h (run regs_adc_h ts0_init
      [Op.start 1 0 2 none, Op.start 0 0 1 none, Op.start 2 3 1 none, Op.irq 5 6, Op.stop 2]) :=
    ⟨ts0_init, _, ⟨rfl, rfl, rfl, fun _ => rfl⟩, rfl⟩
  ⟨hr, c10_slots_disjoint regs_adc_h _ hr⟩

/-! ## C11: the delivery callback of a started client -/

/-- C11, the code at the failing input: client 9 is registered with the
delivery callback `one_more` and the default select callback; its start for
one sample succeeds, keeps the select callback, but replaces the delivery
callback by `s3c_convert_done`.  The interrupt then latches the value 5 and
retires the client, where `one_more` would have raised the count to 1 and
kept the client active. -/
theorem c11_start_replaces_convert_cb :
    (streaming_registered.clients 9).convert_cb = some one_more ∧
    (s3c_adc_start regs_adc_h streaming_registered 9 0 1 none).1 = 0 ∧
    ((s3c_adc_start regs_adc_h streaming_registered 9 0 1 none).2.clients 9).select_cb =
      (streaming_registered.clients 9).select_cb ∧
    ((s3c_adc_start regs_adc_h streaming_registered 9 0 1 none).2.clients 9).convert_cb =
      some convert_fn.s3c_convert_done ∧
    ((s3c_adc_start regs_adc_h streaming_registered 9 0 1 none).2.clients 9).convert_cb ≠
      some one_more ∧
    (s3c_adc_start regs_adc_h streaming_registered 9 0 1 none).2.cur = some 9 ∧
    (s3c_adc_irq regs_adc_h
      (s3c_adc_start regs_adc_h streaming_registered 9 0 1 none).2 5 6).2.cur = none ∧
    ((s3c_adc_irq regs_adc_h
      (s3c_adc_start regs_adc_h streaming_registered 9 0 1 none).2 5 6).2.clients 9).result = 5 ∧
    ((s3c_adc_irq regs_adc_h
      (s3c_adc_start regs_adc_h streaming_registered 9 0 1 none).2 5 6).2.clients 9).nr_samples
      = 0 ∧
    ((irq_delivered ((s3c_adc_start regs_adc_h streaming_registered 9 0 1 none).2.upd 9
      (fun cl => { cl with convert_cb := some one_more })) 9 5 6).clients 9).nr_samples = 1 := by
  refine ⟨rfl, by decide, rfl, rfl, ?_, by decide, by decide, by decide, by decide, by decide⟩
  intro h
  have h2 : convert_fn.s3c_convert_done = one_more := Option.some.inj h
  exact convert_fn.noConfusion h2

/-! ## C12: the re-check under the device lock -/

/-- With no call of another context in between, the interleaved start is the
start. -/
theorem start_interleaved_nil (K) (s : State) (c ch n : Nat) (w : Option Nat) :
    s3c_adc_start_interleaved K s c ch n w [] = s3c_adc_start K s c ch n w := rfl

/-- C12, the code at the failing input: the ordinary client 1 is active and
the priority slot is empty.  The start of the priority client 0 passes both
unlocked tests and sets its running flag; before it gets the lock, the start
of the priority client 5 fills the priority slot.  The re-check then returns
`-EAGAIN`, but the running flag of client 0 stays set although the device
does not refer to client 0.  After two interrupts have retired client 1 and
one more has retired client 5, the priority slot is empty and the device is
idle, yet a new start of client 0 is refused with `-EAGAIN`. -/
theorem c12_recheck_leaves_running_set :
    two_ts_state.cur = some 1 ∧ two_ts_state.ts_pend = none ∧
    (two_ts_state.clients 0).running = false ∧
    (s3c_adc_start_interleaved regs_adc_h two_ts_state 0 0 1 none
      [Op.start 5 0 1 none]).1 = -EAGAIN ∧
    ((s3c_adc_start_interleaved regs_adc_h two_ts_state 0 0 1 none
      [Op.start 5 0 1 none]).2.clients 0).running = true ∧
    ¬ referenced (s3c_adc_start_interleaved regs_adc_h two_ts_state 0 0 1 none
      [Op.start 5 0 1 none]).2 0 ∧
    (run regs_adc_h (s3c_adc_start_interleaved regs_adc_h two_ts_state 0 0 1 none
      [Op.start 5 0 1 none]).2 [Op.irq 1 1, Op.irq 2 2, Op.irq 3 3]).cur = none ∧
    (run regs_adc_h (s3c_adc_start_interleaved regs_adc_h two_ts_state 0 0 1 none
      [Op.start 5 0 1 none]).2 [Op.irq 1 1, Op.irq 2 2, Op.irq 3 3]).ts_pend = none ∧
    (s3c_adc_start regs_adc_h
      (run regs_adc_h (s3c_adc_start_interleaved regs_adc_h two_ts_state 0 0 1 none
        [Op.start 5 0 1 none]).2 [Op.irq 1 1, Op.irq 2 2, Op.irq 3 3]) 0 0 1 none).1 =
      -EAGAIN := by
  refine ⟨by decide, by decide, by decide, by decide, by decide, ?_, by decide, by decide,
    by decide⟩
  intro h
  rcases h with h | h | h
  · exact absurd h (by decide)
  · exact absurd h (by decide)
  · exact absurd h (by decide)

/-! ## C13: the values handed to the sample-delivery callback -/

/-- After the delivery the handler makes no further call of a delivery callback. -/
theorem irq_log_after_delivery (K) (s : State) (c d0 d1 : Nat) (hc : s.cur = some c)
    (hn : (s.clients c).nr_samples ≠ 0) :
    ∃ l, (s3c_adc_irq K s d0 d1).2.log = (irq_delivered s c d0 d1).log ++ l ∧
      ∀ x, convert_lefts x l = [] := by
  rw [irq_active_eq K s c d0 d1 hc hn]
  split_ifs
  · obtain ⟨l, hl, hq⟩ := irq_exit_log
      (s3c_adc_convert K ((irq_delivered s c d0 d1).emit (Event.select_cb c 1)))
    refine ⟨[Event.select_cb c 1, Event.writel (u32
      (((irq_delivered s c d0 d1).emit (Event.select_cb c 1)).con |||
        K.S3C2410_ADCCON_ENABLE_START)) Reg.S3C2410_ADCCON] ++ l, ?_, fun x => ?_⟩
    · rw [hl, convert_log, emit_log]; simp
    · rw [convert_lefts_append, register_writes_convert_lefts hq x]; simp [convert_lefts]
  · obtain ⟨l, hl, hq⟩ := irq_exit_log
      (s3c_adc_try K (irq_finished (irq_delivered s c d0 d1) c))
    rcases try_log K (irq_finished (irq_delivered s c d0 d1) c) with
      ⟨n, l2, _, hl2, hq2⟩ | ⟨_, l2, hl2, hq2⟩
    · obtain ⟨l3, hl3, hn3⟩ := irq_finished_log (irq_delivered s c d0 d1) c
      refine ⟨l3 ++ (Event.select_cb n 1 :: l2) ++ l, ?_, fun x => ?_⟩
      · rw [hl, hl2, hl3]; simp
      · rw [convert_lefts_append, convert_lefts_append, (hn3 x).2,
          register_writes_convert_lefts hq x]
        have := register_writes_convert_lefts hq2 x
        simpa [convert_lefts] using this
    · obtain ⟨l3, hl3, hn3⟩ := irq_finished_log (irq_delivered s c d0 d1) c
      refine ⟨l3 ++ l2 ++ l, ?_, fun x => ?_⟩
      · rw [hl, hl2, hl3]; simp
      · rw [convert_lefts_append, convert_lefts_append, (hn3 x).2,
          register_writes_convert_lefts hq x, register_writes_convert_lefts hq2 x]; rfl

/-- Masking a 32-bit value with `0x3ff` keeps its 10 low bits. -/
theorem u32_and_3ff (d : Nat) : u32 d &&& 0x3ff = d % 2 ^ 10 := by
  have e10 : (0x3ff : Nat) = 2 ^ 10 - 1 := by norm_num
  unfold u32
  rw [e10, Nat.and_pow_two_sub_one_eq_mod]
  exact Nat.mod_mod_of_dvd d (by norm_num)

/-- Masking a 32-bit value with `0xfff` keeps its 12 low bits. -/
theorem u32_and_fff (d : Nat) : u32 d &&& 0xfff = d % 2 ^ 12 := by
  have e12 : (0xfff : Nat) = 2 ^ 12 - 1 := by norm_num
  unfold u32
  rw [e12, Nat.and_pow_two_sub_one_eq_mod]
  exact Nat.mod_mod_of_dvd d (by norm_num)

/-- The first value is the first data register reduced to 10 bits on the
oldest revision and to 12 bits on the others. -/
theorem irq_data0_eq (s : State) (d0 : Nat) :
    irq_data0 s d0 = if s.cpu = s3c_cpu_type.TYPE_ADCV1 then d0 % 2 ^ 10 else d0 % 2 ^ 12 := by
  unfold irq_data0
  split_ifs
  · exact u32_and_3ff d0
  · exact u32_and_fff d0

/-- The second value is the second data register reduced likewise, and 0 on
the newest revision. -/
theorem irq_data1_eq (s : State) (d1 : Nat) :
    irq_data1 s d1 =
      if s.cpu = s3c_cpu_type.TYPE_ADCV1 then d1 % 2 ^ 10
      else if s.cpu = s3c_cpu_type.TYPE_ADCV4 then 0 else d1 % 2 ^ 12 := by
  unfold irq_data1
  by_cases h1 : s.cpu = s3c_cpu_type.TYPE_ADCV1
  · have h4 : s.cpu ≠ s3c_cpu_type.TYPE_ADCV4 := by rw [h1]; decide
    rw [if_pos h1, if_pos h1, if_pos h4]
    exact u32_and_3ff d1
  · by_cases h4 : s.cpu = s3c_cpu_type.TYPE_ADCV4
    · rw [if_neg h1, if_neg h1, if_pos h4, if_neg (not_not.mpr h4)]
      rfl
    · rw [if_neg h1, if_neg h1, if_neg h4, if_pos h4]
      exact u32_and_fff d1

/-- C13: with an active client `c` that has samples left and a delivery
callback, the interrupt handler calls that callback exactly once, with the
decremented sample count and with the two values `irq_data0`, `irq_data1`;
for all data register values `d0`, `d1` these are `d0 mod 2^10` and
`d1 mod 2^10` on ADCV1, `d0 mod 2^12` and `d1 mod 2^12` on ADCV2 and ADCV3, and
`d0 mod 2^12` and `0` on ADCV4. -/
theorem c13_masked_values (K : regs_adc) (s : State) (c d0 d1 : Nat) (cb : convert_fn)
    (hc : s.cur = some c) (hn : (s.clients c).nr_samples ≠ 0)
    (hcb : (s.clients c).convert_cb = some cb) :
    (∃ l, (s3c_adc_irq K s d0 d1).2.log =
        s.log ++ Event.convert_cb c (irq_data0 s d0) (irq_data1 s d1)
          ((s.clients c).nr_samples - 1) :: l ∧
      ∀ x, convert_lefts x l = []) ∧
    (s.cpu = s3c_cpu_type.TYPE_ADCV1 →
      irq_data0 s d0 = d0 % 2 ^ 10 ∧ irq_data1 s d1 = d1 % 2 ^ 10) ∧
    (s.cpu = s3c_cpu_type.TYPE_ADCV2 ∨ s.cpu = s3c_cpu_type.TYPE_ADCV3 →
      irq_data0 s d0 = d0 % 2 ^ 12 ∧ irq_data1 s d1 = d1 % 2 ^ 12) ∧
    (s.cpu = s3c_cpu_type.TYPE_ADCV4 →
      irq_data0 s d0 = d0 % 2 ^ 12 ∧ irq_data1 s d1 = 0) := by
  refine ⟨?_, fun h => ?_, fun h => ?_, fun h => ?_⟩
  · obtain ⟨l, hl, hq⟩ := irq_log_after_delivery K s c d0 d1 hc hn
    obtain ⟨l0, hl0, hq0⟩ := call_convert_log
      (s.upd c (fun cl => { cl with nr_samples := cl.nr_samples - 1 })) c cb
      (irq_data0 s d0) (irq_data1 s d1)
    have hd : (irq_delivered s c d0 d1).log =
        s.log ++ Event.convert_cb c (irq_data0 s d0) (irq_data1 s d1)
          ((s.clients c).nr_samples - 1) :: l0 := by
      simp only [irq_delivered, upd_clients_same, hcb]
      rw [hl0]; simp
    refine ⟨l0 ++ l, by rw [hl, hd]; simp, fun x => ?_⟩
    rw [convert_lefts_append, (hq0 x).2, hq x]; rfl
  · rw [irq_data0_eq, irq_data1_eq, if_pos h, if_pos h]; exact ⟨rfl, rfl⟩
  · have h1 : s.cpu ≠ s3c_cpu_type.TYPE_ADCV1 := by rcases h with h | h <;> rw [h] <;> decide
    have h4 : s.cpu ≠ s3c_cpu_type.TYPE_ADCV4 := by rcases h with h | h <;> rw [h] <;> decide
    rw [irq_data0_eq, irq_data1_eq, if_neg h1, if_neg h1, if_neg h4]; exact ⟨rfl, rfl⟩
  · have h1 : s.cpu ≠ s3c_cpu_type.TYPE_ADCV1 := by rw [h]; decide
    rw [irq_data0_eq, irq_data1_eq, if_neg h1, if_neg h1, if_pos h]; exact ⟨rfl, rfl⟩

/-- C13 on the newest revision with all-ones data registers: the callback gets
4095 and 0. -/
theorem c13_masked_values_witness :
    v4_sampling_state.cur = some 1 ∧ (v4_sampling_state.clients 1).nr_samples ≠ 0 ∧
    (v4_sampling_state.clients 1).convert_cb = some convert_fn.s3c_convert_done ∧
    v4_sampling_state.cpu = s3c_cpu_type.TYPE_ADCV4 ∧
    irq_data0 v4_sampling_state 4294967295 = 4095 ∧
    irq_data1 v4_sampling_state 4294967295 = 0 :=
  have h := c13_masked_values regs_adc_h v4_sampling_state 1 4294967295 4294967295
    convert_fn.s3c_convert_done (by decide) (by decide) rfl
  ⟨by decide, by decide, rfl, rfl, (h.2.2.2 rfl).1, (h.2.2.2 rfl).2⟩

/-! ## C14: the sentinel and the latched result -/

/-- No call changes the hardware revision. -/
theorem step_cpu (K) (s : State) (op : Op) : (step K s op).cpu = s.cpu := by
  cases op with
  | start d ch n w =>
    simp only [step]
    by_cases h1 : (s.clients d).is_ts ≠ 0 ∧ s.ts_pend ≠ none
    · simp only [s3c_adc_start, if_pos h1]
    · by_cases h2 : (s.clients d).running = true
      · simp only [s3c_adc_start, if_neg h1, if_pos h2, emit_cpu]
      · have h2f : (s.clients d).running = false := by simpa using h2
        rw [start_ok_eq K s d ch n w h1 h2f]
        simp only []
        split_ifs <;> simp
  | stop d =>
    simp only [step]; rw [stop_eq]
    split_ifs <;> simp
  | irq d0 d1 =>
    simp only [step]
    rcases hc : s.cur with _ | c
    · rw [irq_idle_eq K s d0 d1 hc]; simp
    · by_cases hn : (s.clients c).nr_samples = 0
      · rw [irq_zero_eq K s c d0 d1 hc hn]; simp
      · rw [irq_active_eq K s c d0 d1 hc hn]
        split_ifs <;> simp

/-- A start returns `-EAGAIN` or 0. -/
theorem start_ret_cases (K) (s : State) (c ch n : Nat) (w : Option Nat) :
    (s3c_adc_start K s c ch n w).1 = -EAGAIN ∨ (s3c_adc_start K s c ch n w).1 = 0 := by
  by_cases h1 : (s.clients c).is_ts ≠ 0 ∧ s.ts_pend ≠ none
  · left; simp only [s3c_adc_start, if_pos h1]
  · by_cases h2 : (s.clients c).running = true
    · left; simp only [s3c_adc_start, if_neg h1, if_pos h2]
    · right
      rw [start_ok_eq K s c ch n w h1 (by simpa using h2)]

/-- The record a successful start leaves in its client. -/
theorem start_ok_client (K) (s : State) (c ch n : Nat) (w : Option Nat)
    (h : (s3c_adc_start K s c ch n w).1 = 0) :
    (s3c_adc_start K s c ch n w).2.clients c =
      { s.clients c with running := true, convert_cb := some convert_fn.s3c_convert_done,
                         wait := w, result := -1, channel := u8 ch, nr_samples := u32 n } := by
  obtain ⟨h1, h2⟩ := start_ok_cases K s c ch n w h
  rw [start_ok_eq K s c ch n w h1 h2]
  simp only []
  split_ifs
  · rw [try_clients, start_queued_clients, if_pos rfl]
  · rw [start_queued_clients, if_pos rfl]

/-- A masked value is below `2^12`. -/
theorem irq_data0_lt (s : State) (d0 : Nat) : irq_data0 s d0 < 2 ^ 12 := by
  rw [irq_data0_eq]
  split_ifs
  · exact lt_trans (Nat.mod_lt _ (by norm_num)) (by norm_num)
  · exact Nat.mod_lt _ (by norm_num)

/-- A masked value is the same number as an `int`. -/
theorem to_int_irq_data0 (s : State) (d0 : Nat) :
    to_int (irq_data0 s d0) = (irq_data0 s d0 : Int) := by
  have h := irq_data0_lt s d0
  have h32 : irq_data0 s d0 % 2 ^ 32 = irq_data0 s d0 :=
    Nat.mod_eq_of_lt (lt_trans h (by norm_num))
  unfold to_int
  rw [h32, if_pos (lt_trans h (by norm_num))]

/-- What one call can do to the latched result of a client: leave it, reset
it to the sentinel, or latch the first masked value of the interrupt. -/
theorem step_result (K) (s : State) (op : Op) (c : Nat) :
    ((step K s op).clients c).result = (s.clients c).result ∨
    ((step K s op).clients c).result = -1 ∨
    ∃ d0 d1, op = Op.irq d0 d1 ∧ ((step K s op).clients c).result = to_int (irq_data0 s d0) := by
  cases op with
  | start d ch n w =>
    simp only [step]
    by_cases hd : c = d
    · subst hd
      rcases start_ret_cases K s c ch n w with h | h
      · left
        by_cases h1 : (s.clients c).is_ts ≠ 0 ∧ s.ts_pend ≠ none
        · simp only [s3c_adc_start, if_pos h1]
        · by_cases h2 : (s.clients c).running = true
          · simp only [s3c_adc_start, if_neg h1, if_pos h2, emit_clients]
          · rw [start_ok_eq K s c ch n w h1 (by simpa using h2)] at h
            exact absurd h (show (0 : Int) ≠ -EAGAIN by decide)
      · right; left
        rw [start_ok_client K s c ch n w h]
    · left; rw [start_clients_ne K s d ch n w c hd]
  | stop d =>
    left
    simp only [step]; rw [stop_clients]
    split_ifs with h
    · subst h; rfl
    · rfl
  | irq d0 d1 =>
    simp only [step]
    rcases hc : s.cur with _ | c'
    · left; rw [irq_idle_eq K s d0 d1 hc]; simp
    · by_cases hn : (s.clients c').nr_samples = 0
      · left; rw [irq_zero_eq K s c' d0 d1 hc hn]; simp
      · have hres : ((s3c_adc_irq K s d0 d1).2.clients c).result =
            ((irq_delivered s c' d0 d1).clients c).result := by
          rw [irq_active_eq K s c' d0 d1 hc hn]
          split_ifs
          · simp
          · rw [irq_exit_clients, try_clients, irq_finished_clients]
            split_ifs with h
            · subst h; rfl
            · rfl
        rw [hres]
        by_cases hcc : c = c'
        · subst hcc
          rcases hcb : (s.clients c).convert_cb with _ | cb
          · left; simp [irq_delivered, hcb]
          · cases cb with
            | s3c_convert_done =>
              right; right
              exact ⟨d0, d1, rfl, by simp [irq_delivered, hcb, call_convert, s3c_convert_done]⟩
            | user f => left; simp [irq_delivered, hcb, call_convert]
        · left; rw [irq_delivered_clients_ne s c' d0 d1 c hcc]

/-- After a sequence of calls the latched result of a client is what it was,
or the sentinel, or the first masked value of one of the interrupts. -/
theorem run_result (K) (c : Nat) (ops : List Op) :
    ∀ s : State,
      ((run K s ops).clients c).result = (s.clients c).result ∨
      ((run K s ops).clients c).result = -1 ∨
      ∃ d0 d1, Op.irq d0 d1 ∈ ops ∧
        ((run K s ops).clients c).result = to_int (irq_data0 s d0) := by
  induction ops with
  | nil => intro s; left; rfl
  | cons op ops ih =>
    intro s
    have hstep : run K s (op :: ops) = run K (step K s op) ops := rfl
    have hcpu : ∀ d, irq_data0 (step K s op) d = irq_data0 s d := by
      intro d; simp only [irq_data0, step_cpu]
    rw [hstep]
    rcases ih (step K s op) with h | h | ⟨d0, d1, hm, h⟩
    · rcases step_result K s op c with h2 | h2 | ⟨d0, d1, ho, h2⟩
      · left; rw [h, h2]
      · right; left; rw [h, h2]
      · right; right
        exact ⟨d0, d1, by rw [ho]; exact List.mem_cons_self _ _, by rw [h, h2]⟩
    · right; left; exact h
    · right; right
      exact ⟨d0, d1, List.mem_cons_of_mem _ hm, by rw [h, hcpu]⟩

/-- C14, as stated, fails: a start with channel 256 succeeds and leaves the
channel 0 in the client (the field is an `unsigned char`). -/
theorem c14_channel_truncated_counterexample :
    (s3c_adc_start regs_adc_h ordinary_init 1 256 1 none).1 = 0 ∧
    ((s3c_adc_start regs_adc_h ordinary_init 1 256 1 none).2.clients 1).channel = 0 ∧
    ((s3c_adc_start regs_adc_h ordinary_init 1 256 1 none).2.clients 1).channel ≠ 256 := by
  decide

/-- C14, amended: a successful `s3c_adc_start` sets the client's sample count
to the requested count (an `unsigned int`), its channel to the requested
channel reduced modulo 256 (the requested channel when that is below 256) and
its result to -1.  `s3c_convert_done` latches the value it is given, and for
every data register value and revision the value the interrupt handler gives
it is a non-negative integer below `2^12`, so never -1.  A `s3c_adc_read` that
returns a value other than `-EAGAIN` and `-ETIMEDOUT` returns the first masked
value of an interrupt that arrived during its wait, which is not negative. -/
theorem c14_sentinel_and_result (K : regs_adc) (s : State) (c ch n : Nat) (w : Option Nat) :
    ((s3c_adc_start K s c ch n w).1 = 0 →
      ((s3c_adc_start K s c ch n w).2.clients c).nr_samples = n % 2 ^ 32 ∧
      (n < 2 ^ 32 → ((s3c_adc_start K s c ch n w).2.clients c).nr_samples = n) ∧
      ((s3c_adc_start K s c ch n w).2.clients c).channel = ch % 256 ∧
      (ch < 256 → ((s3c_adc_start K s c ch n w).2.clients c).channel = ch) ∧
      ((s3c_adc_start K s c ch n w).2.clients c).result = -1) ∧
    (∀ v, ((s3c_convert_done s c v).clients c).result = to_int v) ∧
    (∀ d0, to_int (irq_data0 s d0) = (irq_data0 s d0 : Int) ∧ 0 ≤ to_int (irq_data0 s d0) ∧
      to_int (irq_data0 s d0) < 2 ^ 12 ∧ to_int (irq_data0 s d0) ≠ -1) ∧
    (∀ wake during r s', s3c_adc_read K s c ch wake during = some (r, s') →
      r = -EAGAIN ∨ r = -ETIMEDOUT ∨
      ∃ d0 d1, Op.irq d0 d1 ∈ during ∧ r = (irq_data0 s d0 : Int) ∧ 0 ≤ r ∧ r < 2 ^ 12) := by
  have hval : ∀ (t : State) (d0 : Nat), to_int (irq_data0 t d0) = (irq_data0 t d0 : Int) ∧
      0 ≤ to_int (irq_data0 t d0) ∧ to_int (irq_data0 t d0) < 2 ^ 12 ∧
      to_int (irq_data0 t d0) ≠ -1 := by
    intro t d0
    have hlt := irq_data0_lt t d0
    rw [to_int_irq_data0]
    have h0 : (0 : Int) ≤ (irq_data0 t d0 : Int) := Int.natCast_nonneg _
    refine ⟨rfl, h0, by exact_mod_cast hlt, by omega⟩
  refine ⟨fun h => ?_, fun v => ?_, hval s, ?_⟩
  · rw [start_ok_client K s c ch n w h]
    refine ⟨rfl, fun hn => Nat.mod_eq_of_lt hn, rfl, fun hc => Nat.mod_eq_of_lt hc, rfl⟩
  · simp [s3c_convert_done]
  · intro wake during r s' hread
    simp only [s3c_adc_read] at hread
    rcases start_ret_cases K s c ch 1 (some wake) with hs | hs
    · left
      rw [if_pos (by rw [hs]; decide)] at hread
      have := Option.some.inj hread
      rw [← hs]; exact (congrArg Prod.fst this).symm
    · rw [if_neg (by rw [hs]; decide)] at hread
      split_ifs at hread with hneg hbug
      · right; left
        have := Option.some.inj hread
        exact (congrArg Prod.fst this).symm
      · right; right
        have hr : r = ((run K (s3c_adc_start K s c ch 1 (some wake)).2 during).clients c).result := by
          have := congrArg Prod.fst (Option.some.inj hread)
          simp only [upd_clients_same] at this
          exact this.symm
        have h1 : ((s3c_adc_start K s c ch 1 (some wake)).2.clients c).result = -1 := by
          rw [start_ok_client K s c ch 1 (some wake) hs]
        have hcpu : ∀ d, irq_data0 (s3c_adc_start K s c ch 1 (some wake)).2 d = irq_data0 s d := by
          intro d
          have := step_cpu K s (Op.start c ch 1 (some wake))
          simp only [step] at this
          simp only [irq_data0, this]
        rcases run_result K c during (s3c_adc_start K s c ch 1 (some wake)).2 with
          h | h | ⟨d0, d1, hm, h⟩
        · rw [h, h1] at hneg; exact absurd (by decide) hneg
        · rw [h] at hneg; exact absurd (by decide) hneg
        · rw [hcpu] at h
          obtain ⟨e1, e2, e3, _⟩ := hval s d0
          refine ⟨d0, d1, hm, by rw [hr, h, e1], by rw [hr, h]; exact e2, by rw [hr, h]; exact e3⟩

/-- C14, amended, for a read on an idle S3C24XX device during which one
interrupt arrives with the data 70000: the read returns 70000 mod 1024. -/
theorem c14_sentinel_and_result_witness :
    (s3c_adc_start regs_adc_h ordinary_init 1 3 1 none).1 = 0 ∧
    ((s3c_adc_start regs_adc_h ordinary_init 1 3 1 none).2.clients 1).channel = 3 ∧
    ((s3c_adc_start regs_adc_h ordinary_init 1 3 1 none).2.clients 1).result = -1 ∧
    (∃ s', s3c_adc_read regs_adc_h ordinary_init 1 3 7 [Op.irq 70000 9] = some (368, s')) ∧
    (∃ d0 d1, Op.irq d0 d1 ∈ [Op.irq 70000 9] ∧ (368 : Int) = (irq_data0 ordinary_init d0 : Int) ∧
        (0 : Int) ≤ 368 ∧ (368 : Int) < 2 ^ 12) :=
  have h := c14_sentinel_and_result regs_adc_h ordinary_init 1 3 1 none
  have hs : (s3c_adc_start regs_adc_h ordinary_init 1 3 1 none).1 = 0 := by decide
  have hread : s3c_adc_read regs_adc_h ordinary_init 1 3 7 [Op.irq 70000 9] =
      some (368, (((run regs_adc_h (s3c_adc_start regs_adc_h ordinary_init 1 3 1 (some 7)).2
        [Op.irq 70000 9]).upd 1 (fun cl => { cl with error_count := 0 })).upd 1
        (fun cl => { cl with convert_cb := none }))) := by
    rfl
  ⟨hs, (h.1 hs).2.2.2.1 (by decide), (h.1 hs).2.2.2.2, ⟨_, hread⟩,
    ((h.2.2.2 7 [Op.irq 70000 9] 368 _ hread).resolve_left (by decide)).resolve_left
      (by decide)⟩

/-! ## C15: the error counter of `s3c_adc_read` -/

/-- Delivering a sample leaves every error counter alone. -/
theorem irq_delivered_error_count (s : State) (c d0 d1 x : Nat) :
    ((irq_delivered s c d0 d1).clients x).error_count = (s.clients x).error_count := by
  by_cases hx : x = c
  · subst hx
    unfold irq_delivered
    simp only [upd_clients_same]
    rcases hcb : (s.clients x).convert_cb with _ | cb
    · simp
    · cases cb with
      | s3c_convert_done => simp [call_convert, s3c_convert_done]
      | user f => simp [call_convert]
  · rw [irq_delivered_clients_ne s c d0 d1 x hx]

/-- No start, stop or interrupt changes an error counter. -/
theorem step_error_count (K) (s : State) (op : Op) (x : Nat) :
    ((step K s op).clients x).error_count = (s.clients x).error_count := by
  cases op with
  | start d ch n w =>
    simp only [step]
    by_cases hd : x = d
    · subst hd
      rcases start_ret_cases K s x ch n w with h | h
      · by_cases h1 : (s.clients x).is_ts ≠ 0 ∧ s.ts_pend ≠ none
        · simp only [s3c_adc_start, if_pos h1]
        · by_cases h2 : (s.clients x).running = true
          · simp only [s3c_adc_start, if_neg h1, if_pos h2, emit_clients]
          · rw [start_ok_eq K s x ch n w h1 (by simpa using h2)] at h
            exact absurd h (show (0 : Int) ≠ -EAGAIN by decide)
      · rw [start_ok_client K s x ch n w h]
    · rw [start_clients_ne K s d ch n w x hd]
  | stop d =>
    simp only [step]; rw [stop_clients]
    split_ifs with h
    · subst h; rfl
    · rfl
  | irq d0 d1 =>
    simp only [step]
    rcases hc : s.cur with _ | c
    · rw [irq_idle_eq K s d0 d1 hc]; simp
    · by_cases hn : (s.clients c).nr_samples = 0
      · rw [irq_zero_eq K s c d0 d1 hc hn]; simp
      · rw [irq_active_eq K s c d0 d1 hc hn]
        split_ifs
        · simp only [irq_exit_clients, convert_clients, emit_clients]
          exact irq_delivered_error_count s c d0 d1 x
        · rw [irq_exit_clients, try_clients, irq_finished_clients]
          split_ifs with hx
          · subst hx; exact irq_delivered_error_count s x d0 d1 x
          · exact irq_delivered_error_count s c d0 d1 x

theorem run_error_count (K) (ops : List Op) (x : Nat) :
    ∀ s : State, ((run K s ops).clients x).error_count = (s.clients x).error_count := by
  induction ops with
  | nil => intro s; rfl
  | cons op ops ih =>
    intro s
    have hstep : run K s (op :: ops) = run K (step K s op) ops := rfl
    rw [hstep, ih, step_error_count]

/-- The state in which a timed-out read returns. -/
theorem read_timed_out_eq (K) (s : State) (c ch wake : Nat) (during : List Op)
    (hs : (s3c_adc_start K s c ch 1 (some wake)).1 = 0)
    (hres : ((run K (s3c_adc_start K s c ch 1 (some wake)).2 during).clients c).result < 0) :
    s3c_adc_read K s c ch wake during =
      if (s.clients c).error_count + 1 > 10 then none
      else some (-ETIMEDOUT,
        ((s3c_adc_stop K (run K (s3c_adc_start K s c ch 1 (some wake)).2 during) c).emit
          (Event.warn_timed_out c)).upd c
          (fun cl => { cl with error_count := cl.error_count + 1 })) := by
  have hec : ((s3c_adc_stop K (run K (s3c_adc_start K s c ch 1 (some wake)).2 during) c).clients
      c).error_count = (s.clients c).error_count := by
    rw [stop_clients, if_pos rfl]
    simp only []
    rw [run_error_count]
    have := step_error_count K s (Op.start c ch 1 (some wake)) c
    simpa [step] using this
  simp only [s3c_adc_read]
  rw [if_neg (by rw [hs]; decide), if_pos hres]
  simp only [upd_clients_same, emit_clients]
  rw [hec]

/-- The state in which a read that got its sample returns. -/
theorem read_success_eq (K) (s : State) (c ch wake : Nat) (during : List Op)
    (hs : (s3c_adc_start K s c ch 1 (some wake)).1 = 0)
    (hres : ¬ ((run K (s3c_adc_start K s c ch 1 (some wake)).2 during).clients c).result < 0) :
    s3c_adc_read K s c ch wake during =
      some (((run K (s3c_adc_start K s c ch 1 (some wake)).2 during).clients c).result,
        ((run K (s3c_adc_start K s c ch 1 (some wake)).2 during).upd c
          (fun cl => { cl with error_count := 0 })).upd c
          (fun cl => { cl with convert_cb := none })) := by
  simp only [s3c_adc_read]
  rw [if_neg (by rw [hs]; decide), if_neg hres]
  simp only [upd_clients_same]

/-- A read during which no interrupt arrives, under the scheduling
invariant: it times out, and unless it is fatal it leaves a state in which the
next read can start. -/
theorem read_no_irq (K) {s : State} (hi : Inv s) (c ch wake : Nat) (during : List Op)
    (hr : (s.clients c).running = false) (hts : (s.clients c).is_ts ≠ 0 → s.ts_pend = none)
    (hd : OthersNoIrq c during) :
    ((s.clients c).error_count + 1 > 10 → s3c_adc_read K s c ch wake during = none) ∧
    (¬ (s.clients c).error_count + 1 > 10 →
      ∃ s', s3c_adc_read K s c ch wake during = some (-ETIMEDOUT, s') ∧ Inv s' ∧
        (s'.clients c).running = false ∧ ((s'.clients c).is_ts ≠ 0 → s'.ts_pend = none) ∧
        (s'.clients c).error_count = (s.clients c).error_count + 1) := by
  have h1 : ¬((s.clients c).is_ts ≠ 0 ∧ s.ts_pend ≠ none) := fun hh => hh.2 (hts hh.1)
  have hs : (s3c_adc_start K s c ch 1 (some wake)).1 = 0 := by
    rw [start_ok_eq K s c ch 1 (some wake) h1 hr]
  have hi1 : Inv (s3c_adc_start K s c ch 1 (some wake)).2 := start_inv K hi c ch 1 (some wake)
  have hi2 : Inv (run K (s3c_adc_start K s c ch 1 (some wake)).2 during) :=
    run_inv K during hi1
  have hc2 : (run K (s3c_adc_start K s c ch 1 (some wake)).2 during).clients c =
      { s.clients c with running := true, convert_cb := some convert_fn.s3c_convert_done,
                         wait := some wake, result := -1, channel := u8 ch,
                         nr_samples := u32 1 } := by
    rw [run_others_clients K c during _ hd, start_ok_client K s c ch 1 (some wake) hs]
  have hres : ((run K (s3c_adc_start K s c ch 1 (some wake)).2 during).clients c).result
      < 0 := by rw [hc2]; simp
  have hrun2 : ((run K (s3c_adc_start K s c ch 1 (some wake)).2 during).clients c).running
      = true := by rw [hc2]
  rw [read_timed_out_eq K s c ch wake during hs hres]
  refine ⟨fun h => by rw [if_pos h], fun h => ?_⟩
  rw [if_neg h]
  have hi3 := stop_inv K hi2 c
  refine ⟨_, rfl, ?_, ?_, ?_, ?_⟩
  · refine inv_of_same hi3 rfl rfl rfl (fun x => ?_)
    simp only [upd_clients, emit_clients]
    split_ifs with hx
    · subst hx; exact ⟨rfl, rfl, fun _ => rfl⟩
    · exact ⟨rfl, rfl, fun _ => rfl⟩
  · simp only [upd_clients_same, emit_clients]
    rw [stop_clients, if_pos rfl]
  · intro hts'
    simp only [upd_clients_same, emit_clients, upd_ts_pend, emit_ts_pend] at hts' ⊢
    rw [stop_clients, if_pos rfl] at hts'
    exact stop_ts_pend_none K hi2 c hrun2 hts'
  · simp only [upd_clients_same, emit_clients]
    rw [stop_clients, if_pos rfl, hc2]

/-- Reads without interrupt, one after the other: while the counter stays
within 10 each returns `-ETIMEDOUT`; the read that takes it beyond is fatal. -/
theorem reads_no_irq (K) (c ch wake : Nat) (durings : List (List Op)) :
    ∀ (s : State), Inv s → (s.clients c).running = false →
      ((s.clients c).is_ts ≠ 0 → s.ts_pend = none) →
      (∀ d, d ∈ durings → OthersNoIrq c d) →
      ((s.clients c).error_count + durings.length ≤ 10 →
        ∃ sf, reads_in_a_row K c ch wake s durings =
            some (List.replicate durings.length (-ETIMEDOUT), sf) ∧
          (sf.clients c).error_count = (s.clients c).error_count + durings.length) ∧
      ((s.clients c).error_count ≤ 10 → (s.clients c).error_count + durings.length > 10 →
        reads_in_a_row K c ch wake s durings = none) := by
  induction durings with
  | nil =>
    intro s _ _ _ _
    exact ⟨fun _ => ⟨s, rfl, by simp⟩, fun h1 h => by simp at h; omega⟩
  | cons d ds ih =>
    intro s hi hr hts hd
    obtain ⟨hfatal, hok⟩ := read_no_irq K hi c ch wake d hr hts (hd d (List.mem_cons_self _ _))
    have hlen : ((d :: ds).length : Int) = (ds.length : Int) + 1 := by simp
    by_cases hbug : (s.clients c).error_count + 1 > 10
    · refine ⟨fun h => ?_, fun _ _ => ?_⟩
      · rw [hlen] at h; omega
      · simp only [reads_in_a_row, hfatal hbug]
    · obtain ⟨s', hread, hi', hr', hts', hec'⟩ := hok hbug
      obtain ⟨ih1, ih2⟩ := ih s' hi' hr' hts' (fun x hx => hd x (List.mem_cons_of_mem _ hx))
      refine ⟨fun h => ?_, fun _ h => ?_⟩
      · obtain ⟨sf, hsf, hecf⟩ := ih1 (by rw [hec']; rw [hlen] at h; omega)
        refine ⟨sf, ?_, ?_⟩
        · simp only [reads_in_a_row, hread, hsf, List.length_cons, List.replicate_succ]
        · rw [hecf, hec', hlen]; omega
      · have := ih2 (by rw [hec']; omega) (by rw [hec']; rw [hlen] at h; omega)
        simp only [reads_in_a_row, hread, this]

/-- C15: when its start succeeds and the result is still negative after the
wait, `s3c_adc_read` calls `s3c_adc_stop` on the client and increments the
client's error counter by one; it is fatal (`BUG_ON`) exactly when the
incremented counter exceeds 10, and returns `-ETIMEDOUT` otherwise.  When the
result is not negative after the wait, it returns the result and sets the
counter to 0.  So from a reachable state with the counter at 0, up to ten
reads in a row without interrupt each return `-ETIMEDOUT`, and eleven such
reads in a row end in the fatal one. -/
theorem c15_error_counter (K : regs_adc) (s : State) (c ch wake : Nat) (during : List Op) :
    ((s3c_adc_start K s c ch 1 (some wake)).1 = 0 →
      (((run K (s3c_adc_start K s c ch 1 (some wake)).2 during).clients c).result < 0 →
        s3c_adc_read K s c ch wake during =
          (if (s.clients c).error_count + 1 > 10 then none
           else some (-ETIMEDOUT,
            ((s3c_adc_stop K (run K (s3c_adc_start K s c ch 1 (some wake)).2 during) c).emit
              (Event.warn_timed_out c)).upd c
              (fun cl => { cl with error_count := cl.error_count + 1 }))) ∧
        ((((s3c_adc_stop K (run K (s3c_adc_start K s c ch 1 (some wake)).2 during) c).emit
          (Event.warn_timed_out c)).upd c
          (fun cl => { cl with error_count := cl.error_count + 1 })).clients c).error_count =
          (s.clients c).error_count + 1) ∧
      (¬ ((run K (s3c_adc_start K s c ch 1 (some wake)).2 during).clients c).result < 0 →
        ∃ s', s3c_adc_read K s c ch wake during =
            some (((run K (s3c_adc_start K s c ch 1 (some wake)).2 during).clients c).result, s') ∧
          (s'.clients c).error_count = 0)) ∧
    (∀ durings : List (List Op), Reachable K s → (s.clients c).running = false →
      ((s.clients c).is_ts ≠ 0 → s.ts_pend = none) → (s.clients c).error_count = 0 →
      (∀ d, d ∈ durings → OthersNoIrq c d) →
      (durings.length ≤ 10 →
        ∃ sf, reads_in_a_row K c ch wake s durings =
            some (List.replicate durings.length (-ETIMEDOUT), sf) ∧
          (sf.clients c).error_count = durings.length) ∧
      (durings.length = 11 → reads_in_a_row K c ch wake s durings = none)) := by
  refine ⟨fun hs => ⟨fun hres => ⟨read_timed_out_eq K s c ch wake during hs hres, ?_⟩,
    fun hres => ?_⟩, fun durings hreach hr hts hec hd => ?_⟩
  · simp only [upd_clients_same, emit_clients]
    rw [stop_clients, if_pos rfl]
    simp only []
    rw [run_error_count]
    have := step_error_count K s (Op.start c ch 1 (some wake)) c
    simp only [step] at this
    rw [this]
  · refine ⟨_, read_success_eq K s c ch wake during hs hres, ?_⟩
    simp [upd_clients]
  · obtain ⟨h1, h2⟩ := reads_no_irq K c ch wake durings s (reachable_inv hreach) hr hts hd
    rw [hec] at h1 h2
    refine ⟨fun hlen => ?_, fun hlen => ?_⟩
    · obtain ⟨sf, hsf, hecf⟩ := h1 (by omega)
      exact ⟨sf, hsf, by rw [hecf]; simp⟩
    · exact h2 (by decide) (by rw [hlen]; decide)

/-- C15 on an idle device: ten reads of client 1 in a row without interrupt
return `-ETIMEDOUT` and leave the counter at 10; eleven end in `BUG_ON`. -/
theorem c15_error_counter_witness :
    Reachable regs_adc_h ordinary_init ∧ (ordinary_init.clients 1).running = false ∧
    (ordinary_init.clients 1).error_count = 0 ∧
    (∃ sf, reads_in_a_row regs_adc_h 1 0 7 ordinary_init (List.replicate 10 []) =
        some (List.replicate 10 (-ETIMEDOUT), sf) ∧ (sf.clients 1).error_count = 10) ∧
    reads_in_a_row regs_adc_h 1 0 7 ordinary_init (List.replicate 11 []) = none :=
  have hr : Reachable regs_adc_h ordinary_init :=
    ⟨ordinary_init, [], ⟨rfl, rfl, rfl, fun _ => rfl⟩, rfl⟩
  have hd : ∀ n : Nat, ∀ d, d ∈ List.replicate n ([] : List Op) → OthersNoIrq 1 d := by
    intro n d hd
    rw [List.eq_of_mem_replicate hd]
    intro op hop
    exact absurd hop (by simp)
  have h10 := ((c15_error_counter regs_adc_h ordinary_init 1 0 7 []).2 (List.replicate 10 [])
    hr rfl (fun h => absurd rfl h) rfl (hd 10)).1 (by simp)
  have h11 := ((c15_error_counter regs_adc_h ordinary_init 1 0 7 []).2 (List.replicate 11 [])
    hr rfl (fun h => absurd rfl h) rfl (hd 11)).2 (by simp)
  ⟨hr, rfl, rfl, by simpa using h10, h11⟩

/-! ## C16: registration -/

/-- C16, as stated, fails: registered with the priority flag 256, the new
client gets the flag 0 (the field is an `unsigned char`), so it is an ordinary
client: started behind an active client it is put in the pending list, not
in the priority slot. -/
theorem c16_priority_flag_truncated_counterexample :
    (s3c_adc_register three_samples_state (some 7) none none 256 (some 9)).1 = Except.ok 9 ∧
    (((s3c_adc_register three_samples_state (some 7) none none 256 (some 9)).2.clients 9).is_ts
      = 0) ∧
    (s3c_adc_start regs_adc_h
      (s3c_adc_register three_samples_state (some 7) none none 256 (some 9)).2
      9 0 1 none).2.ts_pend = none ∧
    (s3c_adc_start regs_adc_h
      (s3c_adc_register three_samples_state (some 7) none none 256 (some 9)).2
      9 0 1 none).2.adc_pending = [9] := by
  refine ⟨rfl, by decide, by decide, by decide⟩

/-- C16, amended: `s3c_adc_register` returns `-EINVAL` when the owner is
missing and `-ENOMEM` when the owner is given and the allocation fails; in
both cases its only effect is one outgoing call, the warning of
`WARN_ON(!pdev)` or the `dev_err` of the failed allocation.  Otherwise it
returns the new client, whose priority flag is the given one reduced modulo
256 (the given one when that is below 256), whose delivery callback is the
given one, whose select callback is the given one or `s3c_adc_default_select`
when none is given, whose running flag is clear and whose sample count and
error counter are 0; the other clients are as before and there is no outgoing
call.  In every case the active slot, the priority slot, the pending list and
the control register are unchanged. -/
theorem c16_register (s : State) (pdev : Option Nat) (select : Option select_fn)
    (conv : Option convert_fn) (is_ts : Nat) (alloc : Option Nat) :
    (pdev = none →
      s3c_adc_register s pdev select conv is_ts alloc =
        (Except.error (-EINVAL), s.emit Event.warn_on_no_pdev)) ∧
    (∀ pd, pdev = some pd → alloc = none →
      s3c_adc_register s pdev select conv is_ts alloc =
        (Except.error (-ENOMEM), s.emit (Event.dev_err_no_memory pd))) ∧
    (∀ pd p, pdev = some pd → alloc = some p →
      (s3c_adc_register s pdev select conv is_ts alloc).1 = Except.ok p ∧
      ((s3c_adc_register s pdev select conv is_ts alloc).2.clients p).is_ts = is_ts % 256 ∧
      (is_ts < 256 →
        ((s3c_adc_register s pdev select conv is_ts alloc).2.clients p).is_ts = is_ts) ∧
      ((s3c_adc_register s pdev select conv is_ts alloc).2.clients p).convert_cb = conv ∧
      ((s3c_adc_register s pdev select conv is_ts alloc).2.clients p).select_cb =
        some (select.getD select_fn.s3c_adc_default_select) ∧
      ((s3c_adc_register s pdev select conv is_ts alloc).2.clients p).running = false ∧
      ((s3c_adc_register s pdev select conv is_ts alloc).2.clients p).nr_samples = 0 ∧
      ((s3c_adc_register s pdev select conv is_ts alloc).2.clients p).error_count = 0 ∧
      ((s3c_adc_register s pdev select conv is_ts alloc).2.clients p).pdev = some pd ∧
      (∀ x, x ≠ p →
        (s3c_adc_register s pdev select conv is_ts alloc).2.clients x = s.clients x) ∧
      (s3c_adc_register s pdev select conv is_ts alloc).2.log = s.log) ∧
    ((s3c_adc_register s pdev select conv is_ts alloc).2.cur = s.cur ∧
      (s3c_adc_register s pdev select conv is_ts alloc).2.ts_pend = s.ts_pend ∧
      (s3c_adc_register s pdev select conv is_ts alloc).2.adc_pending = s.adc_pending ∧
      (s3c_adc_register s pdev select conv is_ts alloc).2.con = s.con) := by
  refine ⟨fun h => ?_, fun pd h1 h2 => ?_, fun pd p h1 h2 => ?_, ?_⟩
  · subst h; rfl
  · subst h1; subst h2; rfl
  · subst h1; subst h2
    have hmod : u8 is_ts = is_ts % 256 := rfl
    refine ⟨rfl, ?_, fun hlt => ?_, ?_, ?_, ?_, ?_, ?_, ?_, fun x hx => ?_, rfl⟩
    · simp [s3c_adc_register, registered_client, hmod]
    · simp [s3c_adc_register, registered_client, hmod, Nat.mod_eq_of_lt hlt]
    · simp [s3c_adc_register, registered_client]
    · cases select <;> simp [s3c_adc_register, registered_client]
    · simp [s3c_adc_register, registered_client]
    · simp [s3c_adc_register, registered_client]
    · simp [s3c_adc_register, registered_client]
    · simp [s3c_adc_register, registered_client]
    · simp [s3c_adc_register, upd_clients, hx]
  · cases pdev with
    | none => exact ⟨rfl, rfl, rfl, rfl⟩
    | some pd =>
      cases alloc with
      | none => exact ⟨rfl, rfl, rfl, rfl⟩
      | some p => exact ⟨rfl, rfl, rfl, rfl⟩

/-- C16, amended, for a registration without owner, one without memory, and
the registration of a priority client with flag 1 on a busy device. -/
theorem c16_register_witness :
    s3c_adc_register three_samples_state none none none 1 (some 9) =
      (Except.error (-EINVAL), three_samples_state.emit Event.warn_on_no_pdev) ∧
    s3c_adc_register three_samples_state (some 7) none none 1 none =
      (Except.error (-ENOMEM), three_samples_state.emit (Event.dev_err_no_memory 7)) ∧
    (s3c_adc_register three_samples_state (some 7) none none 1 (some 9)).1 = Except.ok 9 ∧
    ((s3c_adc_register three_samples_state (some 7) none none 1 (some 9)).2.clients 9).is_ts
      = 1 ∧
    ((s3c_adc_register three_samples_state (some 7) none none 1 (some 9)).2.clients 9).select_cb
      = some select_fn.s3c_adc_default_select ∧
    (s3c_adc_register three_samples_state (some 7) none none 1 (some 9)).2.cur = some 1 :=
  have h := c16_register three_samples_state (some 7) none none 1 (some 9)
  ⟨(c16_register three_samples_state none none none 1 (some 9)).1 rfl,
    (c16_register three_samples_state (some 7) none none 1 none).2.1 7 rfl rfl,
    (h.2.2.1 7 9 rfl rfl).1, (h.2.2.1 7 9 rfl rfl).2.2.1 (by decide),
    (h.2.2.1 7 9 rfl rfl).2.2.2.2.1, by rw [h.2.2.2.1]; decide⟩

/-! ## C17: the dispatch step -/

/-- The standby write leaves the standby bits set. -/
theorem standby_bits_set (x P S : Nat) (hS : S < 2 ^ 32) :
    u32 ((x &&& not32 P) ||| S) &&& S = S := by
  apply Nat.eq_of_testBit_eq
  intro i
  simp only [u32, Nat.testBit_and, Nat.testBit_mod_two_pow, Nat.testBit_or]
  by_cases hi : i < 32
  · cases x.testBit i <;> cases (not32 P).testBit i <;> cases S.testBit i <;> simp [hi]
  · have hlt : S < 2 ^ i :=
      lt_of_lt_of_le hS (Nat.pow_le_pow_right (by norm_num) (Nat.le_of_not_lt hi))
    rw [Nat.testBit_lt_two_pow hlt]
    simp

/-- The standby write leaves the prescaler-enable bits clear, when no bit is
both a standby and a prescaler-enable bit. -/
theorem standby_prescaler_clear (x P S : Nat) (hd : S &&& P = 0) :
    u32 ((x &&& not32 P) ||| S) &&& P = 0 := by
  apply Nat.eq_of_testBit_eq
  intro i
  have hsp : (S.testBit i && P.testBit i) = false := by
    rw [← Nat.testBit_and, hd, Nat.zero_testBit]
  simp only [u32, not32, Nat.testBit_and, Nat.testBit_mod_two_pow, Nat.testBit_or,
    Nat.testBit_xor, Nat.testBit_two_pow_sub_one, Nat.zero_testBit]
  by_cases hi : i < 32
  · cases hx : x.testBit i <;> cases hp : P.testBit i <;> cases hs : S.testBit i <;>
      simp_all
  · simp [hi]

/-- The value `s3c_adc_select` computes has no bit of `E` set, when the bits
of `E` are start bits and none of them is a prescaler-enable bit. -/
theorem select_bits_clear (x A B ST P E : Nat) (h1 : E &&& ST = E) (h2 : P &&& E = 0) :
    u32 ((((x &&& not32 A) &&& not32 B) &&& not32 ST) ||| P) &&& E = 0 := by
  apply Nat.eq_of_testBit_eq
  intro i
  have hpe : (P.testBit i && E.testBit i) = false := by
    rw [← Nat.testBit_and, h2, Nat.zero_testBit]
  have hes : (E.testBit i && ST.testBit i) = E.testBit i := by
    rw [← Nat.testBit_and, h1]
  simp only [u32, not32, Nat.testBit_and, Nat.testBit_mod_two_pow, Nat.testBit_or,
    Nat.testBit_xor, Nat.testBit_two_pow_sub_one, Nat.zero_testBit]
  by_cases hi : i < 32
  · cases hx : x.testBit i <;> cases hp : P.testBit i <;> cases hs : ST.testBit i <;>
      cases he : E.testBit i <;> simp_all
  · simp [hi]

/-- Two values without a bit of `E` have none after `|` and truncation. -/
theorem or_bits_clear (a b E : Nat) (ha : a &&& E = 0) (hb : b &&& E = 0) :
    u32 (a ||| b) &&& E = 0 := by
  apply Nat.eq_of_testBit_eq
  intro i
  have h1 : (a.testBit i && E.testBit i) = false := by
    rw [← Nat.testBit_and, ha, Nat.zero_testBit]
  have h2 : (b.testBit i && E.testBit i) = false := by
    rw [← Nat.testBit_and, hb, Nat.zero_testBit]
  simp only [u32, Nat.testBit_and, Nat.testBit_mod_two_pow, Nat.testBit_or, Nat.zero_testBit]
  cases hx : a.testBit i <;> cases hy : b.testBit i <;> cases he : E.testBit i <;> simp_all

/-- The value `s3c_adc_convert` writes has the bits of `E` set. -/
theorem start_bits_set (v E : Nat) (hE : E < 2 ^ 32) : u32 (v ||| E) &&& E = E := by
  apply Nat.eq_of_testBit_eq
  intro i
  simp only [u32, Nat.testBit_and, Nat.testBit_mod_two_pow, Nat.testBit_or]
  by_cases hi : i < 32
  · cases v.testBit i <;> cases E.testBit i <;> simp [hi]
  · have hlt : E < 2 ^ i :=
      lt_of_lt_of_le hE (Nat.pow_le_pow_right (by norm_num) (Nat.le_of_not_lt hi))
    rw [Nat.testBit_lt_two_pow hlt]
    simp

/-- The standby write leaves the bits of `E` as the register held them, when
no bit of `E` is a prescaler-enable or a standby bit. -/
theorem standby_keeps_bits (x P S E : Nat) (hE : E < 2 ^ 32) (hp : P &&& E = 0)
    (hs : S &&& E = 0) : u32 ((x &&& not32 P) ||| S) &&& E = x &&& E := by
  apply Nat.eq_of_testBit_eq
  intro i
  have h1 : (P.testBit i && E.testBit i) = false := by
    rw [← Nat.testBit_and, hp, Nat.zero_testBit]
  have h2 : (S.testBit i && E.testBit i) = false := by
    rw [← Nat.testBit_and, hs, Nat.zero_testBit]
  simp only [u32, not32, Nat.testBit_and, Nat.testBit_mod_two_pow, Nat.testBit_or,
    Nat.testBit_xor, Nat.testBit_two_pow_sub_one]
  by_cases hi : i < 32
  · cases hx : x.testBit i <;> cases hp : P.testBit i <;> cases hs : S.testBit i <;>
      cases he : E.testBit i <;> simp_all
  · have hlt : E < 2 ^ i :=
      lt_of_lt_of_le hE (Nat.pow_le_pow_right (by norm_num) (Nat.le_of_not_lt hi))
    rw [Nat.testBit_lt_two_pow hlt]
    simp

/-- The outgoing calls of `s3c_adc_select`: the select callback with 1, on
the newer revisions the write of the channel to the multiplexer register for
an ordinary client, and one write of the control register, whose value has
the start bit clear. -/
theorem select_calls (K) (s : State) (c : Nat) :
    ∃ v l, (s3c_adc_select K s c).log =
        s.log ++ Event.select_cb c 1 :: (l ++ [Event.writel v Reg.S3C2410_ADCCON]) ∧
      (s3c_adc_select K s c).con = v ∧
      (l = [] ∨ ∃ m, l = [Event.writel m Reg.S5P_ADCMUX]) ∧
      (K.S3C2410_ADCCON_ENABLE_START &&& K.S3C2410_ADCCON_STARTMASK =
          K.S3C2410_ADCCON_ENABLE_START →
        K.S3C2410_ADCCON_PRSCEN &&& K.S3C2410_ADCCON_ENABLE_START = 0 →
        (∀ ch, K.S3C2410_ADCCON_SELMUX ch &&& K.S3C2410_ADCCON_ENABLE_START = 0) →
        v &&& K.S3C2410_ADCCON_ENABLE_START = 0) := by
  unfold s3c_adc_select
  simp only []
  split_ifs
  · exact ⟨_, [Event.writel (u32 (K.S5PV210_ADCCON_SELMUX (s.clients c).channel)) Reg.S5P_ADCMUX],
      by simp [writel_con, State.emit], rfl,
      Or.inr ⟨_, rfl⟩, fun h1 h2 _ => select_bits_clear _ _ _ _ _ _ h1 h2⟩
  · exact ⟨_, [], by simp [writel_con, State.emit], rfl, Or.inl rfl,
      fun h1 h2 h3 => or_bits_clear _ _ _ (select_bits_clear _ _ _ _ _ _ h1 h2) (h3 _)⟩
  · exact ⟨_, [], by simp [writel_con, State.emit], rfl, Or.inl rfl,
      fun h1 h2 _ => select_bits_clear _ _ _ _ _ _ h1 h2⟩

/-- The outgoing calls of `s3c_adc_select` followed by `s3c_adc_convert`. -/
theorem convert_select_calls (K) (s : State) (c : Nat) :
    ∃ v l, (s3c_adc_convert K (s3c_adc_select K s c)).log =
        s.log ++ Event.select_cb c 1 ::
          (l ++ [Event.writel v Reg.S3C2410_ADCCON,
            Event.writel (u32 (v ||| K.S3C2410_ADCCON_ENABLE_START)) Reg.S3C2410_ADCCON]) ∧
      (s3c_adc_convert K (s3c_adc_select K s c)).con =
        u32 (v ||| K.S3C2410_ADCCON_ENABLE_START) ∧
      (l = [] ∨ ∃ m, l = [Event.writel m Reg.S5P_ADCMUX]) ∧
      (K.S3C2410_ADCCON_ENABLE_START &&& K.S3C2410_ADCCON_STARTMASK =
          K.S3C2410_ADCCON_ENABLE_START →
        K.S3C2410_ADCCON_PRSCEN &&& K.S3C2410_ADCCON_ENABLE_START = 0 →
        (∀ ch, K.S3C2410_ADCCON_SELMUX ch &&& K.S3C2410_ADCCON_ENABLE_START = 0) →
        v &&& K.S3C2410_ADCCON_ENABLE_START = 0) := by
  obtain ⟨v, l, h1, h2, h3, h4⟩ := select_calls K s c
  refine ⟨v, l, ?_, ?_, h3, h4⟩
  · rw [convert_log, h1, h2]; simp
  · show u32 ((s3c_adc_select K s c).con ||| K.S3C2410_ADCCON_ENABLE_START) = _
    rw [h2]

/-- With the header's values, the channel bits of the control register do
not include the start bit. -/
theorem regs_adc_h_selmux_apart (ch : Nat) :
    regs_adc_h.S3C2410_ADCCON_SELMUX ch &&& regs_adc_h.S3C2410_ADCCON_ENABLE_START = 0 := by
  show ((ch &&& 7) <<< 3) &&& 1 = 0
  rw [Nat.and_one_is_mod, Nat.shiftLeft_eq]
  omega

/-- C17: on an idle device, dispatch does this.  With the priority slot
occupied by `p`, it makes `p` active, clears the slot and leaves the pending
list alone.  With the slot empty and the pending list `n :: rest`, it makes `n`
active and leaves `rest`.  In both cases it is one call of `s3c_adc_select`
followed by one call of `s3c_adc_convert`.  With nothing waiting, no client
becomes active, no callback is called and the only outgoing call writes the
control register with the prescaler-enable bits cleared and the standby bits
set; the start bit is as the register held it.  Whenever a client `c` is
active after dispatch, the outgoing calls are, in this order: the select
callback of `c` with 1; on the newer revisions at most one write to the
multiplexer register; the write of a value `v` with the start bit clear to
the control register; and the write of `v` with the start bit set to the
control register, which is the value the register then holds.  So the select
callback is called once, with 1, and one conversion is started, exactly when
a client is selected. -/
theorem c17_dispatch (K : regs_adc) (s : State) (hidle : s.cur = none) :
    (∀ p, s.ts_pend = some p →
      (s3c_adc_try K s).cur = some p ∧ (s3c_adc_try K s).ts_pend = none ∧
      (s3c_adc_try K s).adc_pending = s.adc_pending ∧
      s3c_adc_try K s =
        s3c_adc_convert K (s3c_adc_select K { s with ts_pend := none, cur := some p } p)) ∧
    (∀ n rest, s.ts_pend = none → s.adc_pending = n :: rest →
      (s3c_adc_try K s).cur = some n ∧ (s3c_adc_try K s).ts_pend = none ∧
      (s3c_adc_try K s).adc_pending = rest ∧
      s3c_adc_try K s =
        s3c_adc_convert K (s3c_adc_select K { s with adc_pending := rest, cur := some n } n)) ∧
    (s.ts_pend = none → s.adc_pending = [] →
      (s3c_adc_try K s).cur = none ∧ (s3c_adc_try K s).ts_pend = none ∧
      (s3c_adc_try K s).adc_pending = [] ∧
      (s3c_adc_try K s).con =
        u32 ((s.con &&& not32 K.S3C2410_ADCCON_PRSCEN) ||| K.S3C2410_ADCCON_STDBM) ∧
      (s3c_adc_try K s).log = s.log ++ [Event.writel (s3c_adc_try K s).con Reg.S3C2410_ADCCON] ∧
      (K.S3C2410_ADCCON_STDBM < 2 ^ 32 →
        (s3c_adc_try K s).con &&& K.S3C2410_ADCCON_STDBM = K.S3C2410_ADCCON_STDBM) ∧
      (K.S3C2410_ADCCON_STDBM &&& K.S3C2410_ADCCON_PRSCEN = 0 →
        (s3c_adc_try K s).con &&& K.S3C2410_ADCCON_PRSCEN = 0) ∧
      (K.S3C2410_ADCCON_ENABLE_START < 2 ^ 32 →
        K.S3C2410_ADCCON_PRSCEN &&& K.S3C2410_ADCCON_ENABLE_START = 0 →
        K.S3C2410_ADCCON_STDBM &&& K.S3C2410_ADCCON_ENABLE_START = 0 →
        (s3c_adc_try K s).con &&& K.S3C2410_ADCCON_ENABLE_START =
          s.con &&& K.S3C2410_ADCCON_ENABLE_START)) ∧
    (∀ c, (s3c_adc_try K s).cur = some c →
      (s.ts_pend = some c ∨ (s.ts_pend = none ∧ s.adc_pending.head? = some c)) ∧
      ∃ v l,
        (s3c_adc_try K s).log =
          s.log ++ Event.select_cb c 1 ::
            (l ++ [Event.writel v Reg.S3C2410_ADCCON,
              Event.writel (u32 (v ||| K.S3C2410_ADCCON_ENABLE_START)) Reg.S3C2410_ADCCON]) ∧
        (s3c_adc_try K s).con = u32 (v ||| K.S3C2410_ADCCON_ENABLE_START) ∧
        (l = [] ∨ ∃ m, l = [Event.writel m Reg.S5P_ADCMUX]) ∧
        (K.S3C2410_ADCCON_ENABLE_START &&& K.S3C2410_ADCCON_STARTMASK =
            K.S3C2410_ADCCON_ENABLE_START →
          K.S3C2410_ADCCON_PRSCEN &&& K.S3C2410_ADCCON_ENABLE_START = 0 →
          (∀ ch, K.S3C2410_ADCCON_SELMUX ch &&& K.S3C2410_ADCCON_ENABLE_START = 0) →
          v &&& K.S3C2410_ADCCON_ENABLE_START = 0) ∧
        (K.S3C2410_ADCCON_ENABLE_START < 2 ^ 32 →
          (s3c_adc_try K s).con &&& K.S3C2410_ADCCON_ENABLE_START =
            K.S3C2410_ADCCON_ENABLE_START)) := by
  refine ⟨fun p hp => ?_, fun n rest hts hpd => ?_, fun hts hpd => ?_, fun c hc => ?_⟩
  · exact ⟨try_cur_ts K s p hp, try_ts_pend K s, try_adc_pending_ts K s p hp, try_ts K s p hp⟩
  · exact ⟨try_cur_fifo K s n rest hts hpd, try_ts_pend K s,
      try_adc_pending_fifo K s n rest hts hpd, try_fifo K s n rest hts hpd⟩
  · have hcon : (s3c_adc_try K s).con =
        u32 ((s.con &&& not32 K.S3C2410_ADCCON_PRSCEN) ||| K.S3C2410_ADCCON_STDBM) := by
      rw [try_none K s hts hpd]; rfl
    refine ⟨by rw [try_cur_none K s hts hpd]; exact hidle, try_ts_pend K s,
      try_adc_pending_none K s hts hpd, hcon, ?_, fun hS => ?_, fun hd => ?_,
      fun hE h1 h2 => ?_⟩
    · rw [hcon, try_none K s hts hpd]; rfl
    · rw [hcon]; exact standby_bits_set _ _ _ hS
    · rw [hcon]; exact standby_prescaler_clear _ _ _ hd
    · rw [hcon]; exact standby_keeps_bits _ _ _ _ hE h1 h2
  · rcases hts : s.ts_pend with _ | p
    · rcases hpd : s.adc_pending with _ | ⟨n, rest⟩
      · rw [try_cur_none K s hts hpd, hidle] at hc
        exact absurd hc (by simp)
      · have hn : n = c := by
          rw [try_cur_fifo K s n rest hts hpd] at hc
          exact Option.some.inj hc
        subst hn
        refine ⟨Or.inr ⟨rfl, rfl⟩, ?_⟩
        rw [try_fifo K s n rest hts hpd]
        obtain ⟨v, l, h1, h2, h3, h4⟩ :=
          convert_select_calls K { s with adc_pending := rest, cur := some n } n
        exact ⟨v, l, h1, h2, h3, h4, fun hE => by rw [h2]; exact start_bits_set _ _ hE⟩
    · have hn : p = c := by
        rw [try_cur_ts K s p hts] at hc
        exact Option.some.inj hc
      subst hn
      refine ⟨Or.inl rfl, ?_⟩
      rw [try_ts K s p hts]
      obtain ⟨v, l, h1, h2, h3, h4⟩ :=
        convert_select_calls K { s with ts_pend := none, cur := some p } p
      exact ⟨v, l, h1, h2, h3, h4, fun hE => by rw [h2]; exact start_bits_set _ _ hE⟩

/-- C17 on the state with the priority client 0 and the clients 2, 3 waiting,
once the active client is gone, and on an idle device with nothing waiting. -/
theorem c17_dispatch_witness :
    ({ ts_waiting_state with cur := none } : State).cur = none ∧
    ({ ts_waiting_state with cur := none } : State).ts_pend = some 0 ∧
    (s3c_adc_try regs_adc_h { ts_waiting_state with cur := none }).cur = some 0 ∧
    (s3c_adc_try regs_adc_h { ts_waiting_state with cur := none }).adc_pending = [2, 3] ∧
    (s3c_adc_try regs_adc_h { ts_waiting_state with cur := none }).con &&&
      regs_adc_h.S3C2410_ADCCON_ENABLE_START = regs_adc_h.S3C2410_ADCCON_ENABLE_START ∧
    (s3c_adc_try regs_adc_h { ts_waiting_state with cur := none }).log =
      ts_waiting_state.log ++
        [Event.select_cb 0 1, Event.writel 16384 Reg.S3C2410_ADCCON,
          Event.writel 16385 Reg.S3C2410_ADCCON] ∧
    (∃ v l, (s3c_adc_try regs_adc_h { ts_waiting_state with cur := none }).log =
        ({ ts_waiting_state with cur := none } : State).log ++ Event.select_cb 0 1 ::
          (l ++ [Event.writel v Reg.S3C2410_ADCCON,
            Event.writel (u32 (v ||| regs_adc_h.S3C2410_ADCCON_ENABLE_START))
              Reg.S3C2410_ADCCON]) ∧
      v &&& regs_adc_h.S3C2410_ADCCON_ENABLE_START = 0) ∧
    ordinary_init.cur = none ∧
    (s3c_adc_try regs_adc_h ordinary_init).cur = none ∧
    (s3c_adc_try regs_adc_h ordinary_init).con &&& regs_adc_h.S3C2410_ADCCON_STDBM =
      regs_adc_h.S3C2410_ADCCON_STDBM ∧
    (s3c_adc_try regs_adc_h ordinary_init).con &&& regs_adc_h.S3C2410_ADCCON_PRSCEN = 0 ∧
    (s3c_adc_try regs_adc_h ordinary_init).log =
      [Event.writel 4 Reg.S3C2410_ADCCON] :=
  have h1 := (c17_dispatch regs_adc_h { ts_waiting_state with cur := none } rfl).1 0 (by decide)
  have h3 := (c17_dispatch regs_adc_h { ts_waiting_state with cur := none } rfl).2.2.2 0 h1.1
  have h2 := (c17_dispatch regs_adc_h ordinary_init rfl).2.2.1 rfl rfl
  ⟨rfl, by decide, h1.1, by rw [h1.2.2.1]; decide,
    (by obtain ⟨_, v, l, _, _, _, _, h⟩ := h3; exact h (by decide)),
    by decide,
    (by obtain ⟨_, v, l, hl, _, _, hv, _⟩ := h3
        exact ⟨v, l, hl, hv (by decide) (by decide) regs_adc_h_selmux_apart⟩),
    rfl, h2.1, h2.2.2.2.2.2.1 (by decide),
    h2.2.2.2.2.2.2.1 (by decide), by decide⟩

/-! ## C18 and C19: the end of a conversion -/

/-- The calls made at the label `exit:`. -/
theorem irq_exit_log_eq (s : State) :
    (s3c_adc_irq_exit s).2.log =
      s.log ++ (if s.cpu ≠ s3c_cpu_type.TYPE_ADCV1 then [Event.writel 0 Reg.S3C64XX_ADCCLRINT]
        else []) := by
  unfold s3c_adc_irq_exit
  simp only []
  split_ifs <;> simp

/-- The calls made when a client is retired. -/
theorem irq_finished_log_eq (s : State) (c : Nat) :
    (irq_finished s c).log =
      s.log ++ Event.select_cb c 0 ::
        (if (s.clients c).running = true then [] else [Event.warn_already_stopped c]) := by
  unfold irq_finished
  simp only [emit_clients]
  split_ifs <;> simp [State.emit, State.upd]

/-- C18: when the sample count of the active client `c` is 0 after the
delivery, the interrupt handler calls the select callback of `c` with 0,
clears the running flag of `c`, clears the active slot and runs dispatch:
afterwards the active client is the former priority-slot client if there was
one, else the former head of the pending list if there was one, else none. -/
theorem c18_irq_retires_client (K : regs_adc) (s : State) (c d0 d1 : Nat)
    (hcur : s.cur = some c) (hn : (s.clients c).nr_samples ≠ 0)
    (hz : ((irq_delivered s c d0 d1).clients c).nr_samples = 0) :
    (s3c_adc_irq K s d0 d1).1 = IRQ_HANDLED ∧
    (s3c_adc_irq K s d0 d1).2 =
      (s3c_adc_irq_exit (s3c_adc_try K (irq_finished (irq_delivered s c d0 d1) c))).2 ∧
    (irq_finished (irq_delivered s c d0 d1) c).cur = none ∧
    (∃ l, (s3c_adc_irq K s d0 d1).2.log =
      (irq_delivered s c d0 d1).log ++ Event.select_cb c 0 :: l) ∧
    ((s3c_adc_irq K s d0 d1).2.clients c).running = false ∧
    (s3c_adc_irq K s d0 d1).2.cur =
      (match s.ts_pend with
       | some p => some p
       | none => s.adc_pending.head?) ∧
    (s3c_adc_irq K s d0 d1).2.ts_pend = none ∧
    (s3c_adc_irq K s d0 d1).2.adc_pending =
      (match s.ts_pend with
       | some _ => s.adc_pending
       | none => s.adc_pending.tail) := by
  have hl : ¬ ((irq_delivered s c d0 d1).clients c).nr_samples > 0 := by rw [hz]; decide
  rw [irq_active_eq K s c d0 d1 hcur hn, if_neg hl]
  have fts : (irq_finished (irq_delivered s c d0 d1) c).ts_pend = s.ts_pend := by simp
  have fpd : (irq_finished (irq_delivered s c d0 d1) c).adc_pending = s.adc_pending := by simp
  refine ⟨rfl, rfl, rfl, ?_, ?_, ?_, by simp, ?_⟩
  · obtain ⟨l2, hl2⟩ := try_log_append K (irq_finished (irq_delivered s c d0 d1) c)
    rw [irq_exit_log_eq, hl2, irq_finished_log_eq]
    exact ⟨_, by simp only [List.append_assoc, List.cons_append]; rfl⟩
  · rw [irq_exit_clients, try_clients, irq_finished_clients, if_pos rfl]
  · rw [irq_exit_cur]
    rcases hts : s.ts_pend with _ | p
    · rcases hpd : s.adc_pending with _ | ⟨n, rest⟩
      · rw [try_cur_none K _ (by rw [fts, hts]) (by rw [fpd, hpd])]; rfl
      · rw [try_cur_fifo K _ n rest (by rw [fts, hts]) (by rw [fpd, hpd])]; rfl
    · rw [try_cur_ts K _ p (by rw [fts, hts])]
  · rw [irq_exit_adc_pending]
    rcases hts : s.ts_pend with _ | p
    · rcases hpd : s.adc_pending with _ | ⟨n, rest⟩
      · rw [try_adc_pending_none K _ (by rw [fts, hts]) (by rw [fpd, hpd])]; rfl
      · rw [try_adc_pending_fifo K _ n rest (by rw [fts, hts]) (by rw [fpd, hpd])]; rfl
    · rw [try_adc_pending_ts K _ p (by rw [fts, hts]), fpd]

/-- C18 on the state with client 1 active on its last sample, the priority
client 0 waiting and clients 2 and 3 in the pending list. -/
theorem c18_irq_retires_client_witness :
    ts_waiting_state.cur = some 1 ∧ (ts_waiting_state.clients 1).nr_samples ≠ 0 ∧
    ((irq_delivered ts_waiting_state 1 5 6).clients 1).nr_samples = 0 ∧
    ((s3c_adc_irq regs_adc_h ts_waiting_state 5 6).2.clients 1).running = false ∧
    (s3c_adc_irq regs_adc_h ts_waiting_state 5 6).2.cur = some 0 ∧
    (s3c_adc_irq regs_adc_h ts_waiting_state 5 6).2.adc_pending = [2, 3] :=
  have h := c18_irq_retires_client regs_adc_h ts_waiting_state 1 5 6
    (by decide) (by decide) (by decide)
  ⟨by decide, by decide, by decide, h.2.2.2.2.1, by rw [h.2.2.2.2.2.1]; decide,
    by rw [h.2.2.2.2.2.2.2]; decide⟩

/-- The count the delivery leaves: the decremented count, or what a callback
of the registrant stores, given the decremented count. -/
theorem irq_delivered_nr_samples (s : State) (c d0 d1 : Nat) :
    ((irq_delivered s c d0 d1).clients c).nr_samples =
      (match (s.clients c).convert_cb with
       | some (convert_fn.user f) =>
         u32 (f (irq_data0 s d0) (irq_data1 s d1) ((s.clients c).nr_samples - 1))
       | _ => (s.clients c).nr_samples - 1) := by
  unfold irq_delivered
  simp only [upd_clients_same]
  rcases hcb : (s.clients c).convert_cb with _ | cb
  · simp
  · cases cb with
    | s3c_convert_done => simp [call_convert, s3c_convert_done]
    | user f => simp [call_convert]

/-- C19: the interrupt handler decrements the sample count of the active
client `c` before the delivery, and the count the delivery leaves decides:
when it is greater than 0, `c` stays the active client, its running flag, the
priority slot and the pending list are as before, and after the delivery the
handler calls the select callback of `c` with 1 and `s3c_adc_convert` once
(the write of the control register with the start bit set), then clears the
interrupt. -/
theorem c19_irq_continues (K : regs_adc) (s : State) (c d0 d1 : Nat)
    (hcur : s.cur = some c) (hn : (s.clients c).nr_samples ≠ 0)
    (hpos : 0 < ((irq_delivered s c d0 d1).clients c).nr_samples) :
    ((irq_delivered s c d0 d1).clients c).nr_samples =
      (match (s.clients c).convert_cb with
       | some (convert_fn.user f) =>
         u32 (f (irq_data0 s d0) (irq_data1 s d1) ((s.clients c).nr_samples - 1))
       | _ => (s.clients c).nr_samples - 1) ∧
    (s3c_adc_irq K s d0 d1).2 =
      (s3c_adc_irq_exit
        (s3c_adc_convert K ((irq_delivered s c d0 d1).emit (Event.select_cb c 1)))).2 ∧
    (s3c_adc_irq K s d0 d1).2.cur = some c ∧
    ((s3c_adc_irq K s d0 d1).2.clients c).running = (s.clients c).running ∧
    ((s3c_adc_irq K s d0 d1).2.clients c).nr_samples =
      ((irq_delivered s c d0 d1).clients c).nr_samples ∧
    (s3c_adc_irq K s d0 d1).2.ts_pend = s.ts_pend ∧
    (s3c_adc_irq K s d0 d1).2.adc_pending = s.adc_pending ∧
    (s3c_adc_irq K s d0 d1).2.con = u32 (s.con ||| K.S3C2410_ADCCON_ENABLE_START) ∧
    (s3c_adc_irq K s d0 d1).2.log =
      (irq_delivered s c d0 d1).log ++
        [Event.select_cb c 1,
          Event.writel (u32 (s.con ||| K.S3C2410_ADCCON_ENABLE_START)) Reg.S3C2410_ADCCON] ++
        (if s.cpu ≠ s3c_cpu_type.TYPE_ADCV1 then [Event.writel 0 Reg.S3C64XX_ADCCLRINT]
         else []) := by
  rw [irq_active_eq K s c d0 d1 hcur hn, if_pos hpos]
  refine ⟨irq_delivered_nr_samples s c d0 d1, rfl, by simpa using hcur, ?_, by simp, by simp,
    by simp, ?_, ?_⟩
  · simp only [irq_exit_clients, convert_clients, emit_clients]
    exact (irq_delivered_attrs s c d0 d1 c).1
  · simp [s3c_adc_convert]
  · rw [irq_exit_log_eq, convert_log, emit_log]
    simp

/-- C19 with a callback that raises the count: client 1 has 3 samples to go,
the handler decrements to 2, the callback stores 3, and client 1 stays
active with 3 samples to go. -/
theorem c19_irq_continues_witness :
    streaming_state.cur = some 1 ∧ (streaming_state.clients 1).nr_samples = 3 ∧
    ((irq_delivered streaming_state 1 5 6).clients 1).nr_samples = 3 ∧
    (s3c_adc_irq regs_adc_h streaming_state 5 6).2.cur = some 1 ∧
    ((s3c_adc_irq regs_adc_h streaming_state 5 6).2.clients 1).running = true ∧
    ((s3c_adc_irq regs_adc_h streaming_state 5 6).2.clients 1).nr_samples = 3 :=
  have h := c19_irq_continues regs_adc_h streaming_state 1 5 6 (by decide) (by decide)
    (by decide)
  ⟨by decide, by decide, by decide, h.2.2.1, by rw [h.2.2.2.1]; decide,
    by rw [h.2.2.2.2.1]; decide⟩

/-! ## C20: an interrupt with no active client -/

/-- C20: with no active client the interrupt handler returns `IRQ_HANDLED`
and leaves the active slot, the priority slot, the pending list, every client
record and the control register as they are; its outgoing calls are the
warning and, on every revision but ADCV1, the write of 0 to the interrupt
clear register: no callback is called and no conversion is started. -/
theorem c20_irq_without_client (K : regs_adc) (s : State) (d0 d1 : Nat) (h : s.cur = none) :
    (s3c_adc_irq K s d0 d1).1 = IRQ_HANDLED ∧
    (s3c_adc_irq K s d0 d1).2.cur = none ∧
    (s3c_adc_irq K s d0 d1).2.ts_pend = s.ts_pend ∧
    (s3c_adc_irq K s d0 d1).2.adc_pending = s.adc_pending ∧
    (s3c_adc_irq K s d0 d1).2.clients = s.clients ∧
    (s3c_adc_irq K s d0 d1).2.con = s.con ∧
    (s3c_adc_irq K s d0 d1).2.log =
      s.log ++ Event.warn_no_adc_pending ::
        (if s.cpu ≠ s3c_cpu_type.TYPE_ADCV1 then [Event.writel 0 Reg.S3C64XX_ADCCLRINT]
         else []) := by
  rw [irq_idle_eq K s d0 d1 h]
  refine ⟨rfl, by simpa using h, by simp, by simp, by simp, by simp, ?_⟩
  unfold s3c_adc_irq_exit
  simp only [emit_cpu]
  split_ifs <;> simp

/-- C20 on an idle S3C24XX device and on an idle S3C64XX device. -/
theorem c20_irq_without_client_witness :
    ordinary_init.cur = none ∧ ts0_init.cur = none ∧
    (s3c_adc_irq regs_adc_h ordinary_init 5 6).2.log = [Event.warn_no_adc_pending] ∧
    (s3c_adc_irq regs_adc_h ts0_init 5 6).2.log =
      [Event.warn_no_adc_pending, Event.writel 0 Reg.S3C64XX_ADCCLRINT] :=
  ⟨rfl, rfl, (c20_irq_without_client regs_adc_h ordinary_init 5 6 rfl).2.2.2.2.2.2,
    (c20_irq_without_client regs_adc_h ts0_init 5 6 rfl).2.2.2.2.2.2⟩

/-! ## C21: the running flag and the three places -/

/-- C21: in every state reached from an idle device by starts, stops and
interrupts, made one after the other, the running flag of a client is set
exactly when the device refers to the client: the client is the active
client, it is in the priority slot, or it is in the pending list. -/
theorem c21_running_iff_referenced (K : regs_adc) (s : State) (h : Reachable K s) (c : Nat) :
    (s.clients c).running = true ↔
      (s.cur = some c ∨ s.ts_pend = some c ∨ c ∈ s.adc_pending) :=
  (reachable_inv h).run_ref c

/-- C21 after a run with a priority client, two ordinary clients, an interrupt
and a stop: the active client 1 and the waiting priority client 0 are running,
the stopped client 2 and the client 4 that never started are not. -/
theorem c21_running_iff_referenced_witness :
    Reachable regs_adc_h after_stop_state ∧
    after_stop_state.cur = some 1 ∧ after_stop_state.ts_pend = some 0 ∧
    after_stop_state.adc_pending = [] ∧
    ((after_stop_state.clients 1).running = true ↔
      (after_stop_state.cur = some 1 ∨ after_stop_state.ts_pend = some 1 ∨
        1 ∈ after_stop_state.adc_pending)) ∧
    ((after_stop_state.clients 0).running = true ↔
      (after_stop_state.cur = some 0 ∨ after_stop_state.ts_pend = some 0 ∨
        0 ∈ after_stop_state.adc_pending)) ∧
    ((after_stop_state.clients 2).running = true ↔
      (after_stop_state.cur = some 2 ∨ after_stop_state.ts_pend = some 2 ∨
        2 ∈ after_stop_state.adc_pending)) ∧
    (after_stop_state.clients 1).running = true ∧
    (after_stop_state.clients 0).running = true ∧
    (after_stop_state.clients 2).running = false ∧
    (after_stop_state.clients 4).running = false :=
  have hr : Reachable regs_adc_h after_stop_state :=
    ⟨ts0_init, _, ⟨rfl, rfl, rfl, fun _ => rfl⟩, rfl⟩
  ⟨hr, by decide, by decide, by decide,
    c21_running_iff_referenced regs_adc_h _ hr 1,
    c21_running_iff_referenced regs_adc_h _ hr 0,
    c21_running_iff_referenced regs_adc_h _ hr 2,
    by decide, by decide, by decide, by decide⟩

/-! ## C22: no request waits on an idle device -/

/-- C22: in every state reached from an idle device by starts, stops and
interrupts, when there is no active client the priority slot is empty and the
pending list is empty; so whenever a client waits, in the priority slot or in
the pending list, another client is the active client. -/
theorem c22_work_conserving (K : regs_adc) (s : State) (h : Reachable K s) :
    (s.cur = none → s.ts_pend = none ∧ s.adc_pending = []) ∧
    (∀ c, waiting s c → ∃ a, s.cur = some a ∧ a ≠ c) := by
  have hi := reachable_inv h
  refine ⟨hi.work, ?_⟩
  intro c hw
  rcases hcur : s.cur with _ | a
  · obtain ⟨h1, h2⟩ := hi.work hcur
    rcases hw with hw | hw
    · rw [h1] at hw; exact absurd hw (by simp)
    · rw [h2] at hw; exact absurd hw (by simp)
  · refine ⟨a, rfl, ?_⟩
    rintro rfl
    obtain ⟨h1, h2⟩ := hi.cur_not_wait a hcur
    rcases hw with hw | hw
    · exact h1 hw
    · exact h2 hw

/-- C22 on the device after two requests have been served, where nothing is
active and nothing waits, and on a busy device, where the waiting priority
client 0 has the active client 1 before it. -/
theorem c22_work_conserving_witness :
    Reachable regs_adc_h drained_state ∧ drained_state.cur = none ∧
    (drained_state.ts_pend = none ∧ drained_state.adc_pending = []) ∧
    Reachable regs_adc_h after_stop_state ∧ waiting after_stop_state 0 ∧
    (∃ a, after_stop_state.cur = some a ∧ a ≠ 0) :=
  have hr : Reachable regs_adc_h drained_state :=
    ⟨ts0_init, _, ⟨rfl, rfl, rfl, fun _ => rfl⟩, rfl⟩
  have hr2 : Reachable regs_adc_h after_stop_state :=
    ⟨ts0_init, _, ⟨rfl, rfl, rfl, fun _ => rfl⟩, rfl⟩
  have hw : waiting after_stop_state 0 := Or.inl (by decide)
  ⟨hr, by decide, (c22_work_conserving regs_adc_h _ hr).1 (by decide),
    hr2, hw, (c22_work_conserving regs_adc_h _ hr2).2 0 hw⟩

/-! ## C23: a request for no samples -/

/-- A call other than a stop of `c` leaves the record of `c` alone when `c` is
running with no sample to go. -/
theorem zero_step_client (K) (s : State) (c : Nat) (op : Op)
    (hn : (s.clients c).nr_samples = 0) (hr : (s.clients c).running = true)
    (hop : op ≠ Op.stop c) : (step K s op).clients c = s.clients c := by
  cases op with
  | start d ch n w =>
    simp only [step]
    by_cases hd : c = d
    · subst hd
      by_cases h1 : (s.clients c).is_ts ≠ 0 ∧ s.ts_pend ≠ none
      · simp only [s3c_adc_start, if_pos h1]
      · simp only [s3c_adc_start, if_neg h1, if_pos hr, emit_clients]
    · exact start_clients_ne K s d ch n w c hd
  | stop d =>
    have hd : c ≠ d := fun h => hop (by rw [h])
    simp only [step]
    rw [stop_clients, if_neg hd]
  | irq d0 d1 =>
    simp only [step]
    rcases hcur : s.cur with _ | a
    · rw [irq_idle_eq K s d0 d1 hcur]; simp
    · by_cases ha : (s.clients a).nr_samples = 0
      · rw [irq_zero_eq K s a d0 d1 hcur ha]; simp
      · have hca : c ≠ a := by
          rintro rfl
          exact ha hn
        rw [irq_active_eq K s a d0 d1 hcur ha]
        split_ifs
        · simp only [irq_exit_clients, convert_clients, emit_clients]
          exact irq_delivered_clients_ne s a d0 d1 c hca
        · simp only [irq_exit_clients, try_clients]
          rw [irq_finished_clients, if_neg hca]
          exact irq_delivered_clients_ne s a d0 d1 c hca

/-- A sequence of calls without a stop of `c` leaves the record of `c` alone
when `c` is running with no sample to go. -/
theorem zero_run_client (K) (c : Nat) (ops : List Op) :
    ∀ (s : State), (s.clients c).nr_samples = 0 → (s.clients c).running = true →
      Op.stop c ∉ ops → (run K s ops).clients c = s.clients c := by
  induction ops with
  | nil => intro s _ _ _; rfl
  | cons op ops ih =>
    intro s hn hr hno
    have hop : op ≠ Op.stop c := fun h => hno (by rw [h]; exact List.mem_cons_self _ _)
    have hrest : Op.stop c ∉ ops := fun h => hno (List.mem_cons_of_mem _ h)
    have hs := zero_step_client K s c op hn hr hop
    have hstep : run K s (op :: ops) = run K (step K s op) ops := rfl
    rw [hstep, ih (step K s op) (by rw [hs]; exact hn) (by rw [hs]; exact hr) hrest, hs]

/-- A call other than a stop of the active client, which has no sample to go,
leaves the active slot and the control register alone. -/
theorem zero_step_active (K) (s : State) (c : Nat) (op : Op) (hcur : s.cur = some c)
    (hn : (s.clients c).nr_samples = 0)
    (hop : op ≠ Op.stop c) : (step K s op).cur = some c ∧ (step K s op).con = s.con := by
  cases op with
  | start d ch n w =>
    simp only [step]
    by_cases h1 : (s.clients d).is_ts ≠ 0 ∧ s.ts_pend ≠ none
    · rw [show s3c_adc_start K s d ch n w = (-EAGAIN, s) by
        simp only [s3c_adc_start, if_pos h1]]
      exact ⟨hcur, rfl⟩
    · by_cases h2 : (s.clients d).running = true
      · rw [show s3c_adc_start K s d ch n w =
            (-EAGAIN, s.emit (Event.warn_already_running d)) by
          simp only [s3c_adc_start, if_neg h1, if_pos h2]]
        exact ⟨hcur, rfl⟩
      · have h2f : (s.clients d).running = false := by simpa using h2
        have hq : ¬ (start_queued s d ch n w).cur = none := by
          rw [start_queued_cur, hcur]; simp
        rw [start_ok_eq K s d ch n w h1 h2f]
        simp only []
        rw [if_neg hq]
        exact ⟨by rw [start_queued_cur, hcur], start_queued_con s d ch n w⟩
  | stop d =>
    have hd : c ≠ d := fun h => hop (by rw [h])
    have hq : (stop_removed s d).cur = some c := by
      rw [stop_removed_cur, hcur, if_neg (by simpa using hd)]
    simp only [step]
    rw [stop_eq, if_neg (by rw [hq]; simp)]
    exact ⟨hq, stop_removed_con s d⟩
  | irq d0 d1 =>
    simp only [step]
    rw [irq_zero_eq K s c d0 d1 hcur hn]
    simp [hcur]

/-- No sequence of calls without a stop of the active client takes the device
from a client that is running with no sample to go. -/
theorem zero_run_active (K) (c : Nat) (ops : List Op) :
    ∀ (s : State), s.cur = some c → (s.clients c).nr_samples = 0 →
      (s.clients c).running = true → Op.stop c ∉ ops →
      (run K s ops).cur = some c ∧ (run K s ops).con = s.con := by
  induction ops with
  | nil => intro s hcur _ _ _; exact ⟨hcur, rfl⟩
  | cons op ops ih =>
    intro s hcur hn hr hno
    have hop : op ≠ Op.stop c := fun h => hno (by rw [h]; exact List.mem_cons_self _ _)
    have hrest : Op.stop c ∉ ops := fun h => hno (List.mem_cons_of_mem _ h)
    have hs := zero_step_client K s c op hn hr hop
    obtain ⟨h1, h2⟩ := zero_step_active K s c op hcur hn hop
    have hstep : run K s (op :: ops) = run K (step K s op) ops := rfl
    obtain ⟨h3, h4⟩ := ih (step K s op) h1 (by rw [hs]; exact hn) (by rw [hs]; exact hr) hrest
    rw [hstep]
    exact ⟨h3, by rw [h4, h2]⟩

/-- Interrupts change nothing but the log while the active client has no
sample to go. -/
theorem zero_irqs (K) (c : Nat) (ds : List (Nat × Nat)) :
    ∀ (s : State), s.cur = some c → (s.clients c).nr_samples = 0 →
      (irqs K s ds).cur = some c ∧ (irqs K s ds).ts_pend = s.ts_pend ∧
      (irqs K s ds).adc_pending = s.adc_pending ∧ (irqs K s ds).clients = s.clients ∧
      (irqs K s ds).con = s.con := by
  induction ds with
  | nil => intro s hcur _; exact ⟨hcur, rfl, rfl, rfl, rfl⟩
  | cons d ds ih =>
    intro s hcur hn
    have hstep : irqs K s (d :: ds) = irqs K (s3c_adc_irq K s d.1 d.2).2 ds := rfl
    have e := irq_zero_eq K s c d.1 d.2 hcur hn
    have c1 : (s3c_adc_irq K s d.1 d.2).2.cur = some c := by rw [e]; simpa using hcur
    have c2 : (s3c_adc_irq K s d.1 d.2).2.clients = s.clients := by rw [e]; simp
    have c3 : (s3c_adc_irq K s d.1 d.2).2.ts_pend = s.ts_pend := by rw [e]; simp
    have c4 : (s3c_adc_irq K s d.1 d.2).2.adc_pending = s.adc_pending := by rw [e]; simp
    have c5 : (s3c_adc_irq K s d.1 d.2).2.con = s.con := by rw [e]; simp
    obtain ⟨i1, i2, i3, i4, i5⟩ := ih (s3c_adc_irq K s d.1 d.2).2 c1 (by rw [c2]; exact hn)
    rw [hstep]
    exact ⟨i1, by rw [i2, c3], by rw [i3, c4], by rw [i4, c2], by rw [i5, c5]⟩

/-- A stop of the active client hands the device to the waiting priority
client, or else to the head of the pending list. -/
theorem stop_active_cur (K) {s : State} (hi : Inv s) (c : Nat) (hcur : s.cur = some c) :
    (s3c_adc_stop K s c).cur =
      match s.ts_pend with
      | some d => some d
      | none => s.adc_pending.head? := by
  obtain ⟨h1, h2⟩ := hi.cur_not_wait c hcur
  have q1 : (stop_removed s c).cur = none := by rw [stop_removed_cur, if_pos hcur]
  have q2 : (stop_removed s c).ts_pend = s.ts_pend := by rw [stop_removed_ts_pend, if_neg h1]
  have q3 : (stop_removed s c).adc_pending = s.adc_pending := by
    rw [stop_removed_adc_pending, if_neg h1, List.filter_eq_self]
    intro x hx
    have : x ≠ c := by rintro rfl; exact h2 hx
    simpa using this
  rw [stop_eq, if_pos q1]
  rcases hts : s.ts_pend with _ | d
  · rcases hp : s.adc_pending with _ | ⟨n, rest⟩
    · rw [try_cur_none K _ (by rw [q2, hts]) (by rw [q3, hp]), q1]; rfl
    · rw [try_cur_fifo K _ n rest (by rw [q2, hts]) (by rw [q3, hp])]; rfl
  · rw [try_cur_ts K _ d (by rw [q2, hts])]

/-- C23: `s3c_adc_start` accepts a request for 0 samples from a client that is
not running and is not kept out by a waiting priority client: it returns 0 and
stores the count 0.  Whatever calls follow, short of a stop of that client,
its record stays as the start left it.  Once it is the active client, every
interrupt returns `IRQ_HANDLED` after the "no adc pending" warning and leaves
the active slot, the priority slot, the pending list, every client record and
the control register as they are; no further calls, short of a stop of that
client, take the device from it or start a conversion; and a stop of that
client hands the device to the waiting priority client or else to the head of
the pending list. -/
theorem c23_zero_samples_hold_the_device (K : regs_adc) (s : State) (c ch : Nat)
    (w : Option Nat) (hrun : (s.clients c).running = false)
    (hts : (s.clients c).is_ts ≠ 0 → s.ts_pend = none) :
    (s3c_adc_start K s c ch 0 w).1 = 0 ∧
    ∀ ops, Op.stop c ∉ ops → ∀ t, t = run K (s3c_adc_start K s c ch 0 w).2 ops →
      t.clients c =
        { s.clients c with running := true, convert_cb := some convert_fn.s3c_convert_done,
                           wait := w, result := -1, channel := u8 ch, nr_samples := 0 } ∧
      (t.cur = some c →
        (∀ d0 d1,
          (s3c_adc_irq K t d0 d1).1 = IRQ_HANDLED ∧
          (s3c_adc_irq K t d0 d1).2.cur = some c ∧
          (s3c_adc_irq K t d0 d1).2.ts_pend = t.ts_pend ∧
          (s3c_adc_irq K t d0 d1).2.adc_pending = t.adc_pending ∧
          (s3c_adc_irq K t d0 d1).2.clients = t.clients ∧
          (s3c_adc_irq K t d0 d1).2.con = t.con ∧
          (s3c_adc_irq K t d0 d1).2.log =
            t.log ++ Event.warn_no_adc_pending ::
              (if t.cpu ≠ s3c_cpu_type.TYPE_ADCV1 then [Event.writel 0 Reg.S3C64XX_ADCCLRINT]
               else [])) ∧
        (∀ ds, (irqs K t ds).cur = some c ∧ (irqs K t ds).ts_pend = t.ts_pend ∧
          (irqs K t ds).adc_pending = t.adc_pending ∧ (irqs K t ds).clients = t.clients ∧
          (irqs K t ds).con = t.con) ∧
        (∀ more, Op.stop c ∉ more →
          (run K t more).cur = some c ∧ (run K t more).con = t.con ∧
          (run K t more).clients c = t.clients c) ∧
        (Reachable K s →
          (s3c_adc_stop K t c).cur =
            match t.ts_pend with
            | some d => some d
            | none => t.adc_pending.head?)) := by
  have h1 : ¬((s.clients c).is_ts ≠ 0 ∧ s.ts_pend ≠ none) := fun h => h.2 (hts h.1)
  have hret : (s3c_adc_start K s c ch 0 w).1 = 0 := by rw [start_ok_eq K s c ch 0 w h1 hrun]
  have hrec := start_ok_client K s c ch 0 w hret
  have hu : u32 0 = 0 := rfl
  rw [hu] at hrec
  refine ⟨hret, ?_⟩
  intro ops hno t ht
  have hn0 : ((s3c_adc_start K s c ch 0 w).2.clients c).nr_samples = 0 := by rw [hrec]
  have hr0 : ((s3c_adc_start K s c ch 0 w).2.clients c).running = true := by rw [hrec]
  have hcl : t.clients c = (s3c_adc_start K s c ch 0 w).2.clients c := by
    rw [ht]; exact zero_run_client K c ops _ hn0 hr0 hno
  have hn : (t.clients c).nr_samples = 0 := by rw [hcl]; exact hn0
  have hr : (t.clients c).running = true := by rw [hcl]; exact hr0
  refine ⟨by rw [hcl, hrec], ?_⟩
  intro hcur
  refine ⟨?_, fun ds => zero_irqs K c ds t hcur hn, ?_, ?_⟩
  · intro d0 d1
    rw [irq_zero_eq K t c d0 d1 hcur hn]
    refine ⟨rfl, by simpa using hcur, by simp, by simp, by simp, by simp, ?_⟩
    unfold s3c_adc_irq_exit
    simp only [emit_cpu]
    split_ifs <;> simp
  · intro more hmore
    obtain ⟨a, b⟩ := zero_run_active K c more t hcur hn hr hmore
    exact ⟨a, b, zero_run_client K c more t hn hr hmore⟩
  · intro hreach
    have hi : Inv t := by
      rw [ht]
      exact run_inv K ops (step_inv K (reachable_inv hreach) (Op.start c ch 0 w))
    exact stop_active_cur K hi c hcur

/-- C23 on a device where client 2 asks for 0 samples while client 1 is
active and is dispatched by the interrupt that completes client 1: the start
returns 0; five more interrupts, a start and a stop of other clients and a
second start of client 2 leave client 2 active and client 3 in the pending
list; the stop of client 2 hands the device to client 3. -/
theorem c23_zero_samples_hold_the_device_witness :
    (zero_request_state.clients 2).running = false ∧
    (s3c_adc_start regs_adc_h zero_request_state 2 0 0 none).1 = 0 ∧
    zero_active_state.cur = some 2 ∧ zero_active_state.adc_pending = [3] ∧
    (zero_active_state.clients 2).nr_samples = 0 ∧
    (s3c_adc_irq regs_adc_h zero_active_state 5 6).2.cur = some 2 ∧
    (s3c_adc_irq regs_adc_h zero_active_state 5 6).2.adc_pending = [3] ∧
    (run regs_adc_h zero_active_state
      [Op.irq 1 2, Op.irq 3 4, Op.start 4 0 1 none, Op.irq 5 6, Op.stop 4, Op.start 2 0 1 none,
        Op.irq 7 8, Op.irq 9 10]).cur = some 2 ∧
    (s3c_adc_stop regs_adc_h zero_active_state 2).cur = some 3 :=
  have hr : Reachable regs_adc_h zero_request_state :=
    ⟨ts0_init, _, ⟨rfl, rfl, rfl, fun _ => rfl⟩, rfl⟩
  have h := c23_zero_samples_hold_the_device regs_adc_h zero_request_state 2 0 none
    (by decide) (fun _ => by decide)
  have h2 := h.2 [Op.start 3 0 1 none, Op.irq 5 6] (by decide) zero_active_state rfl
  have h3 := h2.2 (by decide)
  ⟨by decide, h.1, by decide, by decide, by rw [h2.1],
    (h3.1 5 6).2.1,
    (by rw [(h3.1 5 6).2.2.2.1]; decide),
    (h3.2.2.1 _ (by decide)).1,
    (by rw [h3.2.2.2 hr]; decide)⟩

end S3cAdc
